import Mathlib

/-!
# CRT hit / TPC track t0 matching (`icaruscode/CRT/CRTUtils/CRTT0MatchAlg.cc`)

Shallow embedding of `icarus::CRTT0MatchAlg` and a verification of its matching
contract.

Modelling conventions

* C++ `double`/`float` values are elements of an arbitrary linearly ordered field `α`
  (instantiated at `ℚ` to run the model).  Rounding and overflow are not represented.
* Each function is embedded twice.  The definitions under the names of the source
  (`SimpleDCA`, `CubeIntersection`, `DistToCrtHit`, `TrackDirectionAverage`, `bestmatch`,
  `GetClosestCRTHit`, `T0FromCRTHits`, ...) compute in `α`, where `x / 0` is `0` as
  everywhere in Mathlib.  The definitions with the suffix `IEEE` (and
  `CubeIntersectionOfDoubles`) compute in `Double α`, which adds `+∞`, `-∞` and
  not-a-number to the numbers: a number over zero is an infinity, `0 / 0` and `0 * ∞` are
  not-a-number, and every comparison with not-a-number is false except `!=`.  A zero is
  taken as `+0`.  The two embeddings agree on the inputs on which the code divides by no
  zero (`GetClosestCRTHitIEEE_eq`, `T0FromCRTHitsIEEE_agrees` and the lemmas before them);
  statements that reach inputs on which the code divides by zero are made on the second.
* `sqrt` (used by `TVector3::Mag`) is an explicit parameter `sqrt : α → α`.
* The cast `(double)(int)x` of a timestamp truncates toward zero and reduces to the range
  of a 32-bit `int` (`truncToInt`); `floor` is `Int.floor`.
* A thrown `std::out_of_range` (from `std::vector::at`) is the result `none`.
* Types and services that live outside this file of the repository (`recob::Track`,
  `sbn::crt::CRTHit`, the space-charge and geometry services, `TPCGeoUtil`) are records of
  exactly the observations the algorithm makes of them.
-/

namespace icarus

/-- Three-vector with the `TVector3` operations that the algorithm uses. -/
structure TVector3 (α : Type) where
  X : α
  Y : α
  Z : α
  deriving DecidableEq

namespace TVector3

variable {α : Type} [LinearOrderedField α]

/-- Componentwise sum, `a + b`. -/
def add (a b : TVector3 α) : TVector3 α := ⟨a.X + b.X, a.Y + b.Y, a.Z + b.Z⟩

/-- Componentwise difference, `a - b`. -/
def sub (a b : TVector3 α) : TVector3 α := ⟨a.X - b.X, a.Y - b.Y, a.Z - b.Z⟩

/-- Scaling by a scalar, `k * a`. -/
def smul (k : α) (a : TVector3 α) : TVector3 α := ⟨k * a.X, k * a.Y, k * a.Z⟩

instance : Add (TVector3 α) := ⟨add⟩
instance : Sub (TVector3 α) := ⟨sub⟩

/-- Scalar product, `TVector3::Dot`. -/
def Dot (a b : TVector3 α) : α := a.X * b.X + a.Y * b.Y + a.Z * b.Z

/-- Vector product, `TVector3::Cross`. -/
def Cross (a b : TVector3 α) : TVector3 α :=
  ⟨a.Y * b.Z - b.Y * a.Z, a.Z * b.X - b.Z * a.X, a.X * b.Y - b.X * a.Y⟩

/-- Squared magnitude, `TVector3::Mag2`. -/
def Mag2 (a : TVector3 α) : α := a.X * a.X + a.Y * a.Y + a.Z * a.Z

/-- Magnitude, `TVector3::Mag`, relative to the supplied square root. -/
def Mag (sqrt : α → α) (a : TVector3 α) : α := sqrt (Mag2 a)

end TVector3

/-- Modelled from the spec: the hit record `sbn::crt::CRTHit` (declared outside the source
file), with the fields the algorithm reads: light yield, two timestamps, position and
per-axis position uncertainty. -/
structure CRTHit (α : Type) where
  peshit : α
  ts0_ns : α
  ts1_ns : α
  x_pos : α
  x_err : α
  y_pos : α
  y_err : α
  z_pos : α
  z_err : α
  deriving DecidableEq

/-- Modelled from the spec: the candidate record `matchCand` (declared in the header
`CRTT0MatchAlg.h`): a hit with its corrected time `t0`, its distance of closest approach
`dca` and the extrapolation length `extrapLen`, the fields that `makeNULLmc` sets. -/
structure matchCand (α : Type) where
  thishit : CRTHit α
  t0 : α
  dca : α
  extrapLen : α
  deriving DecidableEq

/-- Modelled from the spec: the track `recob::Track` (declared outside the source file), as
the record of the accessors the algorithm calls.  `Start` is `Vertex()`/`Start()`, `NPoints` is
`NPoints()`/`NumberTrajectoryPoints()`, and `FlagsAtPointIsInvalidHitIndex i` is the outcome
of the test `trajectory.FlagsAtPoint(i) == recob::TrajectoryPointFlags::InvalidHitIndex`. -/
structure Track (α : Type) where
  Length : α
  Start : TVector3 α
  End : TVector3 α
  NPoints : ℕ
  LocationAtPoint : ℤ → TVector3 α
  DirectionAtPoint : ℕ → TVector3 α
  FlagsAtPointIsInvalidHitIndex : ℕ → Bool

/-- Observation made of `detinfo::DetectorPropertiesData`. -/
structure DetectorPropertiesData (α : Type) where
  DriftVelocity : α

/-- Observations made of `spacecharge::SpaceCharge`. -/
structure SpaceCharge (α : Type) where
  EnableCalSpatialSCE : Bool
  GetCalPosOffsets : TVector3 α → ℕ → TVector3 α

/-- Observation made of `geo::GeometryCore`: the TPC number of a position. -/
structure GeometryCore (α : Type) where
  PositionToTPCID : TVector3 α → ℕ

/-- The two `TPCGeoUtil` lookups on the TPC hits of a track (hit collections have the
opaque type `H`). -/
structure TPCGeoUtil (α : Type) (H : Type) where
  DriftDirectionFromHits : GeometryCore α → H → ℤ
  XLimitsFromHits : GeometryCore α → H → α × α

/-- Modelled from the spec: the data members of `CRTT0MatchAlg` (declared in the header
`CRTT0MatchAlg.h`): the configuration values assigned by `reconfigure` and the two service
pointers. -/
structure CRTT0MatchAlg (α : Type) where
  fMinTrackLength : α
  fTrackDirectionFrac : α
  fDistanceLimit : α
  fTSMode : ℤ
  fTimeCorrection : α
  fSCEposCorr : Bool
  fDirMethod : ℤ
  fDCAuseBox : Bool
  fDCAoverLength : Bool
  fDoverLLimit : α
  fPEcut : α
  fMaxUncert : α
  fGeometryService : GeometryCore α
  fSCE : SpaceCharge α

section Algorithm

variable {α : Type} [LinearOrderedField α] [FloorRing α]

/-- Modelled from the spec: the value of a default-constructed `sbn::crt::CRTHit` (its
constructor is outside the source file; all fields are taken as zero). -/
def CRTHit.blank : CRTHit α := ⟨0, 0, 0, 0, 0, 0, 0, 0, 0⟩

/-- Null candidate `makeNULLmc`. -/
def makeNULLmc : matchCand α :=
  { thishit := CRTHit.blank, t0 := -99999, dca := -99999, extrapLen := -99999 }

/-- Truncation toward zero of a number: the integer part that `(int)x` keeps. -/
def integerTruncated (x : α) : ℤ := if 0 ≤ x then ⌊x⌋ else ⌈x⌉

/-- Cast `(double)(int)x` through a 32-bit `int`: truncation toward zero, reduced modulo
`2^32` into the range `[-2^31, 2^31)` of `int`.  Within that range this is the truncation.
Outside it the conversion of a floating value is undefined and that of an integer value is
modular; the model takes the modular value, which at `2^31` is also the value `-2^31` that
x86 answers for a floating value. -/
def truncToInt (x : α) : α :=
  (((integerTruncated x + 2147483648) % 4294967296 - 2147483648 : ℤ) : α)

/-- Possible t0 range of a track, `TrackT0Range`.  For a zero drift velocity the code
divides by zero; see `TrackT0RangeIEEE`. -/
def TrackT0Range (detProp : DetectorPropertiesData α) (startX endX : α) (driftDirection : ℤ)
    (xLimits : α × α) : α × α :=
  if driftDirection = 0 then (0, 0)
  else
    let Vd := (driftDirection : α) * detProp.DriftVelocity
    let maxX := max startX endX
    let maxLimit := max xLimits.1 xLimits.2
    let maxShift := maxLimit - maxX
    let minX := min startX endX
    let minLimit := min xLimits.1 xLimits.2
    let minShift := minLimit - minX
    let t0max := maxShift / Vd
    let t0min := minShift / Vd
    (min t0min t0max, max t0min t0max)

/-- Distance between the infinite track line and the centre of the hit, `SimpleDCA`.  For a
zero `direction` the code computes `0 / 0`, which is `0` here and not-a-number in
`SimpleDCAIEEE`. -/
def SimpleDCA (sqrt : α → α) (hit : CRTHit α) (start direction : TVector3 α) : α :=
  let pos : TVector3 α := ⟨hit.x_pos, hit.y_pos, hit.z_pos⟩
  let end_ := start + direction
  let denominator := direction.Mag sqrt
  let numerator := ((pos - start).Cross (pos - end_)).Mag sqrt
  numerator / denominator

/-- Distance between the segment `(start1, end1)` and the infinite line through
`start2`, `end2`: `LineSegmentDistance`. -/
def LineSegmentDistance (sqrt : α → α) (start1 end1 start2 end2 : TVector3 α) : α :=
  let smallNum : α := 0.00001
  let direction1 := end1 - start1
  let direction2 := end2 - start2
  let u := direction1
  let v := direction2
  let w := start1 - start2
  let a := u.Dot u
  let b := u.Dot v
  let c := v.Dot v
  let d := u.Dot w
  let e := v.Dot w
  let D := a * c - b * b
  let sD := D
  let tD := D
  let r : (α × α) × (α × α) :=
    if D < smallNum then ((0, 1), (e, c))
    else
      let sN := (b * e - c * d) / D
      let tN := (a * e - b * d) / D
      if sN < 0 then ((0, sD), (e, c))
      else if sN > sD then ((sD, sD), (e + b, c))
      else ((sN, sD), (tN, tD))
  let sN := r.1.1
  let sD := r.1.2
  let tN := r.2.1
  let tD := r.2.2
  let sc := if |sN| < smallNum then 0 else sN / sD
  let tc := if |tN| < smallNum then 0 else tN / tD
  let dP := w + TVector3.smul sc u - TVector3.smul tc v
  dP.Mag sqrt

/-- Slab intersection of the infinite line through `start`, `end_` with the axis-aligned
box `[min, max]`: `CubeIntersection`.  The pair `(-99999, -99999, -99999)` twice means
that there is no intersection.  For a direction with a zero component the code computes
`1 / 0`, which is `0` here and `+∞` in `CubeIntersectionIEEE`; the two agree when no
component is zero (`CubeIntersectionIEEE_eq`). -/
def CubeIntersection (min max start end_ : TVector3 α) : TVector3 α × TVector3 α :=
  let dir := end_ - start
  let invDir : TVector3 α := ⟨1 / dir.X, 1 / dir.Y, 1 / dir.Z⟩
  let enter : TVector3 α := ⟨-99999, -99999, -99999⟩
  let exit : TVector3 α := ⟨-99999, -99999, -99999⟩
  let tx : α × α :=
    if invDir.X ≥ 0 then ((min.X - start.X) * invDir.X, (max.X - start.X) * invDir.X)
    else ((max.X - start.X) * invDir.X, (min.X - start.X) * invDir.X)
  let tmin := tx.1
  let tmax := tx.2
  let ty : α × α :=
    if invDir.Y ≥ 0 then ((min.Y - start.Y) * invDir.Y, (max.Y - start.Y) * invDir.Y)
    else ((max.Y - start.Y) * invDir.Y, (min.Y - start.Y) * invDir.Y)
  let tymin := ty.1
  let tymax := ty.2
  if tmin > tymax ∨ tymin > tmax then (enter, exit)
  else
    let tmin := if tymin > tmin then tymin else tmin
    let tmax := if tymax < tmax then tymax else tmax
    let tz : α × α :=
      if invDir.Z ≥ 0 then ((min.Z - start.Z) * invDir.Z, (max.Z - start.Z) * invDir.Z)
      else ((max.Z - start.Z) * invDir.Z, (min.Z - start.Z) * invDir.Z)
    let tzmin := tz.1
    let tzmax := tz.2
    if tmin > tzmax ∨ tzmin > tmax then (enter, exit)
    else
      let tmin := if tzmin > tmin then tzmin else tmin
      let tmax := if tzmax < tmax then tzmax else tmax
      let xmin := start.X + tmin * dir.X
      let xmax := start.X + tmax * dir.X
      let ymin := start.Y + tmin * dir.Y
      let ymax := start.Y + tmax * dir.Y
      let zmin := start.Z + tmin * dir.Z
      let zmax := start.Z + tmax * dir.Z
      (⟨xmin, ymin, zmin⟩, ⟨xmax, ymax, zmax⟩)

/-- Minimum distance from the infinite track line to the hit taken as a rectangle,
`DistToCrtHit`.  It follows the code for lines without zero direction component; for the
other lines see `DistToCrtHitIEEE`. -/
def DistToCrtHit (sqrt : α → α) (hit : CRTHit α) (start end_ : TVector3 α) : α :=
  let min : TVector3 α := ⟨hit.x_pos - hit.x_err, hit.y_pos - hit.y_err, hit.z_pos - hit.z_err⟩
  let max : TVector3 α := ⟨hit.x_pos + hit.x_err, hit.y_pos + hit.y_err, hit.z_pos + hit.z_err⟩
  if (CubeIntersection min max start end_).1.X ≠ -99999 then 0
  else
    let vs : (TVector3 α × TVector3 α) × (TVector3 α × TVector3 α) :=
      ((⟨hit.x_pos, hit.y_pos - hit.y_err, hit.z_pos - hit.z_err⟩,
        ⟨hit.x_pos, hit.y_pos + hit.y_err, hit.z_pos - hit.z_err⟩),
       (⟨hit.x_pos, hit.y_pos - hit.y_err, hit.z_pos + hit.z_err⟩,
        ⟨hit.x_pos, hit.y_pos + hit.y_err, hit.z_pos + hit.z_err⟩))
    let vs : (TVector3 α × TVector3 α) × (TVector3 α × TVector3 α) :=
      if hit.y_err < hit.x_err ∧ hit.y_err < hit.z_err then
        ((⟨hit.x_pos - hit.x_err, hit.y_pos, hit.z_pos - hit.z_err⟩,
          ⟨hit.x_pos + hit.x_err, hit.y_pos, hit.z_pos - hit.z_err⟩),
         (⟨hit.x_pos - hit.x_err, hit.y_pos, hit.z_pos + hit.z_err⟩,
          ⟨hit.x_pos + hit.x_err, hit.y_pos, hit.z_pos + hit.z_err⟩))
      else vs
    let vs : (TVector3 α × TVector3 α) × (TVector3 α × TVector3 α) :=
      if hit.z_err < hit.x_err ∧ hit.z_err < hit.y_err then
        ((⟨hit.x_pos - hit.x_err, hit.y_pos - hit.y_err, hit.z_pos⟩,
          ⟨hit.x_pos + hit.x_err, hit.y_pos - hit.y_err, hit.z_pos⟩),
         (⟨hit.x_pos - hit.x_err, hit.y_pos + hit.y_err, hit.z_pos⟩,
          ⟨hit.x_pos + hit.x_err, hit.y_pos + hit.y_err, hit.z_pos⟩))
      else vs
    let vertex1 := vs.1.1
    let vertex2 := vs.1.2
    let vertex3 := vs.2.1
    let vertex4 := vs.2.2
    let dist1 := LineSegmentDistance sqrt vertex1 vertex2 start end_
    let dist2 := LineSegmentDistance sqrt vertex1 vertex3 start end_
    let dist3 := LineSegmentDistance sqrt vertex4 vertex2 start end_
    let dist4 := LineSegmentDistance sqrt vertex4 vertex3 start end_
    Min.min (Min.min dist1 dist2) (Min.min dist3 dist4)

/-- Distance of closest approach of the track line through `trackPos` along `trackDir`
to the hit after the drift shift for time `t0`: `DistOfClosestApproach`. -/
def DistOfClosestApproach (sqrt : α → α) (alg : CRTT0MatchAlg α)
    (detProp : DetectorPropertiesData α) (trackPos trackDir : TVector3 α) (crtHit : CRTHit α)
    (driftDirection : ℤ) (t0 : α) : α :=
  let xshift := (driftDirection : α) * t0 * detProp.DriftVelocity
  let trackPos : TVector3 α := ⟨trackPos.X + xshift, trackPos.Y, trackPos.Z⟩
  let trackPos : TVector3 α :=
    if alg.fSCE.EnableCalSpatialSCE = true ∧ alg.fSCEposCorr = true then
      let temppt := trackPos
      let tpcid := alg.fGeometryService.PositionToTPCID temppt
      let fPosOffsets := alg.fSCE.GetCalPosOffsets temppt tpcid
      ⟨trackPos.X + fPosOffsets.X, trackPos.Y + fPosOffsets.Y, trackPos.Z + fPosOffsets.Z⟩
    else trackPos
  let end_ := trackPos + trackDir
  if alg.fDCAuseBox = true then DistToCrtHit sqrt crtHit trackPos end_
  else SimpleDCA sqrt crtHit trackPos trackDir

/-- Directions kept by the first loop of `TrackDirectionAverage`: those of the points whose
flags compare equal to `InvalidHitIndex`. -/
def validDirections (track : Track α) : List (TVector3 α) :=
  (List.range track.NPoints).filterMap fun i =>
    if track.FlagsAtPointIsInvalidHitIndex i = false then none
    else some (track.DirectionAtPoint i)

/-- Summation loop of `TrackDirectionAverage` after `k` iterations: the two running totals,
or `none` when one of the checked accesses `validDirections.at(..)` has thrown. -/
def directionTotals (validDirections : List (TVector3 α)) :
    ℕ → Option (TVector3 α × TVector3 α)
  | 0 => some (⟨0, 0, 0⟩, ⟨0, 0, 0⟩)
  | i + 1 =>
    match directionTotals validDirections i with
    | none => none
    | some (totStart, totEnd) =>
      match validDirections[i]? with
      | none => none
      | some dirStart =>
        match (if i + 1 ≤ validDirections.length
            then validDirections[validDirections.length - (i + 1)]? else none) with
        | none => none
        | some dirEnd => some (totStart + dirStart, totEnd + dirEnd)

/-- Track direction as an average over the directions at the first and last valid points,
`TrackDirectionAverage`.  When no point is averaged (`endPoint = 0`) the code computes
`0 / 0`, which is `0` here and not-a-number in `TrackDirectionAverageIEEE`. -/
def TrackDirectionAverage (track : Track α) (frac : α) : Option (TVector3 α × TVector3 α) :=
  let validDirections := validDirections track
  let nValidPoints := validDirections.length
  let endPoint : ℤ := ⌊(nValidPoints : α) * frac⌋
  match directionTotals validDirections endPoint.toNat with
  | none => none
  | some (totStart, totEnd) =>
    let startDir : TVector3 α :=
      ⟨-totStart.X / (endPoint : α), -totStart.Y / (endPoint : α), -totStart.Z / (endPoint : α)⟩
    let endDir : TVector3 α :=
      ⟨totEnd.X / (endPoint : α), totEnd.Y / (endPoint : α), totEnd.Z / (endPoint : α)⟩
    some (startDir, endDir)

/-- Track direction from the end points and one intermediate point, `TrackDirection`. -/
def TrackDirection (sqrt : α → α) (alg : CRTT0MatchAlg α) (detProp : DetectorPropertiesData α)
    (track : Track α) (frac : α) (CRTtime : α) (driftDirection : ℤ) :
    TVector3 α × TVector3 α :=
  let nTrackPoints := track.NPoints
  let midPt : ℤ := ⌊(nTrackPoints : α) * frac⌋
  let startP := track.Start
  let endP := track.End
  let midP := track.LocationAtPoint midPt
  let xshift := (driftDirection : α) * CRTtime * detProp.DriftVelocity
  let startPoint : TVector3 α := ⟨startP.X + xshift, startP.Y, startP.Z⟩
  let endPoint : TVector3 α := ⟨endP.X + xshift, endP.Y, endP.Z⟩
  let midPoint : TVector3 α := ⟨midP.X + xshift, midP.Y, midP.Z⟩
  let pts : TVector3 α × TVector3 α × TVector3 α :=
    if alg.fSCE.EnableCalSpatialSCE = true ∧ alg.fSCEposCorr = true then
      let corrected (p : TVector3 α) : TVector3 α :=
        let fTrackPos := p
        let tpcid := alg.fGeometryService.PositionToTPCID fTrackPos
        let fPosOffsets := alg.fSCE.GetCalPosOffsets fTrackPos tpcid
        ⟨fTrackPos.X + fPosOffsets.X, fTrackPos.Y + fPosOffsets.Y, fTrackPos.Z + fPosOffsets.Z⟩
      (corrected startPoint, corrected endPoint, corrected midPoint)
    else (startPoint, endPoint, midPoint)
  let startPoint := pts.1
  let endPoint := pts.2.1
  let midPoint := pts.2.2
  let startDir : TVector3 α :=
    ⟨midPoint.X - startPoint.X, midPoint.Y - startPoint.Y, midPoint.Z - startPoint.Z⟩
  let norm := startDir.Mag sqrt
  let startDir := if norm > 0 then TVector3.smul (1 / norm) startDir else startDir
  let endDir : TVector3 α :=
    ⟨midPoint.X - endPoint.X, midPoint.Y - endPoint.Y, midPoint.Z - endPoint.Z⟩
  let norm := endDir.Mag sqrt
  let endDir := if norm > 0 then TVector3.smul (1 / norm) endDir else endDir
  (startDir, endDir)

/-- Corrected hit time in microseconds, the `crtTime` of `GetClosestCRTHit` and of
`T0FromCRTHits`. -/
def crtTime (alg : CRTT0MatchAlg α) (crtHit : CRTHit α) : α :=
  if alg.fTSMode = 1 then truncToInt crtHit.ts1_ns * 1e-3 + alg.fTimeCorrection
  else truncToInt crtHit.ts0_ns * 1e-3 + alg.fTimeCorrection

/-- Directions used for one hit in `GetClosestCRTHit` (`fDirMethod == 2` selects the
averaged direction). -/
def startEndDir (sqrt : α → α) (alg : CRTT0MatchAlg α) (detProp : DetectorPropertiesData α)
    (tpcTrack : Track α) (crtTime : α) (driftDirection : ℤ) :
    Option (TVector3 α × TVector3 α) :=
  if alg.fDirMethod = 2 then TrackDirectionAverage tpcTrack alg.fTrackDirectionFrac
  else some (TrackDirection sqrt alg detProp tpcTrack alg.fTrackDirectionFrac crtTime
    driftDirection)

/-- Body of the hit loop of `GetClosestCRTHit` from the direction estimate on: the
candidates (none or one) that the hit appends to `t0Candidates`. -/
def newCandidates (sqrt : α → α) (alg : CRTT0MatchAlg α) (detProp : DetectorPropertiesData α)
    (tpcTrack : Track α) (driftDirection : ℤ) (crtHit : CRTHit α) (crtTime : α)
    (startEndDir : TVector3 α × TVector3 α) : List (matchCand α) :=
  let start := tpcTrack.Start
  let end_ := tpcTrack.End
  let crtPoint : TVector3 α := ⟨crtHit.x_pos, crtHit.y_pos, crtHit.z_pos⟩
  let startDir := startEndDir.1
  let endDir := startEndDir.2
  let startDist := DistOfClosestApproach sqrt alg detProp start startDir crtHit driftDirection
    crtTime
  let endDist := DistOfClosestApproach sqrt alg detProp end_ endDir crtHit driftDirection
    crtTime
  let xshift := (driftDirection : α) * crtTime * detProp.DriftVelocity
  let thisstart : TVector3 α := ⟨start.X + xshift, start.Y, start.Z⟩
  let thisend : TVector3 α := ⟨end_.X + xshift, end_.Y, end_.Z⟩
  let ends : TVector3 α × TVector3 α :=
    if alg.fSCE.EnableCalSpatialSCE = true ∧ alg.fSCEposCorr = true then
      let offS := alg.fSCE.GetCalPosOffsets thisstart
        (alg.fGeometryService.PositionToTPCID thisstart)
      let offE := alg.fSCE.GetCalPosOffsets thisend
        (alg.fGeometryService.PositionToTPCID thisend)
      (⟨thisstart.X + offS.X, thisstart.Y + offS.Y, thisstart.Z + offS.Z⟩,
       ⟨thisend.X + offE.X, thisend.Y + offE.Y, thisend.Z + offE.Z⟩)
    else (thisstart, thisend)
  let thisstart := ends.1
  let thisend := ends.2
  if startDist < alg.fDistanceLimit ∨ endDist < alg.fDistanceLimit then
    let distS := (crtPoint - thisstart).Mag sqrt
    let distE := (crtPoint - thisend).Mag sqrt
    if distS < distE then
      [{ thishit := crtHit, t0 := crtTime, dca := startDist, extrapLen := distS }]
    else
      [{ thishit := crtHit, t0 := crtTime, dca := endDist, extrapLen := distE }]
  else []

/-- Hit loop of `GetClosestCRTHit`: the list `t0Candidates` in the order in which the
candidates are pushed, or `none` when the direction estimate has thrown. -/
def t0Candidates (sqrt : α → α) (alg : CRTT0MatchAlg α) (detProp : DetectorPropertiesData α)
    (tpcTrack : Track α) (t0MinMax : α × α) (driftDirection : ℤ) :
    List (CRTHit α) → Option (List (matchCand α))
  | [] => some []
  | crtHit :: rest =>
    let crtTime := crtTime alg crtHit
    if ¬ ((crtTime ≥ t0MinMax.1 - 10 ∧ crtTime ≤ t0MinMax.2 + 10) ∨ t0MinMax.1 = t0MinMax.2) then
      t0Candidates sqrt alg detProp tpcTrack t0MinMax driftDirection rest
    else if crtHit.peshit < alg.fPEcut then
      t0Candidates sqrt alg detProp tpcTrack t0MinMax driftDirection rest
    else if crtHit.x_err > alg.fMaxUncert then
      t0Candidates sqrt alg detProp tpcTrack t0MinMax driftDirection rest
    else if crtHit.y_err > alg.fMaxUncert then
      t0Candidates sqrt alg detProp tpcTrack t0MinMax driftDirection rest
    else if crtHit.z_err > alg.fMaxUncert then
      t0Candidates sqrt alg detProp tpcTrack t0MinMax driftDirection rest
    else
      match startEndDir sqrt alg detProp tpcTrack crtTime driftDirection with
      | none => none
      | some dirs =>
        match t0Candidates sqrt alg detProp tpcTrack t0MinMax driftDirection rest with
        | none => none
        | some more =>
          some (newCandidates sqrt alg detProp tpcTrack driftDirection crtHit crtTime dirs
            ++ more)

/-- Selection of the best candidate at the end of `GetClosestCRTHit`, for candidates whose
`dca` is a number and whose `extrapLen` is not zero; `bestmatchIEEE` covers a `dca` that is
not-a-number and the ratio over `extrapLen = 0`. -/
def bestmatch (fDCAoverLength : Bool) (t0Candidates : List (matchCand α)) : matchCand α :=
  match t0Candidates with
  | [] => makeNULLmc
  | first :: _ =>
    let sin_angle := first.dca / first.extrapLen
    if fDCAoverLength = true then
      t0Candidates.foldl (fun bestmatch thisCand =>
        let this_sin_angle := thisCand.dca / thisCand.extrapLen
        if bestmatch.dca < 0 then thisCand
        else if this_sin_angle < sin_angle ∧ thisCand.dca ≥ 0 then thisCand
        else bestmatch) first
    else
      t0Candidates.foldl (fun bestmatch thisCand =>
        if bestmatch.dca < 0 then thisCand
        else if thisCand.dca < bestmatch.dca ∧ thisCand.dca ≥ 0 then thisCand
        else bestmatch) first

/-- Best match of a track among the CRT hits for a given t0 window and drift direction:
`GetClosestCRTHit(detProp, tpcTrack, t0MinMax, crtHits, driftDirection)`. -/
def GetClosestCRTHit (sqrt : α → α) (alg : CRTT0MatchAlg α) (detProp : DetectorPropertiesData α)
    (tpcTrack : Track α) (t0MinMax : α × α) (crtHits : List (CRTHit α)) (driftDirection : ℤ) :
    Option (matchCand α) :=
  match t0Candidates sqrt alg detProp tpcTrack t0MinMax driftDirection crtHits with
  | none => none
  | some cands => some (bestmatch alg.fDCAoverLength cands)

/-- Overload `GetClosestCRTHit(detProp, tpcTrack, hits, crtHits)`: drift direction and
x limits come from the TPC hits of the track. -/
def GetClosestCRTHitOfHits {H : Type} (sqrt : α → α) (alg : CRTT0MatchAlg α)
    (util : TPCGeoUtil α H) (detProp : DetectorPropertiesData α) (tpcTrack : Track α) (hits : H)
    (crtHits : List (CRTHit α)) : Option (matchCand α) :=
  let start := tpcTrack.Start
  let end_ := tpcTrack.End
  let driftDirection := util.DriftDirectionFromHits alg.fGeometryService hits
  let xLimits := util.XLimitsFromHits alg.fGeometryService hits
  let t0MinMax := TrackT0Range detProp start.X end_.X driftDirection xLimits
  GetClosestCRTHit sqrt alg detProp tpcTrack t0MinMax crtHits driftDirection

/-- Closest hit and its distance, `ClosestCRTHit(detProp, tpcTrack, t0MinMax, crtHits,
driftDirection)`. -/
def ClosestCRTHit (sqrt : α → α) (alg : CRTT0MatchAlg α) (detProp : DetectorPropertiesData α)
    (tpcTrack : Track α) (t0MinMax : α × α) (crtHits : List (CRTHit α)) (driftDirection : ℤ) :
    Option (CRTHit α × α) :=
  match GetClosestCRTHit sqrt alg detProp tpcTrack t0MinMax crtHits driftDirection with
  | none => none
  | some bestmatch => some (bestmatch.thishit, bestmatch.dca)

/-- Matched time of a track, `T0FromCRTHits(detProp, tpcTrack, hits, crtHits)`, for a best
match whose `dca` is a number and whose `extrapLen` is not zero; `T0FromCRTHitsIEEE`
covers the other matches. -/
def T0FromCRTHits {H : Type} (sqrt : α → α) (alg : CRTT0MatchAlg α) (util : TPCGeoUtil α H)
    (detProp : DetectorPropertiesData α) (tpcTrack : Track α) (hits : H)
    (crtHits : List (CRTHit α)) : Option α :=
  if tpcTrack.Length < alg.fMinTrackLength then some (-99999)
  else
    match GetClosestCRTHitOfHits sqrt alg util detProp tpcTrack hits crtHits with
    | none => none
    | some closestHit =>
      if closestHit.dca < 0 then some (-99999)
      else
        let crtTime := crtTime alg closestHit.thishit
        if closestHit.dca < alg.fDistanceLimit ∧
            closestHit.dca / closestHit.extrapLen < alg.fDoverLLimit then some crtTime
        else some (-99999)

/-- Matched time and distance of a track, `T0AndDCAFromCRTHits(detProp, tpcTrack, hits,
crtHits)`, for a best match whose `dca` is a number and whose `extrapLen` is not zero;
`T0AndDCAFromCRTHitsIEEE` covers the other matches. -/
def T0AndDCAFromCRTHits {H : Type} (sqrt : α → α) (alg : CRTT0MatchAlg α)
    (util : TPCGeoUtil α H) (detProp : DetectorPropertiesData α) (tpcTrack : Track α) (hits : H)
    (crtHits : List (CRTHit α)) : Option (α × α) :=
  if tpcTrack.Length < alg.fMinTrackLength then some (-9999, -9999)
  else
    match GetClosestCRTHitOfHits sqrt alg util detProp tpcTrack hits crtHits with
    | none => none
    | some closestHit =>
      if closestHit.dca < 0 then some (-9999, -9999)
      else if closestHit.dca < alg.fDistanceLimit ∧
          closestHit.dca / closestHit.extrapLen < alg.fDoverLLimit then
        some (closestHit.t0, closestHit.dca)
      else some (-9999, -9999)

/-- Time test of the hit loop of `GetClosestCRTHit`: the hit is skipped unless this holds. -/
def timeGate (alg : CRTT0MatchAlg α) (t0MinMax : α × α) (crtHit : CRTHit α) : Prop :=
  (crtTime alg crtHit ≥ t0MinMax.1 - 10 ∧ crtTime alg crtHit ≤ t0MinMax.2 + 10) ∨
    t0MinMax.1 = t0MinMax.2

/-- Quality tests of the hit loop: none of the four `continue` statements on the light yield
and the position uncertainties fires. -/
def qualityGate (alg : CRTT0MatchAlg α) (crtHit : CRTHit α) : Prop :=
  ¬ crtHit.peshit < alg.fPEcut ∧ ¬ crtHit.x_err > alg.fMaxUncert ∧
    ¬ crtHit.y_err > alg.fMaxUncert ∧ ¬ crtHit.z_err > alg.fMaxUncert

/-- Proximity test of the hit loop for given directions: `startDist < fDistanceLimit ||
endDist < fDistanceLimit`. -/
def proximityGate (sqrt : α → α) (alg : CRTT0MatchAlg α) (detProp : DetectorPropertiesData α)
    (tpcTrack : Track α) (driftDirection : ℤ) (crtHit : CRTHit α)
    (dirs : TVector3 α × TVector3 α) : Prop :=
  DistOfClosestApproach sqrt alg detProp tpcTrack.Start dirs.1 crtHit driftDirection
      (crtTime alg crtHit) < alg.fDistanceLimit ∨
    DistOfClosestApproach sqrt alg detProp tpcTrack.End dirs.2 crtHit driftDirection
      (crtTime alg crtHit) < alg.fDistanceLimit

/-- A hit passes the three tests of the hit loop (with the directions estimated for it). -/
def passesGates (sqrt : α → α) (alg : CRTT0MatchAlg α) (detProp : DetectorPropertiesData α)
    (tpcTrack : Track α) (t0MinMax : α × α) (driftDirection : ℤ) (crtHit : CRTHit α) : Prop :=
  timeGate alg t0MinMax crtHit ∧ qualityGate alg crtHit ∧
    ∃ dirs ∈ startEndDir sqrt alg detProp tpcTrack (crtTime alg crtHit) driftDirection,
      proximityGate sqrt alg detProp tpcTrack driftDirection crtHit dirs

instance (alg : CRTT0MatchAlg α) (t0MinMax : α × α) (crtHit : CRTHit α) :
    Decidable (timeGate alg t0MinMax crtHit) :=
  inferInstanceAs (Decidable (_ ∨ _))

instance (alg : CRTT0MatchAlg α) (crtHit : CRTHit α) : Decidable (qualityGate alg crtHit) :=
  inferInstanceAs (Decidable (_ ∧ _))

instance (sqrt : α → α) (alg : CRTT0MatchAlg α) (detProp : DetectorPropertiesData α)
    (tpcTrack : Track α) (driftDirection : ℤ) (crtHit : CRTHit α)
    (dirs : TVector3 α × TVector3 α) :
    Decidable (proximityGate sqrt alg detProp tpcTrack driftDirection crtHit dirs) :=
  inferInstanceAs (Decidable (_ ∨ _))

instance (sqrt : α → α) (alg : CRTT0MatchAlg α) (detProp : DetectorPropertiesData α)
    (tpcTrack : Track α) (t0MinMax : α × α) (driftDirection : ℤ) (crtHit : CRTHit α) :
    Decidable (passesGates sqrt alg detProp tpcTrack t0MinMax driftDirection crtHit) :=
  inferInstanceAs (Decidable (_ ∧ _ ∧ _))

end Algorithm

/-! ## Rational inputs on which the model is run -/

/-- Newton iteration for the integer square root, with explicit fuel. -/
def natSqrtIter (n : ℕ) : ℕ → ℕ → ℕ
  | 0, guess => guess
  | fuel + 1, guess =>
    let next := (guess + n / guess) / 2
    if next < guess then natSqrtIter n fuel next else guess

/-- Integer square root (floor). -/
def natSqrt (n : ℕ) : ℕ := if n ≤ 1 then n else natSqrtIter n n (n / 2)

/-- Square root on `ℚ`, exact on squares of rationals. -/
def sqrtQ (q : ℚ) : ℚ := (natSqrt q.num.toNat : ℚ) / (natSqrt q.den : ℚ)

/-- Sample configuration: end-point direction method, point DCA, no space-charge
correction, timestamps from `ts0_ns`. -/
def sampleAlg (fDCAoverLength : Bool) : CRTT0MatchAlg ℚ :=
  { fMinTrackLength := 5, fTrackDirectionFrac := 1 / 2, fDistanceLimit := 100, fTSMode := 0,
    fTimeCorrection := 0, fSCEposCorr := false, fDirMethod := 1, fDCAuseBox := false,
    fDCAoverLength := fDCAoverLength, fDoverLLimit := 2, fPEcut := 50, fMaxUncert := 10,
    fGeometryService := ⟨fun _ => 0⟩, fSCE := ⟨false, fun _ _ => ⟨0, 0, 0⟩⟩ }

/-- Sample lookups on the TPC hits: a stitched track (drift direction 0). -/
def sampleUtil : TPCGeoUtil ℚ Unit :=
  { DriftDirectionFromHits := fun _ _ => 0, XLimitsFromHits := fun _ _ => (0, 0) }

/-- Sample detector properties. -/
def sampleDetProp : DetectorPropertiesData ℚ := ⟨1⟩

/-- Sample track along the z axis with three trajectory points, at `z = 0`, `z = zMid` and
`z = zEnd`; its length is `zEnd`. -/
def sampleTrack (zMid zEnd : ℚ) : Track ℚ :=
  { Length := zEnd, Start := ⟨0, 0, 0⟩, End := ⟨0, 0, zEnd⟩, NPoints := 3,
    LocationAtPoint := fun i =>
      if i = 0 then ⟨0, 0, 0⟩ else if i = 1 then ⟨0, 0, zMid⟩ else ⟨0, 0, zEnd⟩,
    DirectionAtPoint := fun _ => ⟨0, 0, 1⟩,
    FlagsAtPointIsInvalidHitIndex := fun _ => true }

/-- Sample hit at `(x, 0, z)` with light yield `pe`, timestamp `ts` (both clocks) and unit
position uncertainties. -/
def sampleHit (pe ts x z : ℚ) : CRTHit ℚ :=
  { peshit := pe, ts0_ns := ts, ts1_ns := ts, x_pos := x, x_err := 1, y_pos := 0, y_err := 1,
    z_pos := z, z_err := 1 }

/-- Sample track with a bend: from the origin along z to `(0, 0, 4)`, then along x to
`(3, 0, 4)`; its length is 7. -/
def bentTrack : Track ℚ :=
  { Length := 7, Start := ⟨0, 0, 0⟩, End := ⟨3, 0, 4⟩, NPoints := 3,
    LocationAtPoint := fun i =>
      if i = 0 then ⟨0, 0, 0⟩ else if i = 1 then ⟨0, 0, 4⟩ else ⟨3, 0, 4⟩,
    DirectionAtPoint := fun i => if i = 0 then ⟨0, 0, 1⟩ else ⟨1, 0, 0⟩,
    FlagsAtPointIsInvalidHitIndex := fun _ => true }

/-! ## Vocabulary of the geometric statements and further inputs -/

section Vocabulary

variable {α : Type} [LinearOrderedField α]

/-- Closed axis-aligned box `[min, max]` as a set of points. -/
def inBox (min max p : TVector3 α) : Prop :=
  min.X ≤ p.X ∧ p.X ≤ max.X ∧ min.Y ≤ p.Y ∧ p.Y ≤ max.Y ∧ min.Z ≤ p.Z ∧ p.Z ≤ max.Z

instance (min max p : TVector3 α) : Decidable (inBox min max p) :=
  inferInstanceAs (Decidable (_ ∧ _ ∧ _ ∧ _ ∧ _ ∧ _))

/-- A point lies on one of the six planes that bound the box. -/
def onFacePlane (min max p : TVector3 α) : Prop :=
  p.X = min.X ∨ p.X = max.X ∨ p.Y = min.Y ∨ p.Y = max.Y ∨ p.Z = min.Z ∨ p.Z = max.Z

/-- Componentwise sum of a list of vectors. -/
def vecSum (l : List (TVector3 α)) : TVector3 α :=
  ⟨(l.map TVector3.X).sum, (l.map TVector3.Y).sum, (l.map TVector3.Z).sum⟩

/-- Track with a right-angle corner, over any scalar field: two trajectory points, `(0, 0, 0)`
and `(1, 1, 0)`, both kept by `validDirections`, with local directions `(1, 0, 0)` and
`(0, 1, 0)`. -/
def cornerTrack (α : Type) [LinearOrderedField α] : Track α :=
  { Length := 2, Start := ⟨0, 0, 0⟩, End := ⟨1, 1, 0⟩, NPoints := 2,
    LocationAtPoint := fun i => if i = 0 then ⟨0, 0, 0⟩ else ⟨1, 1, 0⟩,
    DirectionAtPoint := fun i => if i = 0 then ⟨1, 0, 0⟩ else ⟨0, 1, 0⟩,
    FlagsAtPointIsInvalidHitIndex := fun _ => true }

/-- Configuration over any scalar field with direction method `fDirMethod`, the space-charge
correction disabled and the other values of `sampleAlg false`. -/
def plainAlg (α : Type) [LinearOrderedField α] (fDirMethod : ℤ) : CRTT0MatchAlg α :=
  { fMinTrackLength := 5, fTrackDirectionFrac := 1 / 2, fDistanceLimit := 100, fTSMode := 0,
    fTimeCorrection := 0, fSCEposCorr := false, fDirMethod := fDirMethod, fDCAuseBox := false,
    fDCAoverLength := false, fDoverLLimit := 2, fPEcut := 50, fMaxUncert := 10,
    fGeometryService := ⟨fun _ => 0⟩, fSCE := ⟨false, fun _ _ => ⟨0, 0, 0⟩⟩ }

end Vocabulary

/-! ## `CubeIntersection` with the special values of IEEE-754 -/

/-- Value of a `double` with the special values of IEEE-754 kept apart: a number, plus or
minus infinity, or not-a-number.  Rounding and overflow of operations on numbers are not
represented, and a zero is `+0` (as is an exact zero difference `x - x` under
round-to-nearest). -/
inductive Double (α : Type) where
  | fin (x : α)
  | posInf
  | negInf
  | nan
  deriving DecidableEq

namespace Double

variable {α : Type} [LinearOrderedField α]

/-- Quotient `1./x` of IEEE-754 for a number `x`: `+∞` for `x = +0`. -/
def recip (x : α) : Double α := if x = 0 then posInf else fin (1 / x)

/-- Product of IEEE-754: `0 * ±∞` is not-a-number. -/
def mul : Double α → Double α → Double α
  | nan, _ => nan
  | _, nan => nan
  | fin x, fin y => fin (x * y)
  | fin x, posInf => if 0 < x then posInf else if x < 0 then negInf else nan
  | fin x, negInf => if 0 < x then negInf else if x < 0 then posInf else nan
  | posInf, fin y => if 0 < y then posInf else if y < 0 then negInf else nan
  | negInf, fin y => if 0 < y then negInf else if y < 0 then posInf else nan
  | posInf, posInf => posInf
  | posInf, negInf => negInf
  | negInf, posInf => negInf
  | negInf, negInf => posInf

/-- Sum of IEEE-754: `+∞ + -∞` is not-a-number. -/
def add : Double α → Double α → Double α
  | nan, _ => nan
  | _, nan => nan
  | fin x, fin y => fin (x + y)
  | fin _, posInf => posInf
  | fin _, negInf => negInf
  | posInf, fin _ => posInf
  | negInf, fin _ => negInf
  | posInf, posInf => posInf
  | posInf, negInf => nan
  | negInf, posInf => nan
  | negInf, negInf => negInf

/-- Comparison `a > b` of IEEE-754: false as soon as one side is not-a-number. -/
def gt : Double α → Double α → Bool
  | nan, _ => false
  | _, nan => false
  | fin x, fin y => decide (x > y)
  | fin _, posInf => false
  | fin _, negInf => true
  | posInf, fin _ => true
  | posInf, posInf => false
  | posInf, negInf => true
  | negInf, _ => false

/-- Comparison `a < b` of IEEE-754. -/
def lt (a b : Double α) : Bool := gt b a

/-- Comparison `a >= b` of IEEE-754: false as soon as one side is not-a-number. -/
def ge : Double α → Double α → Bool
  | nan, _ => false
  | _, nan => false
  | fin x, fin y => decide (x ≥ y)
  | fin _, posInf => false
  | fin _, negInf => true
  | posInf, _ => true
  | negInf, fin _ => false
  | negInf, posInf => false
  | negInf, negInf => true

end Double

section SpecialValues

variable {α : Type} [LinearOrderedField α]

/-- Vector of numbers as a vector of `double` values. -/
def TVector3.toDouble (v : TVector3 α) : TVector3 (Double α) :=
  ⟨Double.fin v.X, Double.fin v.Y, Double.fin v.Z⟩

/-- The function `CubeIntersection` evaluated with the special values of IEEE-754: the
reciprocal of a zero direction component is `+∞`, and the products, sums and comparisons
are those of `Double`. -/
def CubeIntersectionIEEE (min max start end_ : TVector3 α) :
    TVector3 (Double α) × TVector3 (Double α) :=
  let dir := end_ - start
  let invDir : TVector3 (Double α) :=
    ⟨Double.recip dir.X, Double.recip dir.Y, Double.recip dir.Z⟩
  let enter : TVector3 (Double α) :=
    ⟨Double.fin (-99999), Double.fin (-99999), Double.fin (-99999)⟩
  let exit : TVector3 (Double α) :=
    ⟨Double.fin (-99999), Double.fin (-99999), Double.fin (-99999)⟩
  let tx : Double α × Double α :=
    if invDir.X.ge (Double.fin 0) = true then
      ((Double.fin (min.X - start.X)).mul invDir.X, (Double.fin (max.X - start.X)).mul invDir.X)
    else
      ((Double.fin (max.X - start.X)).mul invDir.X, (Double.fin (min.X - start.X)).mul invDir.X)
  let tmin := tx.1
  let tmax := tx.2
  let ty : Double α × Double α :=
    if invDir.Y.ge (Double.fin 0) = true then
      ((Double.fin (min.Y - start.Y)).mul invDir.Y, (Double.fin (max.Y - start.Y)).mul invDir.Y)
    else
      ((Double.fin (max.Y - start.Y)).mul invDir.Y, (Double.fin (min.Y - start.Y)).mul invDir.Y)
  let tymin := ty.1
  let tymax := ty.2
  if tmin.gt tymax = true ∨ tymin.gt tmax = true then (enter, exit)
  else
    let tmin := if tymin.gt tmin = true then tymin else tmin
    let tmax := if tymax.lt tmax = true then tymax else tmax
    let tz : Double α × Double α :=
      if invDir.Z.ge (Double.fin 0) = true then
        ((Double.fin (min.Z - start.Z)).mul invDir.Z,
          (Double.fin (max.Z - start.Z)).mul invDir.Z)
      else
        ((Double.fin (max.Z - start.Z)).mul invDir.Z,
          (Double.fin (min.Z - start.Z)).mul invDir.Z)
    let tzmin := tz.1
    let tzmax := tz.2
    if tmin.gt tzmax = true ∨ tzmin.gt tmax = true then (enter, exit)
    else
      let tmin := if tzmin.gt tmin = true then tzmin else tmin
      let tmax := if tzmax.lt tmax = true then tzmax else tmax
      let xmin := (Double.fin start.X).add (tmin.mul (Double.fin dir.X))
      let xmax := (Double.fin start.X).add (tmax.mul (Double.fin dir.X))
      let ymin := (Double.fin start.Y).add (tmin.mul (Double.fin dir.Y))
      let ymax := (Double.fin start.Y).add (tmax.mul (Double.fin dir.Y))
      let zmin := (Double.fin start.Z).add (tmin.mul (Double.fin dir.Z))
      let zmax := (Double.fin start.Z).add (tmax.mul (Double.fin dir.Z))
      (⟨xmin, ymin, zmin⟩, ⟨xmax, ymax, zmax⟩)

end SpecialValues

/-! ## The matching path with the special values of IEEE-754 -/

namespace Double

variable {α : Type} [LinearOrderedField α]

/-- Opposite `-a`. -/
def neg : Double α → Double α
  | fin x => fin (-x)
  | posInf => negInf
  | negInf => posInf
  | nan => nan

/-- Difference of IEEE-754. -/
def sub (a b : Double α) : Double α := a.add b.neg

/-- Quotient of IEEE-754: a number over zero is an infinity, `0 / 0` and `∞ / ∞` are
not-a-number. -/
def div : Double α → Double α → Double α
  | nan, _ => nan
  | _, nan => nan
  | fin x, fin y =>
    if y = 0 then (if 0 < x then posInf else if x < 0 then negInf else nan) else fin (x / y)
  | fin _, posInf => fin 0
  | fin _, negInf => fin 0
  | posInf, fin y => if y < 0 then negInf else posInf
  | negInf, fin y => if y < 0 then posInf else negInf
  | posInf, posInf => nan
  | posInf, negInf => nan
  | negInf, posInf => nan
  | negInf, negInf => nan

/-- Absolute value `std::abs(a)`. -/
def fabs : Double α → Double α
  | fin x => fin |x|
  | posInf => posInf
  | negInf => posInf
  | nan => nan

/-- Comparison `a <= b` of IEEE-754. -/
def le (a b : Double α) : Bool := ge b a

/-- Comparison `a == b` of IEEE-754: false as soon as one side is not-a-number. -/
def eq : Double α → Double α → Bool
  | nan, _ => false
  | _, nan => false
  | fin x, fin y => decide (x = y)
  | fin _, posInf => false
  | fin _, negInf => false
  | posInf, fin _ => false
  | posInf, posInf => true
  | posInf, negInf => false
  | negInf, fin _ => false
  | negInf, posInf => false
  | negInf, negInf => true

/-- Comparison `a != b` of IEEE-754: true as soon as one side is not-a-number. -/
def ne (a b : Double α) : Bool := !(eq a b)

/-- Square root of IEEE-754 relative to the supplied square root of numbers. -/
def sqrt (sqrt : α → α) : Double α → Double α
  | fin x => if x < 0 then nan else fin (sqrt x)
  | posInf => posInf
  | negInf => nan
  | nan => nan

/-- Value of `std::min(a, b)`, which is `(b < a) ? b : a`. -/
def stdMin (a b : Double α) : Double α := if b.lt a = true then b else a

/-- Value of `std::max(a, b)`, which is `(a < b) ? b : a`. -/
def stdMax (a b : Double α) : Double α := if a.lt b = true then b else a

end Double

namespace TVector3

variable {α : Type} [LinearOrderedField α]

/-- Componentwise sum of vectors of `double` values. -/
def addIEEE (a b : TVector3 (Double α)) : TVector3 (Double α) :=
  ⟨a.X.add b.X, a.Y.add b.Y, a.Z.add b.Z⟩

/-- Componentwise difference of vectors of `double` values. -/
def subIEEE (a b : TVector3 (Double α)) : TVector3 (Double α) :=
  ⟨a.X.sub b.X, a.Y.sub b.Y, a.Z.sub b.Z⟩

/-- Scaling of a vector of `double` values. -/
def smulIEEE (k : Double α) (a : TVector3 (Double α)) : TVector3 (Double α) :=
  ⟨k.mul a.X, k.mul a.Y, k.mul a.Z⟩

/-- Scalar product of vectors of `double` values. -/
def DotIEEE (a b : TVector3 (Double α)) : Double α :=
  ((a.X.mul b.X).add (a.Y.mul b.Y)).add (a.Z.mul b.Z)

/-- Vector product of vectors of `double` values. -/
def CrossIEEE (a b : TVector3 (Double α)) : TVector3 (Double α) :=
  ⟨(a.Y.mul b.Z).sub (b.Y.mul a.Z), (a.Z.mul b.X).sub (b.Z.mul a.X),
    (a.X.mul b.Y).sub (b.X.mul a.Y)⟩

/-- Squared magnitude of a vector of `double` values. -/
def Mag2IEEE (a : TVector3 (Double α)) : Double α :=
  ((a.X.mul a.X).add (a.Y.mul a.Y)).add (a.Z.mul a.Z)

/-- Magnitude of a vector of `double` values. -/
def MagIEEE (sqrt : α → α) (a : TVector3 (Double α)) : Double α :=
  (Mag2IEEE a).sqrt sqrt

end TVector3

/-- A `double` value that is not negative: a number `≥ 0`, `+∞` or not-a-number. -/
def Double.notNeg {α : Type} [LinearOrderedField α] : Double α → Prop
  | Double.fin x => 0 ≤ x
  | Double.posInf => True
  | Double.negInf => False
  | Double.nan => True

/-- Candidate record `matchCand` in the evaluation with special values: `dca` is a
`double` value that can be not-a-number; the hit, `t0` and `extrapLen` are numbers (they are
computed from the inputs without a division). -/
structure matchCandIEEE (α : Type) where
  thishit : CRTHit α
  t0 : α
  dca : Double α
  extrapLen : α
  deriving DecidableEq

/-- Candidate over numbers as a candidate of the evaluation with special values. -/
def matchCand.toIEEE {α : Type} (c : matchCand α) : matchCandIEEE α :=
  { thishit := c.thishit, t0 := c.t0, dca := Double.fin c.dca, extrapLen := c.extrapLen }

section SpecialValuePath

variable {α : Type} [LinearOrderedField α] [FloorRing α]

/-- Null candidate `makeNULLmc` in the evaluation with special values. -/
def makeNULLmcIEEE : matchCandIEEE α :=
  { thishit := CRTHit.blank, t0 := -99999, dca := Double.fin (-99999), extrapLen := -99999 }

/-- The function `TrackT0Range` evaluated with the special values of IEEE-754.  A zero `Vd`
has the sign of `driftDirection` (the drift velocity being `+0`), which decides the sign of
the infinite quotients. -/
def TrackT0RangeIEEE (detProp : DetectorPropertiesData α) (startX endX : α)
    (driftDirection : ℤ) (xLimits : α × α) : Double α × Double α :=
  if driftDirection = 0 then (Double.fin 0, Double.fin 0)
  else
    let Vd := (driftDirection : α) * detProp.DriftVelocity
    let maxX := max startX endX
    let maxLimit := max xLimits.1 xLimits.2
    let maxShift := maxLimit - maxX
    let minX := min startX endX
    let minLimit := min xLimits.1 xLimits.2
    let minShift := minLimit - minX
    let t0max : Double α :=
      if Vd = 0 ∧ driftDirection < 0 then ((Double.fin maxShift).div (Double.fin 0)).neg
      else (Double.fin maxShift).div (Double.fin Vd)
    let t0min : Double α :=
      if Vd = 0 ∧ driftDirection < 0 then ((Double.fin minShift).div (Double.fin 0)).neg
      else (Double.fin minShift).div (Double.fin Vd)
    (Double.stdMin t0min t0max, Double.stdMax t0min t0max)

/-- The function `SimpleDCA` evaluated with the special values of IEEE-754: `0 / 0` for a
zero direction is not-a-number. -/
def SimpleDCAIEEE (sqrt : α → α) (hit : CRTHit α) (start direction : TVector3 (Double α)) :
    Double α :=
  let pos : TVector3 (Double α) :=
    ⟨Double.fin hit.x_pos, Double.fin hit.y_pos, Double.fin hit.z_pos⟩
  let end_ := start.addIEEE direction
  let denominator := direction.MagIEEE sqrt
  let numerator := ((pos.subIEEE start).CrossIEEE (pos.subIEEE end_)).MagIEEE sqrt
  numerator.div denominator

/-- The function `LineSegmentDistance` evaluated with the special values of IEEE-754. -/
def LineSegmentDistanceIEEE (sqrt : α → α) (start1 end1 start2 end2 : TVector3 (Double α)) :
    Double α :=
  let smallNum : Double α := Double.fin 0.00001
  let direction1 := end1.subIEEE start1
  let direction2 := end2.subIEEE start2
  let u := direction1
  let v := direction2
  let w := start1.subIEEE start2
  let a := u.DotIEEE u
  let b := u.DotIEEE v
  let c := v.DotIEEE v
  let d := u.DotIEEE w
  let e := v.DotIEEE w
  let D := (a.mul c).sub (b.mul b)
  let sD := D
  let tD := D
  let r : (Double α × Double α) × (Double α × Double α) :=
    if D.lt smallNum = true then ((Double.fin 0, Double.fin 1), (e, c))
    else
      let sN := ((b.mul e).sub (c.mul d)).div D
      let tN := ((a.mul e).sub (b.mul d)).div D
      if sN.lt (Double.fin 0) = true then ((Double.fin 0, sD), (e, c))
      else if sN.gt sD = true then ((sD, sD), (e.add b, c))
      else ((sN, sD), (tN, tD))
  let sN := r.1.1
  let sD := r.1.2
  let tN := r.2.1
  let tD := r.2.2
  let sc := if sN.fabs.lt smallNum = true then Double.fin 0 else sN.div sD
  let tc := if tN.fabs.lt smallNum = true then Double.fin 0 else tN.div tD
  let dP := (w.addIEEE (TVector3.smulIEEE sc u)).subIEEE (TVector3.smulIEEE tc v)
  dP.MagIEEE sqrt

/-- The function `CubeIntersection` evaluated with the special values of IEEE-754 on
`double` arguments (the end point of the line can be not-a-number). -/
def CubeIntersectionOfDoubles (min max start end_ : TVector3 (Double α)) :
    TVector3 (Double α) × TVector3 (Double α) :=
  let dir := end_.subIEEE start
  let invDir : TVector3 (Double α) :=
    ⟨(Double.fin 1).div dir.X, (Double.fin 1).div dir.Y, (Double.fin 1).div dir.Z⟩
  let enter : TVector3 (Double α) :=
    ⟨Double.fin (-99999), Double.fin (-99999), Double.fin (-99999)⟩
  let exit : TVector3 (Double α) :=
    ⟨Double.fin (-99999), Double.fin (-99999), Double.fin (-99999)⟩
  let tx : Double α × Double α :=
    if invDir.X.ge (Double.fin 0) = true then
      ((min.X.sub start.X).mul invDir.X, (max.X.sub start.X).mul invDir.X)
    else ((max.X.sub start.X).mul invDir.X, (min.X.sub start.X).mul invDir.X)
  let tmin := tx.1
  let tmax := tx.2
  let ty : Double α × Double α :=
    if invDir.Y.ge (Double.fin 0) = true then
      ((min.Y.sub start.Y).mul invDir.Y, (max.Y.sub start.Y).mul invDir.Y)
    else ((max.Y.sub start.Y).mul invDir.Y, (min.Y.sub start.Y).mul invDir.Y)
  let tymin := ty.1
  let tymax := ty.2
  if tmin.gt tymax = true ∨ tymin.gt tmax = true then (enter, exit)
  else
    let tmin := if tymin.gt tmin = true then tymin else tmin
    let tmax := if tymax.lt tmax = true then tymax else tmax
    let tz : Double α × Double α :=
      if invDir.Z.ge (Double.fin 0) = true then
        ((min.Z.sub start.Z).mul invDir.Z, (max.Z.sub start.Z).mul invDir.Z)
      else ((max.Z.sub start.Z).mul invDir.Z, (min.Z.sub start.Z).mul invDir.Z)
    let tzmin := tz.1
    let tzmax := tz.2
    if tmin.gt tzmax = true ∨ tzmin.gt tmax = true then (enter, exit)
    else
      let tmin := if tzmin.gt tmin = true then tzmin else tmin
      let tmax := if tzmax.lt tmax = true then tzmax else tmax
      let xmin := start.X.add (tmin.mul dir.X)
      let xmax := start.X.add (tmax.mul dir.X)
      let ymin := start.Y.add (tmin.mul dir.Y)
      let ymax := start.Y.add (tmax.mul dir.Y)
      let zmin := start.Z.add (tmin.mul dir.Z)
      let zmax := start.Z.add (tmax.mul dir.Z)
      (⟨xmin, ymin, zmin⟩, ⟨xmax, ymax, zmax⟩)

/-- The function `DistToCrtHit` evaluated with the special values of IEEE-754: the test
`!= -99999` is true of not-a-number. -/
def DistToCrtHitIEEE (sqrt : α → α) (hit : CRTHit α) (start end_ : TVector3 (Double α)) :
    Double α :=
  let min : TVector3 α := ⟨hit.x_pos - hit.x_err, hit.y_pos - hit.y_err, hit.z_pos - hit.z_err⟩
  let max : TVector3 α := ⟨hit.x_pos + hit.x_err, hit.y_pos + hit.y_err, hit.z_pos + hit.z_err⟩
  if ((CubeIntersectionOfDoubles min.toDouble max.toDouble start end_).1.X.ne
      (Double.fin (-99999))) = true then Double.fin 0
  else
    let vs : (TVector3 α × TVector3 α) × (TVector3 α × TVector3 α) :=
      ((⟨hit.x_pos, hit.y_pos - hit.y_err, hit.z_pos - hit.z_err⟩,
        ⟨hit.x_pos, hit.y_pos + hit.y_err, hit.z_pos - hit.z_err⟩),
       (⟨hit.x_pos, hit.y_pos - hit.y_err, hit.z_pos + hit.z_err⟩,
        ⟨hit.x_pos, hit.y_pos + hit.y_err, hit.z_pos + hit.z_err⟩))
    let vs : (TVector3 α × TVector3 α) × (TVector3 α × TVector3 α) :=
      if hit.y_err < hit.x_err ∧ hit.y_err < hit.z_err then
        ((⟨hit.x_pos - hit.x_err, hit.y_pos, hit.z_pos - hit.z_err⟩,
          ⟨hit.x_pos + hit.x_err, hit.y_pos, hit.z_pos - hit.z_err⟩),
         (⟨hit.x_pos - hit.x_err, hit.y_pos, hit.z_pos + hit.z_err⟩,
          ⟨hit.x_pos + hit.x_err, hit.y_pos, hit.z_pos + hit.z_err⟩))
      else vs
    let vs : (TVector3 α × TVector3 α) × (TVector3 α × TVector3 α) :=
      if hit.z_err < hit.x_err ∧ hit.z_err < hit.y_err then
        ((⟨hit.x_pos - hit.x_err, hit.y_pos - hit.y_err, hit.z_pos⟩,
          ⟨hit.x_pos + hit.x_err, hit.y_pos - hit.y_err, hit.z_pos⟩),
         (⟨hit.x_pos - hit.x_err, hit.y_pos + hit.y_err, hit.z_pos⟩,
          ⟨hit.x_pos + hit.x_err, hit.y_pos + hit.y_err, hit.z_pos⟩))
      else vs
    let vertex1 := vs.1.1.toDouble
    let vertex2 := vs.1.2.toDouble
    let vertex3 := vs.2.1.toDouble
    let vertex4 := vs.2.2.toDouble
    let dist1 := LineSegmentDistanceIEEE sqrt vertex1 vertex2 start end_
    let dist2 := LineSegmentDistanceIEEE sqrt vertex1 vertex3 start end_
    let dist3 := LineSegmentDistanceIEEE sqrt vertex4 vertex2 start end_
    let dist4 := LineSegmentDistanceIEEE sqrt vertex4 vertex3 start end_
    Double.stdMin (Double.stdMin dist1 dist2) (Double.stdMin dist3 dist4)

/-- The function `DistOfClosestApproach` evaluated with the special values of IEEE-754;
the direction is a vector of `double` values. -/
def DistOfClosestApproachIEEE (sqrt : α → α) (alg : CRTT0MatchAlg α)
    (detProp : DetectorPropertiesData α) (trackPos : TVector3 α)
    (trackDir : TVector3 (Double α)) (crtHit : CRTHit α) (driftDirection : ℤ) (t0 : α) :
    Double α :=
  let xshift := (driftDirection : α) * t0 * detProp.DriftVelocity
  let trackPos : TVector3 α := ⟨trackPos.X + xshift, trackPos.Y, trackPos.Z⟩
  let trackPos : TVector3 α :=
    if alg.fSCE.EnableCalSpatialSCE = true ∧ alg.fSCEposCorr = true then
      let temppt := trackPos
      let tpcid := alg.fGeometryService.PositionToTPCID temppt
      let fPosOffsets := alg.fSCE.GetCalPosOffsets temppt tpcid
      ⟨trackPos.X + fPosOffsets.X, trackPos.Y + fPosOffsets.Y, trackPos.Z + fPosOffsets.Z⟩
    else trackPos
  let end_ := trackPos.toDouble.addIEEE trackDir
  if alg.fDCAuseBox = true then DistToCrtHitIEEE sqrt crtHit trackPos.toDouble end_
  else SimpleDCAIEEE sqrt crtHit trackPos.toDouble trackDir

/-- The function `TrackDirectionAverage` evaluated with the special values of IEEE-754:
when no point is averaged the quotients `0 / 0` are not-a-number. -/
def TrackDirectionAverageIEEE (track : Track α) (frac : α) :
    Option (TVector3 (Double α) × TVector3 (Double α)) :=
  let validDirections := validDirections track
  let nValidPoints := validDirections.length
  let endPoint : ℤ := ⌊(nValidPoints : α) * frac⌋
  match directionTotals validDirections endPoint.toNat with
  | none => none
  | some (totStart, totEnd) =>
    let startDir : TVector3 (Double α) :=
      ⟨(Double.fin (-totStart.X)).div (Double.fin (endPoint : α)),
        (Double.fin (-totStart.Y)).div (Double.fin (endPoint : α)),
        (Double.fin (-totStart.Z)).div (Double.fin (endPoint : α))⟩
    let endDir : TVector3 (Double α) :=
      ⟨(Double.fin totEnd.X).div (Double.fin (endPoint : α)),
        (Double.fin totEnd.Y).div (Double.fin (endPoint : α)),
        (Double.fin totEnd.Z).div (Double.fin (endPoint : α))⟩
    some (startDir, endDir)

/-- Directions used for one hit in `GetClosestCRTHit`, as vectors of `double` values
(`TrackDirection` divides only by a positive norm and answers numbers). -/
def startEndDirIEEE (sqrt : α → α) (alg : CRTT0MatchAlg α)
    (detProp : DetectorPropertiesData α) (tpcTrack : Track α) (crtTime : α)
    (driftDirection : ℤ) : Option (TVector3 (Double α) × TVector3 (Double α)) :=
  if alg.fDirMethod = 2 then TrackDirectionAverageIEEE tpcTrack alg.fTrackDirectionFrac
  else
    some ((TrackDirection sqrt alg detProp tpcTrack alg.fTrackDirectionFrac crtTime
        driftDirection).1.toDouble,
      (TrackDirection sqrt alg detProp tpcTrack alg.fTrackDirectionFrac crtTime
        driftDirection).2.toDouble)

/-- Body of the hit loop of `GetClosestCRTHit` from the direction estimate on, evaluated
with the special values of IEEE-754. -/
def newCandidatesIEEE (sqrt : α → α) (alg : CRTT0MatchAlg α)
    (detProp : DetectorPropertiesData α) (tpcTrack : Track α) (driftDirection : ℤ)
    (crtHit : CRTHit α) (crtTime : α)
    (startEndDir : TVector3 (Double α) × TVector3 (Double α)) : List (matchCandIEEE α) :=
  let start := tpcTrack.Start
  let end_ := tpcTrack.End
  let crtPoint : TVector3 α := ⟨crtHit.x_pos, crtHit.y_pos, crtHit.z_pos⟩
  let startDir := startEndDir.1
  let endDir := startEndDir.2
  let startDist := DistOfClosestApproachIEEE sqrt alg detProp start startDir crtHit
    driftDirection crtTime
  let endDist := DistOfClosestApproachIEEE sqrt alg detProp end_ endDir crtHit
    driftDirection crtTime
  let xshift := (driftDirection : α) * crtTime * detProp.DriftVelocity
  let thisstart : TVector3 α := ⟨start.X + xshift, start.Y, start.Z⟩
  let thisend : TVector3 α := ⟨end_.X + xshift, end_.Y, end_.Z⟩
  let ends : TVector3 α × TVector3 α :=
    if alg.fSCE.EnableCalSpatialSCE = true ∧ alg.fSCEposCorr = true then
      let offS := alg.fSCE.GetCalPosOffsets thisstart
        (alg.fGeometryService.PositionToTPCID thisstart)
      let offE := alg.fSCE.GetCalPosOffsets thisend
        (alg.fGeometryService.PositionToTPCID thisend)
      (⟨thisstart.X + offS.X, thisstart.Y + offS.Y, thisstart.Z + offS.Z⟩,
       ⟨thisend.X + offE.X, thisend.Y + offE.Y, thisend.Z + offE.Z⟩)
    else (thisstart, thisend)
  let thisstart := ends.1
  let thisend := ends.2
  if startDist.lt (Double.fin alg.fDistanceLimit) = true ∨
      endDist.lt (Double.fin alg.fDistanceLimit) = true then
    let distS := (crtPoint - thisstart).Mag sqrt
    let distE := (crtPoint - thisend).Mag sqrt
    if distS < distE then
      [{ thishit := crtHit, t0 := crtTime, dca := startDist, extrapLen := distS }]
    else
      [{ thishit := crtHit, t0 := crtTime, dca := endDist, extrapLen := distE }]
  else []

/-- Hit loop of `GetClosestCRTHit` evaluated with the special values of IEEE-754; the
window `t0MinMax` is a pair of `double` values. -/
def t0CandidatesIEEE (sqrt : α → α) (alg : CRTT0MatchAlg α)
    (detProp : DetectorPropertiesData α) (tpcTrack : Track α) (t0MinMax : Double α × Double α)
    (driftDirection : ℤ) : List (CRTHit α) → Option (List (matchCandIEEE α))
  | [] => some []
  | crtHit :: rest =>
    let crtTime := crtTime alg crtHit
    if ¬ (((Double.fin crtTime).ge (t0MinMax.1.sub (Double.fin 10)) = true ∧
        (Double.fin crtTime).le (t0MinMax.2.add (Double.fin 10)) = true) ∨
        t0MinMax.1.eq t0MinMax.2 = true) then
      t0CandidatesIEEE sqrt alg detProp tpcTrack t0MinMax driftDirection rest
    else if crtHit.peshit < alg.fPEcut then
      t0CandidatesIEEE sqrt alg detProp tpcTrack t0MinMax driftDirection rest
    else if crtHit.x_err > alg.fMaxUncert then
      t0CandidatesIEEE sqrt alg detProp tpcTrack t0MinMax driftDirection rest
    else if crtHit.y_err > alg.fMaxUncert then
      t0CandidatesIEEE sqrt alg detProp tpcTrack t0MinMax driftDirection rest
    else if crtHit.z_err > alg.fMaxUncert then
      t0CandidatesIEEE sqrt alg detProp tpcTrack t0MinMax driftDirection rest
    else
      match startEndDirIEEE sqrt alg detProp tpcTrack crtTime driftDirection with
      | none => none
      | some dirs =>
        match t0CandidatesIEEE sqrt alg detProp tpcTrack t0MinMax driftDirection rest with
        | none => none
        | some more =>
          some (newCandidatesIEEE sqrt alg detProp tpcTrack driftDirection crtHit crtTime dirs
            ++ more)

/-- Selection of the best candidate at the end of `GetClosestCRTHit`, evaluated with the
special values of IEEE-754: the ratios are quotients of `double` values and every
comparison with not-a-number is false. -/
def bestmatchIEEE (fDCAoverLength : Bool) (t0Candidates : List (matchCandIEEE α)) :
    matchCandIEEE α :=
  match t0Candidates with
  | [] => makeNULLmcIEEE
  | first :: _ =>
    let sin_angle := first.dca.div (Double.fin first.extrapLen)
    if fDCAoverLength = true then
      t0Candidates.foldl (fun bestmatch thisCand =>
        let this_sin_angle := thisCand.dca.div (Double.fin thisCand.extrapLen)
        if bestmatch.dca.lt (Double.fin 0) = true then thisCand
        else if this_sin_angle.lt sin_angle = true ∧ thisCand.dca.ge (Double.fin 0) = true
          then thisCand
        else bestmatch) first
    else
      t0Candidates.foldl (fun bestmatch thisCand =>
        if bestmatch.dca.lt (Double.fin 0) = true then thisCand
        else if thisCand.dca.lt bestmatch.dca = true ∧ thisCand.dca.ge (Double.fin 0) = true
          then thisCand
        else bestmatch) first

/-- The function `GetClosestCRTHit(detProp, tpcTrack, t0MinMax, crtHits, driftDirection)`
evaluated with the special values of IEEE-754. -/
def GetClosestCRTHitIEEE (sqrt : α → α) (alg : CRTT0MatchAlg α)
    (detProp : DetectorPropertiesData α) (tpcTrack : Track α) (t0MinMax : Double α × Double α)
    (crtHits : List (CRTHit α)) (driftDirection : ℤ) : Option (matchCandIEEE α) :=
  match t0CandidatesIEEE sqrt alg detProp tpcTrack t0MinMax driftDirection crtHits with
  | none => none
  | some cands => some (bestmatchIEEE alg.fDCAoverLength cands)

/-- The overload `GetClosestCRTHit(detProp, tpcTrack, hits, crtHits)` evaluated with the
special values of IEEE-754. -/
def GetClosestCRTHitOfHitsIEEE {H : Type} (sqrt : α → α) (alg : CRTT0MatchAlg α)
    (util : TPCGeoUtil α H) (detProp : DetectorPropertiesData α) (tpcTrack : Track α) (hits : H)
    (crtHits : List (CRTHit α)) : Option (matchCandIEEE α) :=
  let start := tpcTrack.Start
  let end_ := tpcTrack.End
  let driftDirection := util.DriftDirectionFromHits alg.fGeometryService hits
  let xLimits := util.XLimitsFromHits alg.fGeometryService hits
  let t0MinMax := TrackT0RangeIEEE detProp start.X end_.X driftDirection xLimits
  GetClosestCRTHitIEEE sqrt alg detProp tpcTrack t0MinMax crtHits driftDirection

/-- The function `T0FromCRTHits(detProp, tpcTrack, hits, crtHits)` evaluated with the
special values of IEEE-754. -/
def T0FromCRTHitsIEEE {H : Type} (sqrt : α → α) (alg : CRTT0MatchAlg α)
    (util : TPCGeoUtil α H) (detProp : DetectorPropertiesData α) (tpcTrack : Track α) (hits : H)
    (crtHits : List (CRTHit α)) : Option α :=
  if tpcTrack.Length < alg.fMinTrackLength then some (-99999)
  else
    match GetClosestCRTHitOfHitsIEEE sqrt alg util detProp tpcTrack hits crtHits with
    | none => none
    | some closestHit =>
      if closestHit.dca.lt (Double.fin 0) = true then some (-99999)
      else
        let crtTime := crtTime alg closestHit.thishit
        if closestHit.dca.lt (Double.fin alg.fDistanceLimit) = true ∧
            (closestHit.dca.div (Double.fin closestHit.extrapLen)).lt
              (Double.fin alg.fDoverLLimit) = true then some crtTime
        else some (-99999)

/-- The function `T0AndDCAFromCRTHits(detProp, tpcTrack, hits, crtHits)` evaluated with the
special values of IEEE-754. -/
def T0AndDCAFromCRTHitsIEEE {H : Type} (sqrt : α → α) (alg : CRTT0MatchAlg α)
    (util : TPCGeoUtil α H) (detProp : DetectorPropertiesData α) (tpcTrack : Track α) (hits : H)
    (crtHits : List (CRTHit α)) : Option (α × Double α) :=
  if tpcTrack.Length < alg.fMinTrackLength then some (-9999, Double.fin (-9999))
  else
    match GetClosestCRTHitOfHitsIEEE sqrt alg util detProp tpcTrack hits crtHits with
    | none => none
    | some closestHit =>
      if closestHit.dca.lt (Double.fin 0) = true then some (-9999, Double.fin (-9999))
      else if closestHit.dca.lt (Double.fin alg.fDistanceLimit) = true ∧
          (closestHit.dca.div (Double.fin closestHit.extrapLen)).lt
            (Double.fin alg.fDoverLLimit) = true then
        some (closestHit.t0, closestHit.dca)
      else some (-9999, Double.fin (-9999))

end SpecialValuePath

/-- Track with two trajectory points, `(0, 0, 0)` and `(0, 0, 12)`; its length is 12.  With
the fraction `1/2` the intermediate point of `TrackDirection` is the end point. -/
def twoPointTrack : Track ℚ :=
  { Length := 12, Start := ⟨0, 0, 0⟩, End := ⟨0, 0, 12⟩, NPoints := 2,
    LocationAtPoint := fun i => if i = 0 then ⟨0, 0, 0⟩ else ⟨0, 0, 12⟩,
    DirectionAtPoint := fun _ => ⟨0, 0, 1⟩,
    FlagsAtPointIsInvalidHitIndex := fun _ => true }

/-- Sample hit at `(x, y, z)` with light yield 100, timestamp 2000 ns on both clocks and unit
position uncertainties. -/
def hitAt (x y z : ℚ) : CRTHit ℚ :=
  { peshit := 100, ts0_ns := 2000, ts1_ns := 2000, x_pos := x, x_err := 1, y_pos := y,
    y_err := 1, z_pos := z, z_err := 1 }

/-! ## Lemmas -/

/-- The fuelled iteration agrees with `Nat.sqrt.iter` once the fuel covers the guess. -/
theorem natSqrtIter_eq (n : ℕ) : ∀ fuel guess, guess ≤ fuel →
    natSqrtIter n fuel guess = Nat.sqrt.iter n guess := by
  intro fuel
  induction fuel with
  | zero =>
    intro guess h
    have h0 : guess = 0 := Nat.le_zero.mp h
    subst h0
    rw [natSqrtIter, Nat.sqrt.iter]
    simp
  | succ fuel ih =>
    intro guess h
    rw [natSqrtIter, Nat.sqrt.iter]
    split_ifs with h1
    · exact ih _ (by omega)
    · rfl

/-- The integer square root used by `sqrtQ` is `Nat.sqrt`. -/
theorem natSqrt_eq (n : ℕ) : natSqrt n = Nat.sqrt n := by
  unfold natSqrt Nat.sqrt
  split_ifs
  · rfl
  · exact natSqrtIter_eq n n (n / 2) (Nat.div_le_self n 2)

/-- The rational square root `sqrtQ` is exact on squares. -/
theorem sqrtQ_mul_self (q : ℚ) (hq : 0 ≤ q) : sqrtQ (q * q) = q := by
  unfold sqrtQ
  rw [Rat.mul_self_num, Rat.mul_self_den, natSqrt_eq, natSqrt_eq]
  have hn := Rat.num_nonneg.mpr hq
  have h1 : (q.num * q.num).toNat = q.num.toNat * q.num.toNat := by
    obtain ⟨k, hk⟩ := Int.eq_ofNat_of_zero_le hn
    rw [hk, ← Int.natCast_mul]
    rfl
  rw [h1, Nat.sqrt_eq, Nat.sqrt_eq]
  have h2 : ((q.num.toNat : ℕ) : ℚ) = (q.num : ℚ) := by
    exact_mod_cast congrArg (Int.cast (R := ℚ)) (Int.toNat_of_nonneg hn)
  rw [h2]
  exact Rat.num_div_den q

/-- The rational square root `sqrtQ` is non-negative. -/
theorem sqrtQ_nonneg (q : ℚ) : 0 ≤ sqrtQ q :=
  div_nonneg (Nat.cast_nonneg _) (Nat.cast_nonneg _)

section Lemmas

variable {α : Type} [LinearOrderedField α] [FloorRing α]

omit [FloorRing α] in
theorem Mag_nonneg (sqrt : α → α) (hsqrt : ∀ x, 0 ≤ sqrt x) (a : TVector3 α) :
    0 ≤ a.Mag sqrt := hsqrt _

omit [FloorRing α] in
theorem SimpleDCA_nonneg (sqrt : α → α) (hsqrt : ∀ x, 0 ≤ sqrt x) (hit : CRTHit α)
    (start direction : TVector3 α) : 0 ≤ SimpleDCA sqrt hit start direction := by
  unfold SimpleDCA
  exact div_nonneg (hsqrt _) (hsqrt _)

omit [FloorRing α] in
theorem LineSegmentDistance_nonneg (sqrt : α → α) (hsqrt : ∀ x, 0 ≤ sqrt x)
    (start1 end1 start2 end2 : TVector3 α) :
    0 ≤ LineSegmentDistance sqrt start1 end1 start2 end2 := by
  unfold LineSegmentDistance
  exact hsqrt _

omit [FloorRing α] in
theorem DistToCrtHit_nonneg (sqrt : α → α) (hsqrt : ∀ x, 0 ≤ sqrt x) (hit : CRTHit α)
    (start end_ : TVector3 α) : 0 ≤ DistToCrtHit sqrt hit start end_ := by
  have h := LineSegmentDistance_nonneg sqrt hsqrt
  unfold DistToCrtHit
  simp only []
  have h4 : ∀ a b c d : α, 0 ≤ a → 0 ≤ b → 0 ≤ c → 0 ≤ d → 0 ≤ min (min a b) (min c d) :=
    fun _ _ _ _ ha hb hc hd => le_min (le_min ha hb) (le_min hc hd)
  split_ifs
  · exact le_refl _
  all_goals exact h4 _ _ _ _ (h _ _ _ _) (h _ _ _ _) (h _ _ _ _) (h _ _ _ _)

omit [FloorRing α] in
theorem DistOfClosestApproach_nonneg (sqrt : α → α) (hsqrt : ∀ x, 0 ≤ sqrt x)
    (alg : CRTT0MatchAlg α) (detProp : DetectorPropertiesData α) (trackPos trackDir : TVector3 α)
    (crtHit : CRTHit α) (driftDirection : ℤ) (t0 : α) :
    0 ≤ DistOfClosestApproach sqrt alg detProp trackPos trackDir crtHit driftDirection t0 := by
  unfold DistOfClosestApproach
  simp only []
  split_ifs <;>
    first | exact DistToCrtHit_nonneg sqrt hsqrt _ _ _ | exact SimpleDCA_nonneg sqrt hsqrt _ _ _

/-- Every candidate appended for a hit carries that hit, its corrected time, and one of the
two end distances. -/
theorem mem_newCandidates (sqrt : α → α) (alg : CRTT0MatchAlg α)
    (detProp : DetectorPropertiesData α) (tpcTrack : Track α) (driftDirection : ℤ)
    (crtHit : CRTHit α) (dirs : TVector3 α × TVector3 α) (c : matchCand α)
    (hc : c ∈ newCandidates sqrt alg detProp tpcTrack driftDirection crtHit (crtTime alg crtHit)
      dirs) :
    c.thishit = crtHit ∧ c.t0 = crtTime alg crtHit ∧
      proximityGate sqrt alg detProp tpcTrack driftDirection crtHit dirs ∧
      (c.dca = DistOfClosestApproach sqrt alg detProp tpcTrack.Start dirs.1 crtHit driftDirection
          (crtTime alg crtHit) ∨
        c.dca = DistOfClosestApproach sqrt alg detProp tpcTrack.End dirs.2 crtHit driftDirection
          (crtTime alg crtHit)) := by
  unfold newCandidates at hc
  simp only [] at hc
  unfold proximityGate
  split_ifs at hc <;> simp only [List.mem_singleton, List.not_mem_nil] at hc <;>
    first
    | exact hc.elim
    | (subst hc; exact ⟨rfl, rfl, by assumption, Or.inl rfl⟩)
    | (subst hc; exact ⟨rfl, rfl, by assumption, Or.inr rfl⟩)

/-- A hit that passes the proximity test appends exactly one candidate, one that fails
appends none. -/
theorem newCandidates_length (sqrt : α → α) (alg : CRTT0MatchAlg α)
    (detProp : DetectorPropertiesData α) (tpcTrack : Track α) (driftDirection : ℤ)
    (crtHit : CRTHit α) (dirs : TVector3 α × TVector3 α) :
    (proximityGate sqrt alg detProp tpcTrack driftDirection crtHit dirs →
      ∃ c, newCandidates sqrt alg detProp tpcTrack driftDirection crtHit (crtTime alg crtHit)
        dirs = [c]) ∧
    (¬ proximityGate sqrt alg detProp tpcTrack driftDirection crtHit dirs →
      newCandidates sqrt alg detProp tpcTrack driftDirection crtHit (crtTime alg crtHit)
        dirs = []) := by
  unfold newCandidates proximityGate
  simp only []
  constructor
  · intro h
    rw [if_pos h]
    split_ifs <;> exact ⟨_, rfl⟩
  · intro h
    rw [if_neg h]

/-- A hit that fails the time test or a quality test is skipped. -/
theorem t0Candidates_cons_skip (sqrt : α → α) (alg : CRTT0MatchAlg α)
    (detProp : DetectorPropertiesData α) (tpcTrack : Track α) (t0MinMax : α × α)
    (driftDirection : ℤ) (crtHit : CRTHit α) (rest : List (CRTHit α))
    (h : ¬ (timeGate alg t0MinMax crtHit ∧ qualityGate alg crtHit)) :
    t0Candidates sqrt alg detProp tpcTrack t0MinMax driftDirection (crtHit :: rest) =
      t0Candidates sqrt alg detProp tpcTrack t0MinMax driftDirection rest := by
  unfold timeGate qualityGate at h
  rw [t0Candidates]
  split_ifs with h1 h2 h3 h4 h5 <;> first | rfl | exact absurd ⟨h1, h2, h3, h4, h5⟩ h

/-- A hit that passes the time and quality tests goes through the direction estimate and
the proximity test. -/
theorem t0Candidates_cons_pass (sqrt : α → α) (alg : CRTT0MatchAlg α)
    (detProp : DetectorPropertiesData α) (tpcTrack : Track α) (t0MinMax : α × α)
    (driftDirection : ℤ) (crtHit : CRTHit α) (rest : List (CRTHit α))
    (ht : timeGate alg t0MinMax crtHit) (hq : qualityGate alg crtHit) :
    t0Candidates sqrt alg detProp tpcTrack t0MinMax driftDirection (crtHit :: rest) =
      match startEndDir sqrt alg detProp tpcTrack (crtTime alg crtHit) driftDirection with
      | none => none
      | some dirs =>
        match t0Candidates sqrt alg detProp tpcTrack t0MinMax driftDirection rest with
        | none => none
        | some more =>
          some (newCandidates sqrt alg detProp tpcTrack driftDirection crtHit
            (crtTime alg crtHit) dirs ++ more) := by
  unfold timeGate at ht
  unfold qualityGate at hq
  rw [t0Candidates]
  rw [if_neg (not_not.mpr ht), if_neg hq.1, if_neg hq.2.1, if_neg hq.2.2.1, if_neg hq.2.2.2]

/-- The hits carried by the candidate list are the hits that pass the three tests, in the
order of the hit list and once per occurrence. -/
theorem t0Candidates_map_thishit (sqrt : α → α) (alg : CRTT0MatchAlg α)
    (detProp : DetectorPropertiesData α) (tpcTrack : Track α) (t0MinMax : α × α)
    (driftDirection : ℤ) :
    ∀ (crtHits : List (CRTHit α)) (cands : List (matchCand α)),
      t0Candidates sqrt alg detProp tpcTrack t0MinMax driftDirection crtHits = some cands →
      cands.map (fun c => c.thishit) = crtHits.filter (fun crtHit =>
        decide (passesGates sqrt alg detProp tpcTrack t0MinMax driftDirection crtHit)) := by
  intro crtHits
  induction crtHits with
  | nil =>
    intro cands h
    rw [t0Candidates] at h
    cases h
    rfl
  | cons crtHit rest ih =>
    intro cands h
    by_cases hg : timeGate alg t0MinMax crtHit ∧ qualityGate alg crtHit
    · rw [t0Candidates_cons_pass sqrt alg detProp tpcTrack t0MinMax driftDirection crtHit rest
        hg.1 hg.2] at h
      cases hd : startEndDir sqrt alg detProp tpcTrack (crtTime alg crtHit) driftDirection with
      | none => rw [hd] at h; cases h
      | some dirs =>
        rw [hd] at h
        cases hr : t0Candidates sqrt alg detProp tpcTrack t0MinMax driftDirection rest with
        | none => rw [hr] at h; cases h
        | some more =>
          rw [hr] at h
          simp only [Option.some.injEq] at h
          subst h
          have ihm := ih more hr
          have hlen := newCandidates_length sqrt alg detProp tpcTrack driftDirection crtHit dirs
          by_cases hp : proximityGate sqrt alg detProp tpcTrack driftDirection crtHit dirs
          · obtain ⟨c, hc⟩ := hlen.1 hp
            have hmem := mem_newCandidates sqrt alg detProp tpcTrack driftDirection crtHit dirs c
              (by rw [hc]; exact List.mem_singleton.mpr rfl)
            have hpass : passesGates sqrt alg detProp tpcTrack t0MinMax driftDirection crtHit :=
              ⟨hg.1, hg.2, dirs, hd, hp⟩
            rw [hc, List.filter_cons_of_pos (by simpa using hpass)]
            simp only [List.singleton_append, List.map_cons, hmem.1, ihm]
          · have hfail : ¬ passesGates sqrt alg detProp tpcTrack t0MinMax driftDirection
                crtHit := by
              rintro ⟨_, _, dirs2, hd2, hp2⟩
              rw [Option.mem_def, hd] at hd2
              cases hd2
              exact hp hp2
            rw [hlen.2 hp, List.filter_cons_of_neg (by simpa using hfail)]
            simpa using ihm
    · rw [t0Candidates_cons_skip sqrt alg detProp tpcTrack t0MinMax driftDirection crtHit rest
        hg] at h
      have hfail : ¬ passesGates sqrt alg detProp tpcTrack t0MinMax driftDirection crtHit :=
        fun hp => hg ⟨hp.1, hp.2.1⟩
      rw [List.filter_cons_of_neg (by simpa using hfail)]
      exact ih cands h

/-- Every candidate comes from a hit of the list that passes the three tests; it carries
that hit and its corrected time, and its `dca` is one of the two end distances. -/
theorem mem_t0Candidates (sqrt : α → α) (alg : CRTT0MatchAlg α)
    (detProp : DetectorPropertiesData α) (tpcTrack : Track α) (t0MinMax : α × α)
    (driftDirection : ℤ) :
    ∀ (crtHits : List (CRTHit α)) (cands : List (matchCand α)),
      t0Candidates sqrt alg detProp tpcTrack t0MinMax driftDirection crtHits = some cands →
      ∀ c ∈ cands, c.thishit ∈ crtHits ∧
        passesGates sqrt alg detProp tpcTrack t0MinMax driftDirection c.thishit ∧
        c.t0 = crtTime alg c.thishit ∧
        ∃ pos dir, c.dca = DistOfClosestApproach sqrt alg detProp pos dir c.thishit
          driftDirection (crtTime alg c.thishit) := by
  intro crtHits
  induction crtHits with
  | nil =>
    intro cands h c hc
    rw [t0Candidates] at h
    cases h
    cases hc
  | cons crtHit rest ih =>
    intro cands h c hc
    by_cases hg : timeGate alg t0MinMax crtHit ∧ qualityGate alg crtHit
    · rw [t0Candidates_cons_pass sqrt alg detProp tpcTrack t0MinMax driftDirection crtHit rest
        hg.1 hg.2] at h
      cases hd : startEndDir sqrt alg detProp tpcTrack (crtTime alg crtHit) driftDirection with
      | none => rw [hd] at h; cases h
      | some dirs =>
        rw [hd] at h
        cases hr : t0Candidates sqrt alg detProp tpcTrack t0MinMax driftDirection rest with
        | none => rw [hr] at h; cases h
        | some more =>
          rw [hr] at h
          simp only [Option.some.injEq] at h
          subst h
          rcases List.mem_append.mp hc with hnew | hold
          · have hmem := mem_newCandidates sqrt alg detProp tpcTrack driftDirection crtHit dirs c
              hnew
            rw [hmem.1]
            refine ⟨List.mem_cons_self _ _, ⟨hg.1, hg.2, dirs, hd, hmem.2.2.1⟩, ?_, ?_⟩
            · rw [hmem.2.1]
            · rcases hmem.2.2.2 with h1 | h1
              · exact ⟨_, _, h1⟩
              · exact ⟨_, _, h1⟩
          · obtain ⟨h1, h2⟩ := ih more hr c hold
            exact ⟨List.mem_cons_of_mem _ h1, h2⟩
    · rw [t0Candidates_cons_skip sqrt alg detProp tpcTrack t0MinMax driftDirection crtHit rest
        hg] at h
      obtain ⟨h1, h2⟩ := ih cands h c hc
      exact ⟨List.mem_cons_of_mem _ h1, h2⟩

omit [FloorRing α]


/-- A left fold whose step always answers one of its two arguments answers the initial value
or a member of the list. -/
theorem foldl_choice {β : Type} (step : β → β → β) (hstep : ∀ b c, step b c = b ∨ step b c = c) :
    ∀ (l : List β) (b : β), l.foldl step b = b ∨ l.foldl step b ∈ l := by
  intro l
  induction l with
  | nil => intro b; exact Or.inl rfl
  | cons c l ih =>
    intro b
    rw [List.foldl_cons]
    rcases ih (step b c) with h | h
    · rcases hstep b c with h2 | h2
      · exact Or.inl (by rw [h, h2])
      · exact Or.inr (by rw [h, h2]; exact List.mem_cons_self _ _)
    · exact Or.inr (List.mem_cons_of_mem _ h)

/-- A left fold over candidates keeps a non-negative `dca` and acquires one from the first
candidate that has it, provided each step does. -/
theorem foldl_dca_nonneg (step : matchCand α → matchCand α → matchCand α)
    (hkeep : ∀ b c, 0 ≤ b.dca → 0 ≤ (step b c).dca)
    (htake : ∀ b c, b.dca < 0 → step b c = c) :
    ∀ (l : List (matchCand α)) (b : matchCand α), (0 ≤ b.dca ∨ ∃ c ∈ l, 0 ≤ c.dca) →
      0 ≤ (l.foldl step b).dca := by
  intro l
  induction l with
  | nil =>
    intro b h
    rcases h with h | ⟨c, hc, _⟩
    · exact h
    · cases hc
  | cons c l ih =>
    intro b h
    rw [List.foldl_cons]
    apply ih
    by_cases hb : 0 ≤ b.dca
    · exact Or.inl (hkeep b c hb)
    · rcases h with h | ⟨x, hx, hx0⟩
      · exact absurd h hb
      · rcases List.mem_cons.mp hx with rfl | hx
        · exact Or.inl (by rw [htake b x (not_le.mp hb)]; exact hx0)
        · exact Or.inr ⟨x, hx, hx0⟩

/-- Step of the selection loop under the DCA-over-length policy, for a fixed reference
value `sin_angle`. -/
theorem bestmatch_true_cons (first : matchCand α) (rest : List (matchCand α)) :
    bestmatch true (first :: rest) = rest.foldl (fun bestmatch thisCand =>
      if bestmatch.dca < 0 then thisCand
      else if thisCand.dca / thisCand.extrapLen < first.dca / first.extrapLen ∧ thisCand.dca ≥ 0
        then thisCand
      else bestmatch) first := by
  simp [bestmatch]

theorem bestmatch_false_cons (first : matchCand α) (rest : List (matchCand α)) :
    bestmatch false (first :: rest) = rest.foldl (fun bestmatch thisCand =>
      if bestmatch.dca < 0 then thisCand
      else if thisCand.dca < bestmatch.dca ∧ thisCand.dca ≥ 0 then thisCand
      else bestmatch) first := by
  simp [bestmatch]

/-- A left fold whose step always answers one of its two arguments answers a member of the
list headed by the initial value. -/
theorem foldl_mem_cons {β : Type} (step : β → β → β)
    (hstep : ∀ b c, step b c = b ∨ step b c = c) (l : List β) (b : β) :
    l.foldl step b ∈ b :: l := by
  rcases foldl_choice step hstep l b with h | h
  · rw [h]; exact List.mem_cons_self _ _
  · exact List.mem_cons_of_mem _ h

/-- The selected candidate is one of the candidates. -/
theorem bestmatch_mem (fDCAoverLength : Bool) (cands : List (matchCand α)) (h : cands ≠ []) :
    bestmatch fDCAoverLength cands ∈ cands := by
  cases cands with
  | nil => exact absurd rfl h
  | cons first rest =>
    cases fDCAoverLength with
    | true =>
      rw [bestmatch_true_cons]
      apply foldl_mem_cons
      intro b c
      dsimp only
      split_ifs <;> simp
    | false =>
      rw [bestmatch_false_cons]
      apply foldl_mem_cons
      intro b c
      dsimp only
      split_ifs <;> simp

end Lemmas

section Results

variable {α : Type} [LinearOrderedField α] [FloorRing α]


/-- The direction estimate answers for every hit unless the averaged method is configured
and throws. -/
theorem startEndDir_isSome (sqrt : α → α) (alg : CRTT0MatchAlg α)
    (detProp : DetectorPropertiesData α) (tpcTrack : Track α) (driftDirection : ℤ)
    (hdir : alg.fDirMethod = 2 →
      (TrackDirectionAverage tpcTrack alg.fTrackDirectionFrac).isSome = true) (T : α) :
    (startEndDir sqrt alg detProp tpcTrack T driftDirection).isSome = true := by
  unfold startEndDir
  split_ifs with h
  · exact hdir h
  · rfl

/-- The hit loop terminates normally whenever the direction estimate cannot throw. -/
theorem t0Candidates_isSome (sqrt : α → α) (alg : CRTT0MatchAlg α)
    (detProp : DetectorPropertiesData α) (tpcTrack : Track α) (t0MinMax : α × α)
    (driftDirection : ℤ)
    (hdir : alg.fDirMethod = 2 →
      (TrackDirectionAverage tpcTrack alg.fTrackDirectionFrac).isSome = true) :
    ∀ crtHits : List (CRTHit α),
      (t0Candidates sqrt alg detProp tpcTrack t0MinMax driftDirection crtHits).isSome = true := by
  intro crtHits
  induction crtHits with
  | nil => rw [t0Candidates]; rfl
  | cons crtHit rest ih =>
    by_cases hg : timeGate alg t0MinMax crtHit ∧ qualityGate alg crtHit
    · rw [t0Candidates_cons_pass sqrt alg detProp tpcTrack t0MinMax driftDirection crtHit rest
        hg.1 hg.2]
      obtain ⟨dirs, hd⟩ := Option.isSome_iff_exists.mp
        (startEndDir_isSome sqrt alg detProp tpcTrack driftDirection hdir (crtTime alg crtHit))
      obtain ⟨more, hm⟩ := Option.isSome_iff_exists.mp ih
      rw [hd, hm]
      rfl
    · rw [t0Candidates_cons_skip sqrt alg detProp tpcTrack t0MinMax driftDirection crtHit rest
        hg]
      exact ih

/-- The result of `GetClosestCRTHit` is the selection applied to the candidate list. -/
theorem GetClosestCRTHit_eq_some (sqrt : α → α) (alg : CRTT0MatchAlg α)
    (detProp : DetectorPropertiesData α) (tpcTrack : Track α) (t0MinMax : α × α)
    (crtHits : List (CRTHit α)) (driftDirection : ℤ) (m : matchCand α)
    (h : GetClosestCRTHit sqrt alg detProp tpcTrack t0MinMax crtHits driftDirection = some m) :
    ∃ cands, t0Candidates sqrt alg detProp tpcTrack t0MinMax driftDirection crtHits = some cands ∧
      m = bestmatch alg.fDCAoverLength cands := by
  unfold GetClosestCRTHit at h
  cases hc : t0Candidates sqrt alg detProp tpcTrack t0MinMax driftDirection crtHits with
  | none => rw [hc] at h; cases h
  | some cands =>
    rw [hc] at h
    simp only [Option.some.injEq] at h
    exact ⟨cands, rfl, h.symm⟩

theorem GetClosestCRTHit_of_candidates (sqrt : α → α) (alg : CRTT0MatchAlg α)
    (detProp : DetectorPropertiesData α) (tpcTrack : Track α) (t0MinMax : α × α)
    (crtHits : List (CRTHit α)) (driftDirection : ℤ) (cands : List (matchCand α))
    (h : t0Candidates sqrt alg detProp tpcTrack t0MinMax driftDirection crtHits = some cands) :
    GetClosestCRTHit sqrt alg detProp tpcTrack t0MinMax crtHits driftDirection =
      some (bestmatch alg.fDCAoverLength cands) := by
  unfold GetClosestCRTHit
  rw [h]

omit [FloorRing α] in
theorem makeNULLmc_dca : (makeNULLmc : matchCand α).dca = -99999 := rfl

omit [FloorRing α] in
theorem makeNULLmc_dca_neg : (makeNULLmc : matchCand α).dca < 0 := by
  rw [makeNULLmc_dca]; norm_num

/-- A result of `GetClosestCRTHit` is the null candidate or a candidate built from a hit of
the list that passes the three tests. -/
theorem GetClosestCRTHit_cases (sqrt : α → α) (alg : CRTT0MatchAlg α)
    (detProp : DetectorPropertiesData α) (tpcTrack : Track α) (t0MinMax : α × α)
    (crtHits : List (CRTHit α)) (driftDirection : ℤ) (m : matchCand α)
    (h : GetClosestCRTHit sqrt alg detProp tpcTrack t0MinMax crtHits driftDirection = some m) :
    (m = makeNULLmc ∧
      ∀ crtHit ∈ crtHits,
        ¬ passesGates sqrt alg detProp tpcTrack t0MinMax driftDirection crtHit) ∨
    (m.thishit ∈ crtHits ∧
      passesGates sqrt alg detProp tpcTrack t0MinMax driftDirection m.thishit ∧
      m.t0 = crtTime alg m.thishit ∧
      ∃ pos dir, m.dca = DistOfClosestApproach sqrt alg detProp pos dir m.thishit
        driftDirection (crtTime alg m.thishit)) := by
  obtain ⟨cands, hc, hm⟩ := GetClosestCRTHit_eq_some sqrt alg detProp tpcTrack t0MinMax crtHits
    driftDirection m h
  have hmap := t0Candidates_map_thishit sqrt alg detProp tpcTrack t0MinMax driftDirection
    crtHits cands hc
  cases cands with
  | nil =>
    left
    refine ⟨hm, ?_⟩
    intro crtHit hmem hp
    have : crtHit ∈ crtHits.filter (fun crtHit =>
        decide (passesGates sqrt alg detProp tpcTrack t0MinMax driftDirection crtHit)) :=
      List.mem_filter.mpr ⟨hmem, by simpa using hp⟩
    rw [← hmap] at this
    cases this
  | cons first rest =>
    right
    have hmem : m ∈ first :: rest := by
      rw [hm]; exact bestmatch_mem _ _ (List.cons_ne_nil _ _)
    exact mem_t0Candidates sqrt alg detProp tpcTrack t0MinMax driftDirection crtHits _ hc m hmem

end Results

/-! ## Geometry and loop-body lemmas -/

namespace TVector3

variable {α : Type} [LinearOrderedField α]

@[simp] theorem add_X (a b : TVector3 α) : (a + b).X = a.X + b.X := rfl
@[simp] theorem add_Y (a b : TVector3 α) : (a + b).Y = a.Y + b.Y := rfl
@[simp] theorem add_Z (a b : TVector3 α) : (a + b).Z = a.Z + b.Z := rfl
@[simp] theorem sub_X (a b : TVector3 α) : (a - b).X = a.X - b.X := rfl
@[simp] theorem sub_Y (a b : TVector3 α) : (a - b).Y = a.Y - b.Y := rfl
@[simp] theorem sub_Z (a b : TVector3 α) : (a - b).Z = a.Z - b.Z := rfl
@[simp] theorem smul_X (k : α) (a : TVector3 α) : (smul k a).X = k * a.X := rfl
@[simp] theorem smul_Y (k : α) (a : TVector3 α) : (smul k a).Y = k * a.Y := rfl
@[simp] theorem smul_Z (k : α) (a : TVector3 α) : (smul k a).Z = k * a.Z := rfl

omit [LinearOrderedField α] in
/-- Two vectors are equal when their components are. -/
theorem eq_iff (a b : TVector3 α) : a = b ↔ a.X = b.X ∧ a.Y = b.Y ∧ a.Z = b.Z := by
  obtain ⟨ax, ay, az⟩ := a
  obtain ⟨bx, by_, bz⟩ := b
  simp only [TVector3.mk.injEq]

/-- A vector other than zero has a positive squared magnitude. -/
theorem Mag2_pos (a : TVector3 α) (h : a ≠ ⟨0, 0, 0⟩) : 0 < a.Mag2 := by
  obtain ⟨x, y, z⟩ := a
  unfold Mag2
  simp only []
  have hne : x ≠ 0 ∨ y ≠ 0 ∨ z ≠ 0 := by
    by_contra hcon
    push_neg at hcon
    obtain ⟨hx, hy, hz⟩ := hcon
    exact h (by rw [hx, hy, hz])
  rcases hne with h1 | h1 | h1
  · have := mul_self_pos.mpr h1
    nlinarith [mul_self_nonneg y, mul_self_nonneg z]
  · have := mul_self_pos.mpr h1
    nlinarith [mul_self_nonneg x, mul_self_nonneg z]
  · have := mul_self_pos.mpr h1
    nlinarith [mul_self_nonneg x, mul_self_nonneg y]

theorem Mag2_nonneg (a : TVector3 α) : 0 ≤ a.Mag2 := by
  unfold Mag2
  nlinarith [mul_self_nonneg a.X, mul_self_nonneg a.Y, mul_self_nonneg a.Z]

/-- A vector of squared magnitude zero is the zero vector. -/
theorem eq_zero_of_Mag2 (a : TVector3 α) (h : a.Mag2 = 0) : a = ⟨0, 0, 0⟩ := by
  by_contra hne
  exact absurd h (ne_of_gt (Mag2_pos a hne))

end TVector3

section PointLine

/-- Squared numerator of `SimpleDCA` against the squared distance from the hit to the point
of parameter `t` on the track line: `|d|² · |p - (s + t d)|² = |(p - s) × (p - (s + d))|² +
(t |d|² - (p - s)·d)²`. -/
theorem SimpleDCA_identity (p s d : TVector3 ℝ) (t : ℝ) :
    d.Mag2 * (p - (s + TVector3.smul t d)).Mag2 =
      ((p - s).Cross (p - (s + d))).Mag2 + (t * d.Mag2 - (p - s).Dot d) ^ 2 := by
  simp only [TVector3.Mag2, TVector3.Cross, TVector3.Dot, TVector3.add_X, TVector3.add_Y,
    TVector3.add_Z, TVector3.sub_X, TVector3.sub_Y, TVector3.sub_Z, TVector3.smul_X,
    TVector3.smul_Y, TVector3.smul_Z]
  ring

end PointLine

section LoopBody

variable {α : Type} [LinearOrderedField α] [FloorRing α]

end LoopBody

/-! ## Segments, boxes and averaged directions -/

section SegmentLine

variable {α : Type} [LinearOrderedField α]

/-- The segment parameter chosen by `LineSegmentDistance` lies in `[0, 1]`, whichever of
its four branches is taken. -/
theorem segment_parameter_bounds (small D sN tN e b c : α) (hs : 0 < small) :
    0 ≤ (if |(if D < small then (((0 : α), (1 : α)), (e, c))
            else if sN < 0 then ((0, D), (e, c))
            else if sN > D then ((D, D), (e + b, c))
            else ((sN, D), (tN, D))).1.1| < small then 0
          else (if D < small then (((0 : α), (1 : α)), (e, c))
            else if sN < 0 then ((0, D), (e, c))
            else if sN > D then ((D, D), (e + b, c))
            else ((sN, D), (tN, D))).1.1 /
            (if D < small then (((0 : α), (1 : α)), (e, c))
            else if sN < 0 then ((0, D), (e, c))
            else if sN > D then ((D, D), (e + b, c))
            else ((sN, D), (tN, D))).1.2) ∧
    (if |(if D < small then (((0 : α), (1 : α)), (e, c))
            else if sN < 0 then ((0, D), (e, c))
            else if sN > D then ((D, D), (e + b, c))
            else ((sN, D), (tN, D))).1.1| < small then 0
          else (if D < small then (((0 : α), (1 : α)), (e, c))
            else if sN < 0 then ((0, D), (e, c))
            else if sN > D then ((D, D), (e + b, c))
            else ((sN, D), (tN, D))).1.1 /
            (if D < small then (((0 : α), (1 : α)), (e, c))
            else if sN < 0 then ((0, D), (e, c))
            else if sN > D then ((D, D), (e + b, c))
            else ((sN, D), (tN, D))).1.2) ≤ 1 := by
  by_cases h1 : D < small
  · simp only [if_pos h1, abs_zero, if_pos hs]
    exact ⟨le_refl _, zero_le_one⟩
  · have hD : 0 < D := lt_of_lt_of_le hs (not_lt.mp h1)
    by_cases h2 : sN < 0
    · simp only [if_neg h1, if_pos h2, abs_zero, if_pos hs]
      exact ⟨le_refl _, zero_le_one⟩
    · by_cases h3 : sN > D
      · simp only [if_neg h1, if_neg h2, if_pos h3]
        split_ifs
        · exact ⟨le_refl _, zero_le_one⟩
        · rw [div_self (ne_of_gt hD)]
          exact ⟨zero_le_one, le_refl _⟩
      · simp only [if_neg h1, if_neg h2, if_neg h3]
        split_ifs
        · exact ⟨le_refl _, zero_le_one⟩
        · exact ⟨div_nonneg (not_lt.mp h2) (le_of_lt hD),
            (div_le_one hD).mpr (not_lt.mp h3)⟩

/-- The value of `LineSegmentDistance` is the magnitude of the difference between a point
of the segment, of parameter `sc` in `[0, 1]`, and a point of the line, of parameter `tc`. -/
theorem LineSegmentDistance_params (sqrt : α → α) (start1 end1 start2 end2 : TVector3 α) :
    ∃ sc tc : α, 0 ≤ sc ∧ sc ≤ 1 ∧
      LineSegmentDistance sqrt start1 end1 start2 end2 =
        ((start1 + TVector3.smul sc (end1 - start1)) -
          (start2 + TVector3.smul tc (end2 - start2))).Mag sqrt := by
  have hsmall : (0 : α) < 0.00001 := by norm_num
  have hvec : ∀ sc tc : α,
      (start1 - start2 + TVector3.smul sc (end1 - start1) -
          TVector3.smul tc (end2 - start2)).Mag sqrt =
        ((start1 + TVector3.smul sc (end1 - start1)) -
          (start2 + TVector3.smul tc (end2 - start2))).Mag sqrt := by
    intro sc tc
    unfold TVector3.Mag
    congr 1
    simp only [TVector3.Mag2, TVector3.add_X, TVector3.add_Y, TVector3.add_Z, TVector3.sub_X,
      TVector3.sub_Y, TVector3.sub_Z, TVector3.smul_X, TVector3.smul_Y, TVector3.smul_Z]
    ring
  have hb := segment_parameter_bounds (0.00001 : α)
    ((end1 - start1).Dot (end1 - start1) * (end2 - start2).Dot (end2 - start2) -
      (end1 - start1).Dot (end2 - start2) * (end1 - start1).Dot (end2 - start2))
    (((end1 - start1).Dot (end2 - start2) * (end2 - start2).Dot (start1 - start2) -
        (end2 - start2).Dot (end2 - start2) * (end1 - start1).Dot (start1 - start2)) /
      ((end1 - start1).Dot (end1 - start1) * (end2 - start2).Dot (end2 - start2) -
        (end1 - start1).Dot (end2 - start2) * (end1 - start1).Dot (end2 - start2)))
    (((end1 - start1).Dot (end1 - start1) * (end2 - start2).Dot (start1 - start2) -
        (end1 - start1).Dot (end2 - start2) * (end1 - start1).Dot (start1 - start2)) /
      ((end1 - start1).Dot (end1 - start1) * (end2 - start2).Dot (end2 - start2) -
        (end1 - start1).Dot (end2 - start2) * (end1 - start1).Dot (end2 - start2)))
    ((end2 - start2).Dot (start1 - start2)) ((end1 - start1).Dot (end2 - start2))
    ((end2 - start2).Dot (end2 - start2)) hsmall
  exact ⟨_, _, hb.1, hb.2, hvec _ _⟩

/-- Over the reals, a vanishing `LineSegmentDistance` means that the segment and the line
have a common point. -/
theorem LineSegmentDistance_eq_zero (start1 end1 start2 end2 : TVector3 ℝ)
    (h : LineSegmentDistance Real.sqrt start1 end1 start2 end2 = 0) :
    ∃ s t : ℝ, 0 ≤ s ∧ s ≤ 1 ∧
      start1 + TVector3.smul s (end1 - start1) = start2 + TVector3.smul t (end2 - start2) := by
  obtain ⟨sc, tc, h0, h1, hval⟩ := LineSegmentDistance_params Real.sqrt start1 end1 start2 end2
  rw [h] at hval
  refine ⟨sc, tc, h0, h1, ?_⟩
  have hz := TVector3.eq_zero_of_Mag2 _
    ((Real.sqrt_eq_zero (TVector3.Mag2_nonneg _)).mp hval.symm)
  have hx := congrArg TVector3.X hz
  have hy := congrArg TVector3.Y hz
  have hzz := congrArg TVector3.Z hz
  simp only [TVector3.sub_X, TVector3.sub_Y, TVector3.sub_Z] at hx hy hzz
  rw [TVector3.eq_iff]
  exact ⟨by linarith, by linarith, by linarith⟩

end SegmentLine

section Slab

variable {α : Type} [LinearOrderedField α]

/-- One slab of `CubeIntersection`: for a non-zero direction component `d` the pair
computed for the axis bounds exactly the line parameters whose coordinate lies between
`mn` and `mx`, and its two ends are parameters of points on the two planes. -/
theorem slab_axis (mn mx s d : α) (hd : d ≠ 0) (hbox : mn ≤ mx) :
    (∀ t : α,
      ((if 1 / d ≥ 0 then ((mn - s) * (1 / d), (mx - s) * (1 / d))
          else ((mx - s) * (1 / d), (mn - s) * (1 / d))).1 ≤ t ∧
        t ≤ (if 1 / d ≥ 0 then ((mn - s) * (1 / d), (mx - s) * (1 / d))
          else ((mx - s) * (1 / d), (mn - s) * (1 / d))).2) ↔
        (mn ≤ s + t * d ∧ s + t * d ≤ mx)) ∧
    (if 1 / d ≥ 0 then ((mn - s) * (1 / d), (mx - s) * (1 / d))
        else ((mx - s) * (1 / d), (mn - s) * (1 / d))).1 ≤
      (if 1 / d ≥ 0 then ((mn - s) * (1 / d), (mx - s) * (1 / d))
        else ((mx - s) * (1 / d), (mn - s) * (1 / d))).2 ∧
    (s + (if 1 / d ≥ 0 then ((mn - s) * (1 / d), (mx - s) * (1 / d))
        else ((mx - s) * (1 / d), (mn - s) * (1 / d))).1 * d = mn ∨
      s + (if 1 / d ≥ 0 then ((mn - s) * (1 / d), (mx - s) * (1 / d))
        else ((mx - s) * (1 / d), (mn - s) * (1 / d))).1 * d = mx) ∧
    (s + (if 1 / d ≥ 0 then ((mn - s) * (1 / d), (mx - s) * (1 / d))
        else ((mx - s) * (1 / d), (mn - s) * (1 / d))).2 * d = mn ∨
      s + (if 1 / d ≥ 0 then ((mn - s) * (1 / d), (mx - s) * (1 / d))
        else ((mx - s) * (1 / d), (mn - s) * (1 / d))).2 * d = mx) := by
  have hface : ∀ m : α, s + (m - s) * (1 / d) * d = m := by
    intro m
    field_simp
  rcases lt_or_gt_of_ne hd with hneg | hpos
  · have hinv : ¬ (1 / d ≥ 0) := by
      rw [ge_iff_le, not_le]
      exact one_div_neg.mpr hneg
    simp only [if_neg hinv]
    have key : ∀ t : α, ((mx - s) * (1 / d) ≤ t ∧ t ≤ (mn - s) * (1 / d)) ↔
        (mn ≤ s + t * d ∧ s + t * d ≤ mx) := by
      intro t
      rw [mul_one_div, mul_one_div, div_le_iff_of_neg hneg, le_div_iff_of_neg hneg]
      constructor
      · rintro ⟨h1, h2⟩
        exact ⟨by linarith, by linarith⟩
      · rintro ⟨h1, h2⟩
        exact ⟨by linarith, by linarith⟩
    refine ⟨key, ?_, Or.inr (hface mx), Or.inl (hface mn)⟩
    rw [mul_one_div, mul_one_div]
    exact div_le_div_of_nonpos_of_le (le_of_lt hneg) (by linarith)
  · have hinv : 1 / d ≥ 0 := le_of_lt (one_div_pos.mpr hpos)
    simp only [if_pos hinv]
    have key : ∀ t : α, ((mn - s) * (1 / d) ≤ t ∧ t ≤ (mx - s) * (1 / d)) ↔
        (mn ≤ s + t * d ∧ s + t * d ≤ mx) := by
      intro t
      rw [mul_one_div, mul_one_div, div_le_iff₀ hpos, le_div_iff₀ hpos]
      constructor
      · rintro ⟨h1, h2⟩
        exact ⟨by linarith, by linarith⟩
      · rintro ⟨h1, h2⟩
        exact ⟨by linarith, by linarith⟩
    refine ⟨key, ?_, Or.inl (hface mn), Or.inr (hface mx)⟩
    rw [mul_one_div, mul_one_div]
    exact div_le_div_of_nonneg_right (by linarith) (le_of_lt hpos)

/-- The two tests and four updates of `CubeIntersection` on three non-empty parameter
intervals: the answer is the sentinel unless the largest lower end is at most the smallest
upper end, and otherwise it is built from these two parameters. -/
theorem slab_combine {β : Type} (lox hix loy hiy loz hiz : α) (S : β) (f : α → α → β)
    (hx : lox ≤ hix) (hy : loy ≤ hiy) (hz : loz ≤ hiz) :
    (if lox > hiy ∨ loy > hix then S
      else
        if (if loy > lox then loy else lox) > hiz ∨
            loz > (if hiy < hix then hiy else hix) then S
        else f (if loz > (if loy > lox then loy else lox) then loz
              else (if loy > lox then loy else lox))
            (if hiz < (if hiy < hix then hiy else hix) then hiz
              else (if hiy < hix then hiy else hix))) =
      if max (max lox loy) loz ≤ min (min hix hiy) hiz then
        f (max (max lox loy) loz) (min (min hix hiy) hiz)
      else S := by
  have hmax2 : (if loy > lox then loy else lox) = max lox loy := by
    split_ifs with h
    · exact (max_eq_right (le_of_lt h)).symm
    · exact (max_eq_left (not_lt.mp h)).symm
  have hmin2 : (if hiy < hix then hiy else hix) = min hix hiy := by
    split_ifs with h
    · exact (min_eq_right (le_of_lt h)).symm
    · exact (min_eq_left (not_lt.mp h)).symm
  rw [hmax2, hmin2]
  have hmax3 : (if loz > max lox loy then loz else max lox loy) = max (max lox loy) loz := by
    split_ifs with h
    · exact (max_eq_right (le_of_lt h)).symm
    · exact (max_eq_left (not_lt.mp h)).symm
  have hmin3 : (if hiz < min hix hiy then hiz else min hix hiy) = min (min hix hiy) hiz := by
    split_ifs with h
    · exact (min_eq_right (le_of_lt h)).symm
    · exact (min_eq_left (not_lt.mp h)).symm
  rw [hmax3, hmin3]
  by_cases h1 : lox > hiy ∨ loy > hix
  · rw [if_pos h1, if_neg]
    rw [not_le]
    rcases h1 with h | h
    · exact lt_of_le_of_lt (min_le_of_left_le (min_le_right _ _))
        (lt_of_lt_of_le h (le_max_of_le_left (le_max_left _ _)))
    · exact lt_of_le_of_lt (min_le_of_left_le (min_le_left _ _))
        (lt_of_lt_of_le h (le_max_of_le_left (le_max_right _ _)))
  · rw [if_neg h1]
    push_neg at h1
    have h12 : max lox loy ≤ min hix hiy :=
      max_le (le_min hx h1.1) (le_min h1.2 hy)
    by_cases h2 : max lox loy > hiz ∨ loz > min hix hiy
    · rw [if_pos h2, if_neg]
      rw [not_le]
      rcases h2 with h | h
      · exact lt_of_le_of_lt (min_le_right _ _) (lt_of_lt_of_le h (le_max_left _ _))
      · exact lt_of_le_of_lt (min_le_left _ _) (lt_of_lt_of_le h (le_max_right _ _))
    · rw [if_neg h2, if_pos]
      push_neg at h2
      exact max_le (le_min h12 h2.1) (le_min h2.2 hz)

end Slab

section Slab2

variable {α : Type} [LinearOrderedField α]

/-- A property of three numbers holds of their maximum. -/
theorem pred_max3 (a b c : α) (P : α → Prop) (ha : P a) (hb : P b) (hc : P c) :
    P (Max.max (Max.max a b) c) := by
  rcases max_choice (Max.max a b) c with h | h
  · rw [h]
    rcases max_choice a b with h2 | h2
    · rw [h2]; exact ha
    · rw [h2]; exact hb
  · rw [h]; exact hc

/-- A property of three numbers holds of their minimum. -/
theorem pred_min3 (a b c : α) (P : α → Prop) (ha : P a) (hb : P b) (hc : P c) :
    P (Min.min (Min.min a b) c) := by
  rcases min_choice (Min.min a b) c with h | h
  · rw [h]
    rcases min_choice a b with h2 | h2
    · rw [h2]; exact ha
    · rw [h2]; exact hb
  · rw [h]; exact hc

/-- Slab method of `CubeIntersection` for a box with `min ≤ max` and a direction without
zero component: there are parameters `tmin`, `tmax` that bound exactly the line parameters
of the points in the box; the answer is the two points of these parameters when
`tmin ≤ tmax` and the sentinel pair otherwise. -/
theorem CubeIntersection_slab (min max start end_ : TVector3 α)
    (hdX : (end_ - start).X ≠ 0) (hdY : (end_ - start).Y ≠ 0) (hdZ : (end_ - start).Z ≠ 0)
    (hbX : min.X ≤ max.X) (hbY : min.Y ≤ max.Y) (hbZ : min.Z ≤ max.Z) :
    ∃ tmin tmax : α,
      (∀ t : α, (tmin ≤ t ∧ t ≤ tmax) ↔
        inBox min max (start + TVector3.smul t (end_ - start))) ∧
      CubeIntersection min max start end_ =
        (if tmin ≤ tmax then
          (start + TVector3.smul tmin (end_ - start), start + TVector3.smul tmax (end_ - start))
        else (⟨-99999, -99999, -99999⟩, ⟨-99999, -99999, -99999⟩)) ∧
      onFacePlane min max (start + TVector3.smul tmin (end_ - start)) ∧
      onFacePlane min max (start + TVector3.smul tmax (end_ - start)) := by
  obtain ⟨kx, hx, fx1, fx2⟩ := slab_axis min.X max.X start.X (end_ - start).X hdX hbX
  obtain ⟨ky, hy, fy1, fy2⟩ := slab_axis min.Y max.Y start.Y (end_ - start).Y hdY hbY
  obtain ⟨kz, hz, fz1, fz2⟩ := slab_axis min.Z max.Z start.Z (end_ - start).Z hdZ hbZ
  have hcomb := slab_combine _ _ _ _ _ _
    ((⟨-99999, -99999, -99999⟩, ⟨-99999, -99999, -99999⟩) : TVector3 α × TVector3 α)
    (fun tmin tmax : α =>
      (start + TVector3.smul tmin (end_ - start), start + TVector3.smul tmax (end_ - start)))
    hx hy hz
  refine ⟨_, _, ?_, (show CubeIntersection min max start end_ = _ from hcomb), ?_, ?_⟩
  · intro t
    rw [max_le_iff, max_le_iff, le_min_iff, le_min_iff]
    unfold inBox
    simp only [TVector3.add_X, TVector3.add_Y, TVector3.add_Z, TVector3.smul_X,
      TVector3.smul_Y, TVector3.smul_Z]
    have h1 := kx t
    have h2 := ky t
    have h3 := kz t
    constructor
    · rintro ⟨⟨⟨a1, a2⟩, a3⟩, ⟨b1, b2⟩, b3⟩
      have c1 := h1.mp ⟨a1, b1⟩
      have c2 := h2.mp ⟨a2, b2⟩
      have c3 := h3.mp ⟨a3, b3⟩
      exact ⟨c1.1, c1.2, c2.1, c2.2, c3.1, c3.2⟩
    · rintro ⟨a1, a2, a3, a4, a5, a6⟩
      have c1 := h1.mpr ⟨a1, a2⟩
      have c2 := h2.mpr ⟨a3, a4⟩
      have c3 := h3.mpr ⟨a5, a6⟩
      exact ⟨⟨⟨c1.1, c2.1⟩, c3.1⟩, ⟨c1.2, c2.2⟩, c3.2⟩
  · refine pred_max3 _ _ _
      (fun t => onFacePlane min max (start + TVector3.smul t (end_ - start))) ?_ ?_ ?_
    · rcases fx1 with f | f
      · exact Or.inl f
      · exact Or.inr (Or.inl f)
    · rcases fy1 with f | f
      · exact Or.inr (Or.inr (Or.inl f))
      · exact Or.inr (Or.inr (Or.inr (Or.inl f)))
    · rcases fz1 with f | f
      · exact Or.inr (Or.inr (Or.inr (Or.inr (Or.inl f))))
      · exact Or.inr (Or.inr (Or.inr (Or.inr (Or.inr f))))
  · refine pred_min3 _ _ _
      (fun t => onFacePlane min max (start + TVector3.smul t (end_ - start))) ?_ ?_ ?_
    · rcases fx2 with f | f
      · exact Or.inl f
      · exact Or.inr (Or.inl f)
    · rcases fy2 with f | f
      · exact Or.inr (Or.inr (Or.inl f))
      · exact Or.inr (Or.inr (Or.inr (Or.inl f)))
    · rcases fz2 with f | f
      · exact Or.inr (Or.inr (Or.inr (Or.inr (Or.inl f))))
      · exact Or.inr (Or.inr (Or.inr (Or.inr (Or.inr f))))

end Slab2

section BoxDistance

variable {α : Type} [LinearOrderedField α]

/-- The first test of `DistToCrtHit`: the answer is `0` when the entry point answered by
`CubeIntersection` for the box of the hit has an x coordinate other than `-99999`. -/
theorem DistToCrtHit_inside (sqrt : α → α) (hit : CRTHit α) (start end_ : TVector3 α)
    (h : (CubeIntersection
        ⟨hit.x_pos - hit.x_err, hit.y_pos - hit.y_err, hit.z_pos - hit.z_err⟩
        ⟨hit.x_pos + hit.x_err, hit.y_pos + hit.y_err, hit.z_pos + hit.z_err⟩
        start end_).1.X ≠ -99999) :
    DistToCrtHit sqrt hit start end_ = 0 := by
  unfold DistToCrtHit
  simp only []
  rw [if_pos h]

/-- When the entry point has x coordinate `-99999` and neither the y nor the z uncertainty is
strictly the smallest, `DistToCrtHit` answers the smallest `LineSegmentDistance` to the four
edges of the rectangle with x fixed at `x_pos`. -/
theorem DistToCrtHit_x_face (sqrt : α → α) (hit : CRTHit α) (start end_ : TVector3 α)
    (hmiss : (CubeIntersection
        ⟨hit.x_pos - hit.x_err, hit.y_pos - hit.y_err, hit.z_pos - hit.z_err⟩
        ⟨hit.x_pos + hit.x_err, hit.y_pos + hit.y_err, hit.z_pos + hit.z_err⟩
        start end_).1.X = -99999)
    (hy : ¬ (hit.y_err < hit.x_err ∧ hit.y_err < hit.z_err))
    (hz : ¬ (hit.z_err < hit.x_err ∧ hit.z_err < hit.y_err)) :
    DistToCrtHit sqrt hit start end_ =
      Min.min
        (Min.min
          (LineSegmentDistance sqrt ⟨hit.x_pos, hit.y_pos - hit.y_err, hit.z_pos - hit.z_err⟩
            ⟨hit.x_pos, hit.y_pos + hit.y_err, hit.z_pos - hit.z_err⟩ start end_)
          (LineSegmentDistance sqrt ⟨hit.x_pos, hit.y_pos - hit.y_err, hit.z_pos - hit.z_err⟩
            ⟨hit.x_pos, hit.y_pos - hit.y_err, hit.z_pos + hit.z_err⟩ start end_))
        (Min.min
          (LineSegmentDistance sqrt ⟨hit.x_pos, hit.y_pos + hit.y_err, hit.z_pos + hit.z_err⟩
            ⟨hit.x_pos, hit.y_pos + hit.y_err, hit.z_pos - hit.z_err⟩ start end_)
          (LineSegmentDistance sqrt ⟨hit.x_pos, hit.y_pos + hit.y_err, hit.z_pos + hit.z_err⟩
            ⟨hit.x_pos, hit.y_pos - hit.y_err, hit.z_pos + hit.z_err⟩ start end_)) := by
  unfold DistToCrtHit
  simp only [hmiss, ne_eq, not_true_eq_false, if_false, if_neg hy, if_neg hz]

/-- A minimum of four numbers that is zero is one of them. -/
theorem min4_eq_zero (a b c d : α) (h : Min.min (Min.min a b) (Min.min c d) = 0) :
    a = 0 ∨ b = 0 ∨ c = 0 ∨ d = 0 := by
  rcases min_choice (Min.min a b) (Min.min c d) with h1 | h1
  · rcases min_choice a b with h2 | h2
    · exact Or.inl (by rw [← h, h1, h2])
    · exact Or.inr (Or.inl (by rw [← h, h1, h2]))
  · rcases min_choice c d with h2 | h2
    · exact Or.inr (Or.inr (Or.inl (by rw [← h, h1, h2])))
    · exact Or.inr (Or.inr (Or.inr (by rw [← h, h1, h2])))

end BoxDistance

section Directions

variable {α : Type} [LinearOrderedField α]

theorem vecSum_nil : vecSum ([] : List (TVector3 α)) = ⟨0, 0, 0⟩ := rfl

theorem vecSum_cons (d : TVector3 α) (l : List (TVector3 α)) :
    vecSum (d :: l) = d + vecSum l := rfl

theorem vecSum_append_singleton (l : List (TVector3 α)) (d : TVector3 α) :
    vecSum (l ++ [d]) = vecSum l + d := by
  rw [TVector3.eq_iff]
  simp [vecSum]

/-- The summation loop of `TrackDirectionAverage` completes when it runs over at most as
many iterations as there are valid points, and its totals are the sums over the first and
over the last `k` valid directions. -/
theorem directionTotals_eq (vd : List (TVector3 α)) :
    ∀ k, k ≤ vd.length →
      directionTotals vd k = some (vecSum (vd.take k), vecSum (vd.drop (vd.length - k))) := by
  intro k
  induction k with
  | zero =>
    intro _
    simp [directionTotals, vecSum]
  | succ k ih =>
    intro hk
    have hk1 : k < vd.length := hk
    have hk2 : vd.length - (k + 1) < vd.length := by omega
    rw [directionTotals, ih (by omega)]
    simp only [List.getElem?_eq_getElem hk1, if_pos hk, List.getElem?_eq_getElem hk2]
    have ht : vd.take (k + 1) = vd.take k ++ [vd[k]] := by
      rw [List.take_succ, List.getElem?_eq_getElem hk1]
      rfl
    have hd : vd.drop (vd.length - (k + 1)) =
        vd[vd.length - (k + 1)] :: vd.drop (vd.length - k) := by
      rw [List.drop_eq_getElem_cons hk2]
      congr 2
      omega
    rw [ht, hd, vecSum_append_singleton, vecSum_cons]
    congr 2
    rw [TVector3.eq_iff]
    simp only [TVector3.add_X, TVector3.add_Y, TVector3.add_Z]
    exact ⟨add_comm _ _, add_comm _ _, add_comm _ _⟩

/-- A sum of `m` equal vectors. -/
theorem vecSum_const (u : TVector3 α) (l : List (TVector3 α)) (h : ∀ d ∈ l, d = u) :
    vecSum l = TVector3.smul (l.length : α) u := by
  induction l with
  | nil =>
    rw [TVector3.eq_iff]
    simp [vecSum]
  | cons d l ih =>
    rw [vecSum_cons, ih (fun e he => h e (List.mem_cons_of_mem _ he)),
      h d (List.mem_cons_self _ _), TVector3.eq_iff]
    simp only [TVector3.add_X, TVector3.add_Y, TVector3.add_Z, TVector3.smul_X,
      TVector3.smul_Y, TVector3.smul_Z, List.length_cons, Nat.cast_add, Nat.cast_one]
    refine ⟨by ring, by ring, by ring⟩

/-- Cauchy-Schwarz for three components. -/
theorem Dot_sq_le (a b : TVector3 α) : a.Dot b * a.Dot b ≤ a.Mag2 * b.Mag2 := by
  simp only [TVector3.Dot, TVector3.Mag2]
  nlinarith [mul_self_nonneg (a.X * b.Y - a.Y * b.X), mul_self_nonneg (a.X * b.Z - a.Z * b.X),
    mul_self_nonneg (a.Y * b.Z - a.Z * b.Y)]

/-- A sum of `m` unit vectors has squared norm at most `m * m`. -/
theorem vecSum_Mag2_le (l : List (TVector3 α)) (h : ∀ d ∈ l, d.Mag2 = 1) :
    (vecSum l).Mag2 ≤ (l.length : α) * (l.length : α) := by
  induction l with
  | nil => simp [vecSum, TVector3.Mag2]
  | cons d l ih =>
    have hS := ih (fun e he => h e (List.mem_cons_of_mem _ he))
    have hd := h d (List.mem_cons_self _ _)
    have hm : (0 : α) ≤ (l.length : α) := Nat.cast_nonneg _
    have hcs := Dot_sq_le d (vecSum l)
    rw [hd, one_mul] at hcs
    have hdot : d.Dot (vecSum l) ≤ (l.length : α) := by
      by_contra hlt
      push_neg at hlt
      have := mul_self_lt_mul_self hm hlt
      linarith
    have hexp : (d + vecSum l).Mag2 = d.Mag2 + 2 * d.Dot (vecSum l) + (vecSum l).Mag2 := by
      simp only [TVector3.Mag2, TVector3.Dot, TVector3.add_X, TVector3.add_Y, TVector3.add_Z]
      ring
    rw [vecSum_cons, hexp, hd, List.length_cons, Nat.cast_add, Nat.cast_one]
    nlinarith

theorem Mag2_smul (c : α) (v : TVector3 α) : (TVector3.smul c v).Mag2 = c * c * v.Mag2 := by
  simp only [TVector3.Mag2, TVector3.smul_X, TVector3.smul_Y, TVector3.smul_Z]
  ring

/-- The average of `k ≥ 1` unit vectors has squared norm at most 1. -/
theorem average_Mag2_le (c : α) (l : List (TVector3 α)) (h : ∀ d ∈ l, d.Mag2 = 1)
    (hl : 0 < l.length) (hc : c * c = 1 / (l.length : α) * (1 / (l.length : α))) :
    (TVector3.smul c (vecSum l)).Mag2 ≤ 1 := by
  have hpos : (0 : α) < (l.length : α) := Nat.cast_pos.mpr hl
  have hcc : (0 : α) ≤ c * c := mul_self_nonneg c
  calc (TVector3.smul c (vecSum l)).Mag2 = c * c * (vecSum l).Mag2 := Mag2_smul c _
    _ ≤ c * c * ((l.length : α) * (l.length : α)) :=
      mul_le_mul_of_nonneg_left (vecSum_Mag2_le l h) hcc
    _ = 1 := by rw [hc]; field_simp

/-- The step `if (norm>0) dir *= (1.0/norm)` of `TrackDirection`, over the reals: a vector
other than zero is divided by its norm and gets norm 1, the zero vector is kept. -/
theorem unit_or_zero (v : TVector3 ℝ) :
    (v ≠ ⟨0, 0, 0⟩ →
      (if v.Mag Real.sqrt > 0 then TVector3.smul (1 / v.Mag Real.sqrt) v else v) =
        TVector3.smul (1 / v.Mag Real.sqrt) v ∧
      (if v.Mag Real.sqrt > 0 then TVector3.smul (1 / v.Mag Real.sqrt) v else v).Mag
        Real.sqrt = 1) ∧
    (v = ⟨0, 0, 0⟩ →
      (if v.Mag Real.sqrt > 0 then TVector3.smul (1 / v.Mag Real.sqrt) v else v) =
        ⟨0, 0, 0⟩) := by
  constructor
  · intro hv
    have h2 : 0 < v.Mag2 := TVector3.Mag2_pos v hv
    have hpos : v.Mag Real.sqrt > 0 := Real.sqrt_pos.mpr h2
    rw [if_pos hpos]
    refine ⟨rfl, ?_⟩
    have hsq : v.Mag Real.sqrt * v.Mag Real.sqrt = v.Mag2 := Real.mul_self_sqrt h2.le
    have hne : v.Mag Real.sqrt ≠ 0 := hpos.ne.symm
    have hone : (TVector3.smul (1 / v.Mag Real.sqrt) v).Mag2 = 1 := by
      rw [Mag2_smul, ← hsq]
      field_simp
    show Real.sqrt (TVector3.smul (1 / v.Mag Real.sqrt) v).Mag2 = 1
    rw [hone, Real.sqrt_one]
  · intro hv
    have h0 : ¬ v.Mag Real.sqrt > 0 := by
      rw [hv]
      simp [TVector3.Mag, TVector3.Mag2]
    rw [if_neg h0, hv]

end Directions

section DirectionAverage

variable {α : Type} [LinearOrderedField α] [FloorRing α]

/-- For a fraction of at most 1 the number of averaged points is at most the number of
valid points. -/
theorem endPoint_le (n : ℕ) (frac : α) (h1 : frac ≤ 1) :
    (⌊(n : α) * frac⌋).toNat ≤ n := by
  rw [Int.toNat_le]
  have hle : (n : α) * frac ≤ ((n : ℤ) : α) := by
    rw [Int.cast_natCast]
    exact mul_le_of_le_one_right (Nat.cast_nonneg _) h1
  have hfl : ((⌊(n : α) * frac⌋ : ℤ) : α) ≤ ((n : ℤ) : α) := (Int.floor_le _).trans hle
  exact Int.cast_le.mp hfl

/-- Value of `TrackDirectionAverage` when the number `k` of averaged points is at most the
number of valid points. -/
theorem TrackDirectionAverage_of_floor (track : Track α) (frac : α) (k : ℕ)
    (hk : ⌊((validDirections track).length : α) * frac⌋ = (k : ℤ))
    (hn : k ≤ (validDirections track).length) :
    TrackDirectionAverage track frac =
      some (TVector3.smul (-(1 / (k : α))) (vecSum ((validDirections track).take k)),
        TVector3.smul (1 / (k : α))
          (vecSum ((validDirections track).drop ((validDirections track).length - k)))) := by
  unfold TrackDirectionAverage
  simp only [hk, Int.toNat_ofNat, directionTotals_eq _ k hn, Int.cast_natCast]
  congr 2
  · rw [TVector3.eq_iff]
    simp only [TVector3.smul_X, TVector3.smul_Y, TVector3.smul_Z]
    refine ⟨by ring, by ring, by ring⟩
  · rw [TVector3.eq_iff]
    simp only [TVector3.smul_X, TVector3.smul_Y, TVector3.smul_Z]
    refine ⟨by ring, by ring, by ring⟩

end DirectionAverage

/-! ## Special values in `CubeIntersection` -/

section SpecialValueLemmas

variable {α : Type} [LinearOrderedField α]

/-- For a direction without zero component no special value arises: the evaluation with
the special values of IEEE-754 answers the pair of `CubeIntersection`. -/
theorem CubeIntersectionIEEE_eq (min max start end_ : TVector3 α)
    (hdX : (end_ - start).X ≠ 0) (hdY : (end_ - start).Y ≠ 0) (hdZ : (end_ - start).Z ≠ 0) :
    CubeIntersectionIEEE min max start end_ =
      ((CubeIntersection min max start end_).1.toDouble,
        (CubeIntersection min max start end_).2.toDouble) := by
  have hx : Double.recip (end_ - start).X = Double.fin (1 / (end_ - start).X) := if_neg hdX
  have hy : Double.recip (end_ - start).Y = Double.fin (1 / (end_ - start).Y) := if_neg hdY
  have hz : Double.recip (end_ - start).Z = Double.fin (1 / (end_ - start).Z) := if_neg hdZ
  have hpair : ∀ (C : Prop) [Decidable C] (a b : TVector3 α × TVector3 α),
      ((if C then a else b).1.toDouble, (if C then a else b).2.toDouble) =
        if C then (a.1.toDouble, a.2.toDouble) else (b.1.toDouble, b.2.toDouble) := by
    intro C _ a b
    split_ifs <;> rfl
  simp only [CubeIntersection]
  rw [hpair, hpair]
  simp only [CubeIntersectionIEEE, hx, hy, hz, apply_ite Prod.fst, apply_ite Prod.snd,
    Double.ge, Double.mul, decide_eq_true_eq, ← apply_ite Double.fin, Double.gt, Double.lt,
    Double.add, TVector3.toDouble]

end SpecialValueLemmas

/-! ## Agreement of the two evaluations where the code divides by no zero -/

section SpecialValueAgreement

variable {α : Type} [LinearOrderedField α]

/-- The difference of two numbers as `double` values is their difference. -/
theorem Double.sub_fin (a b : α) : (Double.fin a).sub (Double.fin b) = Double.fin (a - b) := by
  simp only [Double.sub, Double.neg, Double.add, sub_eq_add_neg]

/-- The quotient `1 / x` of `double` values is the reciprocal of the number `x`. -/
theorem Double.one_div_fin (x : α) : (Double.fin 1).div (Double.fin x) = Double.recip x := by
  simp only [Double.div, Double.recip, zero_lt_one, if_true]

/-- On numbers `CubeIntersectionOfDoubles` is `CubeIntersectionIEEE`. -/
theorem CubeIntersectionOfDoubles_toDouble (min max start end_ : TVector3 α) :
    CubeIntersectionOfDoubles min.toDouble max.toDouble start.toDouble end_.toDouble =
      CubeIntersectionIEEE min max start end_ := by
  simp only [CubeIntersectionOfDoubles, CubeIntersectionIEEE, TVector3.toDouble,
    TVector3.subIEEE, Double.sub_fin, Double.one_div_fin, TVector3.sub_X, TVector3.sub_Y,
    TVector3.sub_Z]

/-- For a direction whose norm is not zero no special value arises in `SimpleDCA`: the
evaluation with the special values of IEEE-754 answers the number of `SimpleDCA`. -/
theorem SimpleDCAIEEE_eq (sqrt : α → α) (hit : CRTHit α) (start direction : TVector3 α)
    (hdir : direction.Mag sqrt ≠ 0) :
    SimpleDCAIEEE sqrt hit start.toDouble direction.toDouble =
      Double.fin (SimpleDCA sqrt hit start direction) := by
  have hm : ∀ v : TVector3 α, v.toDouble.MagIEEE sqrt = Double.fin (v.Mag sqrt) := by
    intro v
    simp only [TVector3.MagIEEE, TVector3.Mag2IEEE, TVector3.toDouble, Double.mul, Double.add,
      Double.sqrt, TVector3.Mag]
    exact if_neg (not_lt.mpr (TVector3.Mag2_nonneg v))
  have hs : ∀ a b : TVector3 α, a.toDouble.subIEEE b.toDouble = (a - b).toDouble := by
    intro a b
    simp only [TVector3.subIEEE, TVector3.toDouble, Double.sub_fin, TVector3.sub_X,
      TVector3.sub_Y, TVector3.sub_Z]
  have ha : ∀ a b : TVector3 α, a.toDouble.addIEEE b.toDouble = (a + b).toDouble := by
    intro a b
    simp only [TVector3.addIEEE, TVector3.toDouble, Double.add, TVector3.add_X,
      TVector3.add_Y, TVector3.add_Z]
  have hc : ∀ a b : TVector3 α, a.toDouble.CrossIEEE b.toDouble = (a.Cross b).toDouble := by
    intro a b
    simp only [TVector3.CrossIEEE, TVector3.toDouble, Double.mul, Double.sub_fin,
      TVector3.Cross]
  have hp : (⟨Double.fin hit.x_pos, Double.fin hit.y_pos, Double.fin hit.z_pos⟩ :
      TVector3 (Double α)) = (⟨hit.x_pos, hit.y_pos, hit.z_pos⟩ : TVector3 α).toDouble := rfl
  simp only [SimpleDCAIEEE, SimpleDCA]
  rw [hp, ha, hs, hs, hc, hm, hm]
  simp only [Double.div]
  exact if_neg hdir

/-- The sum of two numbers as `double` values is their sum. -/
theorem Double.add_fin (a b : α) : (Double.fin a).add (Double.fin b) = Double.fin (a + b) := rfl

/-- The product of two numbers as `double` values is their product. -/
theorem Double.mul_fin (a b : α) : (Double.fin a).mul (Double.fin b) = Double.fin (a * b) := rfl

/-- The comparison `<` of two numbers as `double` values is their comparison. -/
theorem Double.lt_fin (a b : α) : (Double.fin a).lt (Double.fin b) = decide (a < b) := rfl

/-- The comparison `>` of two numbers as `double` values is their comparison. -/
theorem Double.gt_fin (a b : α) : (Double.fin a).gt (Double.fin b) = decide (a > b) := rfl

/-- The absolute value of a number as a `double` value is its absolute value. -/
theorem Double.fabs_fin (a : α) : (Double.fin a).fabs = Double.fin |a| := rfl

/-- The quotient of two numbers as `double` values, the divisor not being zero, is their
quotient. -/
theorem Double.div_fin (a b : α) (hb : b ≠ 0) :
    (Double.fin a).div (Double.fin b) = Double.fin (a / b) := by
  simp only [Double.div, if_neg hb]

/-- The difference of two vectors of numbers, computed on `double` values. -/
theorem TVector3.subIEEE_toDouble (a b : TVector3 α) :
    a.toDouble.subIEEE b.toDouble = (a - b).toDouble := by
  simp only [TVector3.subIEEE, TVector3.toDouble, Double.sub_fin, TVector3.sub_X,
    TVector3.sub_Y, TVector3.sub_Z]

/-- The sum of two vectors of numbers, computed on `double` values. -/
theorem TVector3.addIEEE_toDouble (a b : TVector3 α) :
    a.toDouble.addIEEE b.toDouble = (a + b).toDouble := by
  simp only [TVector3.addIEEE, TVector3.toDouble, Double.add, TVector3.add_X,
    TVector3.add_Y, TVector3.add_Z]

/-- The scaling of a vector of numbers by a number, computed on `double` values. -/
theorem TVector3.smulIEEE_toDouble (k : α) (a : TVector3 α) :
    TVector3.smulIEEE (Double.fin k) a.toDouble = (TVector3.smul k a).toDouble := by
  simp only [TVector3.smulIEEE, TVector3.toDouble, Double.mul, TVector3.smul]

/-- The scalar product of two vectors of numbers, computed on `double` values. -/
theorem TVector3.DotIEEE_toDouble (a b : TVector3 α) :
    a.toDouble.DotIEEE b.toDouble = Double.fin (a.Dot b) := by
  simp only [TVector3.DotIEEE, TVector3.toDouble, Double.mul, Double.add, TVector3.Dot]

/-- The magnitude of a vector of numbers, computed on `double` values. -/
theorem TVector3.MagIEEE_toDouble (sqrt : α → α) (a : TVector3 α) :
    a.toDouble.MagIEEE sqrt = Double.fin (a.Mag sqrt) := by
  simp only [TVector3.MagIEEE, TVector3.Mag2IEEE, TVector3.toDouble, Double.mul, Double.add,
    Double.sqrt, TVector3.Mag]
  exact if_neg (not_lt.mpr (TVector3.Mag2_nonneg a))

/-- For a line whose direction is not the zero vector no special value arises in
`LineSegmentDistance`: every divisor is `1`, `D ≥ 0.00001` or the squared length of the
direction. -/
theorem LineSegmentDistanceIEEE_eq (sqrt : α → α) (start1 end1 start2 end2 : TVector3 α)
    (hv : (end2 - start2).Dot (end2 - start2) ≠ 0) :
    LineSegmentDistanceIEEE sqrt start1.toDouble end1.toDouble start2.toDouble end2.toDouble =
      Double.fin (LineSegmentDistance sqrt start1 end1 start2 end2) := by
  simp only [LineSegmentDistanceIEEE, LineSegmentDistance, TVector3.subIEEE_toDouble,
    TVector3.DotIEEE_toDouble, Double.mul_fin, Double.sub_fin, Double.lt_fin,
    decide_eq_true_eq]
  generalize (end1 - start1).Dot (end1 - start1) = a at *
  generalize (end1 - start1).Dot (end2 - start2) = b at *
  generalize (end2 - start2).Dot (end2 - start2) = c at *
  generalize (end1 - start1).Dot (start1 - start2) = d at *
  generalize (end2 - start2).Dot (start1 - start2) = e at *
  have hfin : ∀ (sN sD tN tD : α), sD ≠ 0 → tD ≠ 0 →
      TVector3.MagIEEE sqrt
        (((start1 - start2).toDouble.addIEEE
          (TVector3.smulIEEE
            (if (Double.fin sN).fabs.lt (Double.fin 1e-5) = true then Double.fin 0
              else (Double.fin sN).div (Double.fin sD))
            (end1 - start1).toDouble)).subIEEE
          (TVector3.smulIEEE
            (if (Double.fin tN).fabs.lt (Double.fin 1e-5) = true then Double.fin 0
              else (Double.fin tN).div (Double.fin tD))
            (end2 - start2).toDouble)) =
      Double.fin (TVector3.Mag sqrt
        (start1 - start2 + TVector3.smul (if |sN| < 1e-5 then 0 else sN / sD) (end1 - start1) -
          TVector3.smul (if |tN| < 1e-5 then 0 else tN / tD) (end2 - start2))) := by
    intro sN sD tN tD hs ht
    simp only [Double.fabs_fin, Double.lt_fin, decide_eq_true_eq, Double.div_fin _ _ hs,
      Double.div_fin _ _ ht, ← apply_ite Double.fin, TVector3.smulIEEE_toDouble,
      TVector3.addIEEE_toDouble, TVector3.subIEEE_toDouble, TVector3.MagIEEE_toDouble]
  by_cases hD : a * c - b * b < 1e-5
  · simp only [if_pos hD]
    exact hfin 0 1 e c one_ne_zero hv
  · have hD0 : a * c - b * b ≠ 0 := by
      intro h0
      apply hD
      rw [h0]
      norm_num
    simp only [if_neg hD, Double.div_fin _ _ hD0, Double.lt_fin, Double.gt_fin,
      decide_eq_true_eq, Double.add_fin]
    by_cases h1 : (b * e - c * d) / (a * c - b * b) < 0
    · simp only [if_pos h1]
      exact hfin 0 _ e c hD0 hv
    · simp only [if_neg h1]
      by_cases h2 : (b * e - c * d) / (a * c - b * b) > a * c - b * b
      · simp only [if_pos h2]
        exact hfin _ _ (e + b) c hD0 hv
      · simp only [if_neg h2]
        exact hfin _ _ _ _ hD0 hD0

/-- The value `std::min` of two numbers as `double` values is their minimum. -/
theorem Double.stdMin_fin (a b : α) :
    Double.stdMin (Double.fin a) (Double.fin b) = Double.fin (Min.min a b) := by
  simp only [Double.stdMin, Double.lt_fin, decide_eq_true_eq]
  by_cases h : b < a
  · rw [if_pos h, min_eq_right (le_of_lt h)]
  · rw [if_neg h, min_eq_left (not_lt.mp h)]

/-- The comparison `!=` of two numbers as `double` values is their difference. -/
theorem Double.ne_fin (a b : α) : (Double.fin a).ne (Double.fin b) = true ↔ a ≠ b := by
  simp [Double.ne, Double.eq]

/-- A vector with a non-zero x component has a non-zero squared magnitude. -/
theorem TVector3.Dot_self_ne_zero (v : TVector3 α) (h : v.X ≠ 0) : v.Dot v ≠ 0 := by
  have h1 : 0 < v.X * v.X := mul_self_pos.mpr h
  have h2 := mul_self_nonneg v.Y
  have h3 := mul_self_nonneg v.Z
  unfold TVector3.Dot
  linarith

/-- For a line without zero direction component no special value arises in `DistToCrtHit`:
the evaluation with the special values of IEEE-754 answers the number of `DistToCrtHit`. -/
theorem DistToCrtHitIEEE_eq (sqrt : α → α) (hit : CRTHit α) (start end_ : TVector3 α)
    (hdX : (end_ - start).X ≠ 0) (hdY : (end_ - start).Y ≠ 0) (hdZ : (end_ - start).Z ≠ 0) :
    DistToCrtHitIEEE sqrt hit start.toDouble end_.toDouble =
      Double.fin (DistToCrtHit sqrt hit start end_) := by
  have hv := TVector3.Dot_self_ne_zero (end_ - start) hdX
  have hX : ∀ p : TVector3 α, p.toDouble.X = Double.fin p.X := fun _ => rfl
  simp only [DistToCrtHitIEEE, DistToCrtHit, CubeIntersectionOfDoubles_toDouble,
    CubeIntersectionIEEE_eq _ _ _ _ hdX hdY hdZ, hX, Double.ne_fin,
    LineSegmentDistanceIEEE_eq _ _ _ _ _ hv, Double.stdMin_fin, ← apply_ite Double.fin]

end SpecialValueAgreement

section SpecialValuePathAgreement

variable {α : Type} [LinearOrderedField α] [FloorRing α]

omit [FloorRing α] in
/-- No special value arises in `DistOfClosestApproach` for a direction without zero component
(box distance) or of non-zero norm (simple distance). -/
theorem DistOfClosestApproachIEEE_eq (sqrt : α → α) (alg : CRTT0MatchAlg α)
    (detProp : DetectorPropertiesData α) (trackPos trackDir : TVector3 α) (crtHit : CRTHit α)
    (driftDirection : ℤ) (t0 : α)
    (hbox : alg.fDCAuseBox = true → trackDir.X ≠ 0 ∧ trackDir.Y ≠ 0 ∧ trackDir.Z ≠ 0)
    (hsimple : alg.fDCAuseBox ≠ true → trackDir.Mag sqrt ≠ 0) :
    DistOfClosestApproachIEEE sqrt alg detProp trackPos trackDir.toDouble crtHit driftDirection
        t0 =
      Double.fin (DistOfClosestApproach sqrt alg detProp trackPos trackDir crtHit
        driftDirection t0) := by
  unfold DistOfClosestApproachIEEE DistOfClosestApproach
  simp only [TVector3.addIEEE_toDouble]
  by_cases hb : alg.fDCAuseBox = true
  · obtain ⟨hx, hy, hz⟩ := hbox hb
    rw [if_pos hb, if_pos hb]
    apply DistToCrtHitIEEE_eq
    · rw [TVector3.sub_X, TVector3.add_X]; simpa using hx
    · rw [TVector3.sub_Y, TVector3.add_Y]; simpa using hy
    · rw [TVector3.sub_Z, TVector3.add_Z]; simpa using hz
  · rw [if_neg hb, if_neg hb]
    exact SimpleDCAIEEE_eq sqrt crtHit _ trackDir (hsimple hb)

omit [FloorRing α] in
/-- For two such directions the hit appends the same candidate in both evaluations. -/
theorem newCandidatesIEEE_eq (sqrt : α → α) (alg : CRTT0MatchAlg α)
    (detProp : DetectorPropertiesData α) (tpcTrack : Track α) (driftDirection : ℤ)
    (crtHit : CRTHit α) (crtTime : α) (dirs : TVector3 α × TVector3 α)
    (hbox : alg.fDCAuseBox = true →
      (dirs.1.X ≠ 0 ∧ dirs.1.Y ≠ 0 ∧ dirs.1.Z ≠ 0) ∧
        (dirs.2.X ≠ 0 ∧ dirs.2.Y ≠ 0 ∧ dirs.2.Z ≠ 0))
    (hsimple : alg.fDCAuseBox ≠ true → dirs.1.Mag sqrt ≠ 0 ∧ dirs.2.Mag sqrt ≠ 0) :
    newCandidatesIEEE sqrt alg detProp tpcTrack driftDirection crtHit crtTime
        (dirs.1.toDouble, dirs.2.toDouble) =
      (newCandidates sqrt alg detProp tpcTrack driftDirection crtHit crtTime dirs).map
        matchCand.toIEEE := by
  unfold newCandidatesIEEE newCandidates
  simp only [DistOfClosestApproachIEEE_eq sqrt alg detProp _ dirs.1 crtHit driftDirection
      crtTime (fun h => (hbox h).1) (fun h => (hsimple h).1),
    DistOfClosestApproachIEEE_eq sqrt alg detProp _ dirs.2 crtHit driftDirection
      crtTime (fun h => (hbox h).2) (fun h => (hsimple h).2),
    Double.lt_fin, decide_eq_true_eq]
  split_ifs <;> rfl

omit [FloorRing α] in
/-- The comparison `>=` of two numbers as `double` values is their comparison. -/
theorem Double.ge_fin (a b : α) : (Double.fin a).ge (Double.fin b) = decide (a ≥ b) := rfl

omit [FloorRing α] in
/-- The comparison `<=` of two numbers as `double` values is their comparison. -/
theorem Double.le_fin (a b : α) : (Double.fin a).le (Double.fin b) = decide (b ≥ a) := rfl

omit [FloorRing α] in
/-- The comparison `==` of two numbers as `double` values is their equality. -/
theorem Double.eq_fin (a b : α) : (Double.fin a).eq (Double.fin b) = decide (a = b) := rfl

/-- When at least one point is averaged no special value arises in `TrackDirectionAverage`. -/
theorem TrackDirectionAverageIEEE_eq (track : Track α) (frac : α)
    (hk : ⌊((validDirections track).length : α) * frac⌋ ≠ 0) :
    TrackDirectionAverageIEEE track frac =
      (TrackDirectionAverage track frac).map fun d => (d.1.toDouble, d.2.toDouble) := by
  have hk2 : ((⌊((validDirections track).length : α) * frac⌋ : ℤ) : α) ≠ 0 := by
    exact_mod_cast hk
  unfold TrackDirectionAverageIEEE TrackDirectionAverage
  simp only []
  cases directionTotals (validDirections track)
      (⌊((validDirections track).length : α) * frac⌋).toNat with
  | none => rfl
  | some p =>
    simp only [Option.map_some', Double.div_fin _ _ hk2, TVector3.toDouble]

/-- The directions of the two evaluations agree when the averaged direction averages at least
one point. -/
theorem startEndDirIEEE_eq (sqrt : α → α) (alg : CRTT0MatchAlg α)
    (detProp : DetectorPropertiesData α) (tpcTrack : Track α) (crtTime : α)
    (driftDirection : ℤ)
    (hk : alg.fDirMethod = 2 →
      ⌊((validDirections tpcTrack).length : α) * alg.fTrackDirectionFrac⌋ ≠ 0) :
    startEndDirIEEE sqrt alg detProp tpcTrack crtTime driftDirection =
      (startEndDir sqrt alg detProp tpcTrack crtTime driftDirection).map
        fun d => (d.1.toDouble, d.2.toDouble) := by
  unfold startEndDirIEEE startEndDir
  by_cases h : alg.fDirMethod = 2
  · rw [if_pos h, if_pos h]
    exact TrackDirectionAverageIEEE_eq tpcTrack alg.fTrackDirectionFrac (hk h)
  · rw [if_neg h, if_neg h]
    rfl

/-- The hit loops of the two evaluations give the same candidates for a window of numbers,
when every direction estimate of a hit of the list is without zero component (box distance)
or of non-zero norm (simple distance). -/
theorem t0CandidatesIEEE_eq (sqrt : α → α) (alg : CRTT0MatchAlg α)
    (detProp : DetectorPropertiesData α) (tpcTrack : Track α) (t0MinMax : α × α)
    (driftDirection : ℤ)
    (hk : alg.fDirMethod = 2 →
      ⌊((validDirections tpcTrack).length : α) * alg.fTrackDirectionFrac⌋ ≠ 0)
    (crtHits : List (CRTHit α))
    (hbox : alg.fDCAuseBox = true → ∀ crtHit ∈ crtHits, ∀ dirs,
      startEndDir sqrt alg detProp tpcTrack (crtTime alg crtHit) driftDirection = some dirs →
      (dirs.1.X ≠ 0 ∧ dirs.1.Y ≠ 0 ∧ dirs.1.Z ≠ 0) ∧
        (dirs.2.X ≠ 0 ∧ dirs.2.Y ≠ 0 ∧ dirs.2.Z ≠ 0))
    (hsimple : alg.fDCAuseBox ≠ true → ∀ crtHit ∈ crtHits, ∀ dirs,
      startEndDir sqrt alg detProp tpcTrack (crtTime alg crtHit) driftDirection = some dirs →
      dirs.1.Mag sqrt ≠ 0 ∧ dirs.2.Mag sqrt ≠ 0) :
    t0CandidatesIEEE sqrt alg detProp tpcTrack (Double.fin t0MinMax.1, Double.fin t0MinMax.2)
        driftDirection crtHits =
      (t0Candidates sqrt alg detProp tpcTrack t0MinMax driftDirection crtHits).map
        (List.map matchCand.toIEEE) := by
  induction crtHits with
  | nil => rfl
  | cons crtHit rest ih =>
    have ih2 := ih (fun h c hc => hbox h c (List.mem_cons_of_mem _ hc))
      (fun h c hc => hsimple h c (List.mem_cons_of_mem _ hc))
    rw [t0CandidatesIEEE, t0Candidates]
    simp only [Double.sub_fin, Double.add_fin, Double.ge_fin, Double.le_fin, Double.eq_fin,
      decide_eq_true_eq, ih2, startEndDirIEEE_eq sqrt alg detProp tpcTrack _ driftDirection hk]
    split_ifs
    any_goals rfl
    cases hd : startEndDir sqrt alg detProp tpcTrack (crtTime alg crtHit) driftDirection with
    | none => rfl
    | some dirs =>
      simp only [Option.map_some']
      rw [newCandidatesIEEE_eq sqrt alg detProp tpcTrack driftDirection crtHit _ dirs
        (fun h => hbox h crtHit (List.mem_cons_self _ _) dirs hd)
        (fun h => hsimple h crtHit (List.mem_cons_self _ _) dirs hd)]
      cases t0Candidates sqrt alg detProp tpcTrack t0MinMax driftDirection rest with
      | none => rfl
      | some more => simp only [Option.map_some', List.map_append]

omit [LinearOrderedField α] [FloorRing α] in
/-- A loop over candidates of numbers commutes with the embedding when each step does. -/
theorem foldl_toIEEE (stepI : matchCandIEEE α → matchCandIEEE α → matchCandIEEE α)
    (step : matchCand α → matchCand α → matchCand α) (l : List (matchCand α))
    (hstep : ∀ b, ∀ c ∈ l, stepI b.toIEEE c.toIEEE = (step b c).toIEEE) :
    ∀ b : matchCand α,
      (l.map matchCand.toIEEE).foldl stepI b.toIEEE = (l.foldl step b).toIEEE := by
  induction l with
  | nil => intro b; rfl
  | cons c l ih =>
    intro b
    rw [List.map_cons, List.foldl_cons, List.foldl_cons, hstep b c (List.mem_cons_self _ _)]
    exact ih (fun b2 c2 hc2 => hstep b2 c2 (List.mem_cons_of_mem _ hc2)) _

omit [FloorRing α] in
/-- The selections of the two evaluations agree on candidates of numbers, under the
DCA-over-length policy when no `extrapLen` is zero. -/
theorem bestmatchIEEE_eq (fDCAoverLength : Bool) (cands : List (matchCand α))
    (hlen : fDCAoverLength = true → ∀ c ∈ cands, c.extrapLen ≠ 0) :
    bestmatchIEEE fDCAoverLength (cands.map matchCand.toIEEE) =
      (bestmatch fDCAoverLength cands).toIEEE := by
  cases cands with
  | nil => rfl
  | cons first rest =>
    rw [List.map_cons]
    unfold bestmatchIEEE bestmatch
    simp only []
    rw [← List.map_cons]
    by_cases hp : fDCAoverLength = true
    · rw [if_pos hp, if_pos hp]
      apply foldl_toIEEE
      intro b c hc
      have h1 := hlen hp first (List.mem_cons_self _ _)
      have h2 := hlen hp c hc
      simp only [matchCand.toIEEE, Double.div_fin _ _ h1, Double.div_fin _ _ h2, Double.lt_fin,
        Double.ge_fin, decide_eq_true_eq]
      split_ifs <;> rfl
    · rw [if_neg hp, if_neg hp]
      apply foldl_toIEEE
      intro b c _
      simp only [matchCand.toIEEE, Double.lt_fin, Double.ge_fin, decide_eq_true_eq]
      split_ifs <;> rfl

/-- The two evaluations of `GetClosestCRTHit` agree under the conditions of
`t0CandidatesIEEE_eq` and `bestmatchIEEE_eq`. -/
theorem GetClosestCRTHitIEEE_eq (sqrt : α → α) (alg : CRTT0MatchAlg α)
    (detProp : DetectorPropertiesData α) (tpcTrack : Track α) (t0MinMax : α × α)
    (crtHits : List (CRTHit α)) (driftDirection : ℤ)
    (hk : alg.fDirMethod = 2 →
      ⌊((validDirections tpcTrack).length : α) * alg.fTrackDirectionFrac⌋ ≠ 0)
    (hbox : alg.fDCAuseBox = true → ∀ crtHit ∈ crtHits, ∀ dirs,
      startEndDir sqrt alg detProp tpcTrack (crtTime alg crtHit) driftDirection = some dirs →
      (dirs.1.X ≠ 0 ∧ dirs.1.Y ≠ 0 ∧ dirs.1.Z ≠ 0) ∧
        (dirs.2.X ≠ 0 ∧ dirs.2.Y ≠ 0 ∧ dirs.2.Z ≠ 0))
    (hsimple : alg.fDCAuseBox ≠ true → ∀ crtHit ∈ crtHits, ∀ dirs,
      startEndDir sqrt alg detProp tpcTrack (crtTime alg crtHit) driftDirection = some dirs →
      dirs.1.Mag sqrt ≠ 0 ∧ dirs.2.Mag sqrt ≠ 0)
    (hlen : alg.fDCAoverLength = true → ∀ cands,
      t0Candidates sqrt alg detProp tpcTrack t0MinMax driftDirection crtHits = some cands →
      ∀ c ∈ cands, c.extrapLen ≠ 0) :
    GetClosestCRTHitIEEE sqrt alg detProp tpcTrack (Double.fin t0MinMax.1, Double.fin t0MinMax.2)
        crtHits driftDirection =
      (GetClosestCRTHit sqrt alg detProp tpcTrack t0MinMax crtHits driftDirection).map
        matchCand.toIEEE := by
  unfold GetClosestCRTHitIEEE GetClosestCRTHit
  rw [t0CandidatesIEEE_eq sqrt alg detProp tpcTrack t0MinMax driftDirection hk crtHits hbox
    hsimple]
  cases hc : t0Candidates sqrt alg detProp tpcTrack t0MinMax driftDirection crtHits with
  | none => rfl
  | some cands =>
    simp only [Option.map_some']
    rw [bestmatchIEEE_eq alg.fDCAoverLength cands (fun h => hlen h cands hc)]

omit [FloorRing α] in
/-- For a stitched track or a non-zero drift velocity no special value arises in
`TrackT0Range`. -/
theorem TrackT0RangeIEEE_eq (detProp : DetectorPropertiesData α) (startX endX : α)
    (driftDirection : ℤ) (xLimits : α × α)
    (hv : driftDirection ≠ 0 → detProp.DriftVelocity ≠ 0) :
    TrackT0RangeIEEE detProp startX endX driftDirection xLimits =
      (Double.fin (TrackT0Range detProp startX endX driftDirection xLimits).1,
        Double.fin (TrackT0Range detProp startX endX driftDirection xLimits).2) := by
  unfold TrackT0RangeIEEE TrackT0Range
  by_cases h0 : driftDirection = 0
  · rw [if_pos h0, if_pos h0]
  · have hVd : (driftDirection : α) * detProp.DriftVelocity ≠ 0 :=
      mul_ne_zero (by exact_mod_cast h0) (hv h0)
    rw [if_neg h0, if_neg h0]
    simp only [hVd, false_and, if_false, Double.div_fin _ _ hVd, Double.stdMin_fin,
      Double.stdMax, Double.lt_fin, decide_eq_true_eq]
    congr 1
    by_cases h : (min xLimits.1 xLimits.2 - min startX endX) /
        ((driftDirection : α) * detProp.DriftVelocity) <
        (max xLimits.1 xLimits.2 - max startX endX) /
          ((driftDirection : α) * detProp.DriftVelocity)
    · rw [if_pos h, max_eq_right (le_of_lt h)]
    · rw [if_neg h, max_eq_left (not_lt.mp h)]

/-- The two evaluations of the overload `GetClosestCRTHit(detProp, tpcTrack, hits, crtHits)`
agree under the conditions of `TrackT0RangeIEEE_eq` and `GetClosestCRTHitIEEE_eq`. -/
theorem GetClosestCRTHitOfHitsIEEE_eq {H : Type} (sqrt : α → α) (alg : CRTT0MatchAlg α)
    (util : TPCGeoUtil α H) (detProp : DetectorPropertiesData α) (tpcTrack : Track α) (hits : H)
    (crtHits : List (CRTHit α))
    (hv : util.DriftDirectionFromHits alg.fGeometryService hits ≠ 0 →
      detProp.DriftVelocity ≠ 0)
    (hk : alg.fDirMethod = 2 →
      ⌊((validDirections tpcTrack).length : α) * alg.fTrackDirectionFrac⌋ ≠ 0)
    (hbox : alg.fDCAuseBox = true → ∀ crtHit ∈ crtHits, ∀ dirs,
      startEndDir sqrt alg detProp tpcTrack (crtTime alg crtHit)
        (util.DriftDirectionFromHits alg.fGeometryService hits) = some dirs →
      (dirs.1.X ≠ 0 ∧ dirs.1.Y ≠ 0 ∧ dirs.1.Z ≠ 0) ∧
        (dirs.2.X ≠ 0 ∧ dirs.2.Y ≠ 0 ∧ dirs.2.Z ≠ 0))
    (hsimple : alg.fDCAuseBox ≠ true → ∀ crtHit ∈ crtHits, ∀ dirs,
      startEndDir sqrt alg detProp tpcTrack (crtTime alg crtHit)
        (util.DriftDirectionFromHits alg.fGeometryService hits) = some dirs →
      dirs.1.Mag sqrt ≠ 0 ∧ dirs.2.Mag sqrt ≠ 0)
    (hlen : alg.fDCAoverLength = true → ∀ cands,
      t0Candidates sqrt alg detProp tpcTrack
        (TrackT0Range detProp tpcTrack.Start.X tpcTrack.End.X
          (util.DriftDirectionFromHits alg.fGeometryService hits)
          (util.XLimitsFromHits alg.fGeometryService hits))
        (util.DriftDirectionFromHits alg.fGeometryService hits) crtHits = some cands →
      ∀ c ∈ cands, c.extrapLen ≠ 0) :
    GetClosestCRTHitOfHitsIEEE sqrt alg util detProp tpcTrack hits crtHits =
      (GetClosestCRTHitOfHits sqrt alg util detProp tpcTrack hits crtHits).map
        matchCand.toIEEE := by
  unfold GetClosestCRTHitOfHitsIEEE GetClosestCRTHitOfHits
  simp only []
  rw [TrackT0RangeIEEE_eq detProp _ _ _ _ hv]
  exact GetClosestCRTHitIEEE_eq sqrt alg detProp tpcTrack _ crtHits _ hk hbox hsimple hlen

/-- When the two evaluations of the matcher agree and the best match has a non-zero
`extrapLen`, the two evaluations of `T0FromCRTHits` and of `T0AndDCAFromCRTHits` agree. -/
theorem T0FromCRTHitsIEEE_agrees {H : Type} (sqrt : α → α) (alg : CRTT0MatchAlg α)
    (util : TPCGeoUtil α H) (detProp : DetectorPropertiesData α) (tpcTrack : Track α) (hits : H)
    (crtHits : List (CRTHit α))
    (hm : GetClosestCRTHitOfHitsIEEE sqrt alg util detProp tpcTrack hits crtHits =
      (GetClosestCRTHitOfHits sqrt alg util detProp tpcTrack hits crtHits).map
        matchCand.toIEEE)
    (hlen : ∀ m, GetClosestCRTHitOfHits sqrt alg util detProp tpcTrack hits crtHits = some m →
      m.extrapLen ≠ 0) :
    T0FromCRTHitsIEEE sqrt alg util detProp tpcTrack hits crtHits =
        T0FromCRTHits sqrt alg util detProp tpcTrack hits crtHits ∧
      T0AndDCAFromCRTHitsIEEE sqrt alg util detProp tpcTrack hits crtHits =
        (T0AndDCAFromCRTHits sqrt alg util detProp tpcTrack hits crtHits).map
          fun p => (p.1, Double.fin p.2) := by
  unfold T0FromCRTHitsIEEE T0FromCRTHits T0AndDCAFromCRTHitsIEEE T0AndDCAFromCRTHits
  rw [hm]
  cases hc : GetClosestCRTHitOfHits sqrt alg util detProp tpcTrack hits crtHits with
  | none =>
    constructor
    · split_ifs <;> rfl
    · split_ifs <;> rfl
  | some m =>
    have h0 := hlen m hc
    simp only [Option.map_some', matchCand.toIEEE, Double.lt_fin, decide_eq_true_eq,
      Double.div_fin _ _ h0]
    constructor
    · trivial
    · split_ifs <;> rfl

end SpecialValuePathAgreement

/-! ## Lemmas on the evaluation with special values -/

section SpecialValuePathLemmas

variable {α : Type} [LinearOrderedField α] [FloorRing α]

/-- The integer truncation lies between `0` and `x`, less than one away from `x`. -/
theorem integerTruncated_spec (x : α) :
    |((integerTruncated x : ℤ) : α)| ≤ |x| ∧ |x - ((integerTruncated x : ℤ) : α)| < 1 ∧
      (0 ≤ x → 0 ≤ integerTruncated x) ∧ (x ≤ 0 → integerTruncated x ≤ 0) := by
  unfold integerTruncated
  by_cases hx : 0 ≤ x
  · rw [if_pos hx]
    have h1 : (⌊x⌋ : α) ≤ x := Int.floor_le x
    have h2 : x < (⌊x⌋ : α) + 1 := Int.lt_floor_add_one x
    have h3 : (0 : ℤ) ≤ ⌊x⌋ := Int.floor_nonneg.mpr hx
    have h4 : (0 : α) ≤ (⌊x⌋ : α) := by exact_mod_cast h3
    refine ⟨?_, ?_, fun _ => h3, fun h => ?_⟩
    · rw [abs_of_nonneg h4, abs_of_nonneg hx]; exact h1
    · rw [abs_of_nonneg (by linarith)]; linarith
    · have : x = 0 := le_antisymm h hx
      rw [this, Int.floor_zero]
  · rw [if_neg hx]
    have hx2 : x < 0 := not_le.mp hx
    have h1 : x ≤ (⌈x⌉ : α) := Int.le_ceil x
    have h2 : (⌈x⌉ : α) < x + 1 := Int.ceil_lt_add_one x
    have h3 : ⌈x⌉ ≤ (0 : ℤ) := Int.ceil_le.mpr (by simpa using le_of_lt hx2)
    have h4 : (⌈x⌉ : α) ≤ 0 := by exact_mod_cast h3
    refine ⟨?_, ?_, fun h => absurd h hx, fun _ => h3⟩
    · rw [abs_of_nonpos h4, abs_of_neg hx2]; linarith
    · rw [abs_of_nonpos (by linarith)]; linarith

/-- Within the range of a 32-bit `int` the cast `(double)(int)x` is the truncation toward
zero. -/
theorem truncToInt_of_range (x : α) (h1 : -2147483648 ≤ integerTruncated x)
    (h2 : integerTruncated x < 2147483648) :
    truncToInt x = ((integerTruncated x : ℤ) : α) := by
  unfold truncToInt
  have h : (integerTruncated x + 2147483648) % 4294967296 - 2147483648 =
      integerTruncated x := by omega
  rw [h]

omit [FloorRing α]

/-- The square root of a value that is not negative is not negative. -/
theorem Double.notNeg_sqrt (sqrt : α → α) (hsqrt : ∀ x, 0 ≤ sqrt x) (d : Double α) :
    (d.sqrt sqrt).notNeg := by
  cases d with
  | fin x =>
    simp only [Double.sqrt]
    split_ifs
    · trivial
    · exact hsqrt x
  | posInf => trivial
  | negInf => trivial
  | nan => trivial

/-- The quotient of two values that are not negative is not negative (it can be `+∞` or
not-a-number). -/
theorem Double.notNeg_div (a b : Double α) (ha : a.notNeg) (hb : b.notNeg) :
    (a.div b).notNeg := by
  cases a with
  | fin x =>
    cases b with
    | fin y =>
      have hx : (0 : α) ≤ x := ha
      have hy : (0 : α) ≤ y := hb
      simp only [Double.div]
      split_ifs
      · trivial
      · exact absurd hx (not_le.mpr (by assumption))
      · trivial
      · exact div_nonneg hx hy
    | posInf => exact le_refl (0 : α)
    | negInf => exact hb.elim
    | nan => trivial
  | posInf =>
    cases b with
    | fin y =>
      have hy : (0 : α) ≤ y := hb
      simp only [Double.div]
      rw [if_neg (not_lt.mpr hy)]
      trivial
    | posInf => trivial
    | negInf => exact hb.elim
    | nan => trivial
  | negInf => exact ha.elim
  | nan => cases b <;> trivial

/-- The value `std::min` of two values that are not negative is not negative. -/
theorem Double.notNeg_stdMin (a b : Double α) (ha : a.notNeg) (hb : b.notNeg) :
    (Double.stdMin a b).notNeg := by
  unfold Double.stdMin
  split_ifs
  · exact hb
  · exact ha

/-- A value that is not negative differs from every negative number. -/
theorem Double.ne_fin_neg_of_notNeg (d : Double α) (h : d.notNeg) (x : α) (hx : x < 0) :
    d ≠ Double.fin x := by
  intro he
  rw [he] at h
  exact absurd (show (0 : α) ≤ x from h) (not_le.mpr hx)

/-- A value with `d >= 0` fails the test `d < 0`. -/
theorem Double.lt_zero_of_ge (d : Double α) (h : d.ge (Double.fin 0) = true) :
    d.lt (Double.fin 0) = false := by
  cases d with
  | fin x =>
    have hx : x ≥ 0 := by simpa [Double.ge] using h
    simp [Double.lt, Double.gt, hx]
  | posInf => rfl
  | negInf => simp [Double.ge] at h
  | nan => rfl

/-- The source test `!(dca < 0) && dca < limit` is the test `0 <= dca && dca < limit`. -/
theorem Double.range_test (d : Double α) (l : α) :
    (d.lt (Double.fin 0) = false ∧ d.lt (Double.fin l) = true) ↔
      ((Double.fin 0).le d = true ∧ d.lt (Double.fin l) = true) := by
  cases d with
  | fin x => simp [Double.lt, Double.gt, Double.le, Double.ge]
  | posInf => simp [Double.lt, Double.gt, Double.le, Double.ge]
  | negInf => simp [Double.lt, Double.gt, Double.le, Double.ge]
  | nan => simp [Double.lt, Double.gt, Double.le, Double.ge]

/-- For numbers with a non-zero divisor the comparison of the quotient is the comparison
of numbers; for a zero divisor and a dividend `≥ 0` the quotient is `+∞` or not-a-number
and the comparison is false. -/
theorem Double.ratio_lt (x y l : α) :
    (y ≠ 0 → (((Double.fin x).div (Double.fin y)).lt (Double.fin l) = true ↔ x / y < l)) ∧
    (y = 0 → 0 ≤ x → ((Double.fin x).div (Double.fin y)).lt (Double.fin l) = false) := by
  constructor
  · intro hy
    simp [Double.div, hy, Double.lt, Double.gt]
  · intro hy hx
    subst hy
    simp only [Double.div, if_true]
    split_ifs
    · rfl
    · exact absurd hx (not_le.mpr (by assumption))
    · rfl

/-- The value of `SimpleDCA` is never negative. -/
theorem SimpleDCAIEEE_notNeg (sqrt : α → α) (hsqrt : ∀ x, 0 ≤ sqrt x) (hit : CRTHit α)
    (start direction : TVector3 (Double α)) :
    (SimpleDCAIEEE sqrt hit start direction).notNeg :=
  Double.notNeg_div _ _ (Double.notNeg_sqrt sqrt hsqrt _) (Double.notNeg_sqrt sqrt hsqrt _)

/-- The value of `LineSegmentDistance` is never negative. -/
theorem LineSegmentDistanceIEEE_notNeg (sqrt : α → α) (hsqrt : ∀ x, 0 ≤ sqrt x)
    (start1 end1 start2 end2 : TVector3 (Double α)) :
    (LineSegmentDistanceIEEE sqrt start1 end1 start2 end2).notNeg :=
  Double.notNeg_sqrt sqrt hsqrt _

/-- The value of `DistToCrtHit` is never negative. -/
theorem DistToCrtHitIEEE_notNeg (sqrt : α → α) (hsqrt : ∀ x, 0 ≤ sqrt x) (hit : CRTHit α)
    (start end_ : TVector3 (Double α)) :
    (DistToCrtHitIEEE sqrt hit start end_).notNeg := by
  unfold DistToCrtHitIEEE
  simp only []
  split_ifs
  all_goals
    first
    | exact le_refl (0 : α)
    | exact Double.notNeg_stdMin _ _
        (Double.notNeg_stdMin _ _ (LineSegmentDistanceIEEE_notNeg sqrt hsqrt _ _ _ _)
          (LineSegmentDistanceIEEE_notNeg sqrt hsqrt _ _ _ _))
        (Double.notNeg_stdMin _ _ (LineSegmentDistanceIEEE_notNeg sqrt hsqrt _ _ _ _)
          (LineSegmentDistanceIEEE_notNeg sqrt hsqrt _ _ _ _))

/-- The value of `DistOfClosestApproach` is never negative. -/
theorem DistOfClosestApproachIEEE_notNeg (sqrt : α → α) (hsqrt : ∀ x, 0 ≤ sqrt x)
    (alg : CRTT0MatchAlg α) (detProp : DetectorPropertiesData α) (trackPos : TVector3 α)
    (trackDir : TVector3 (Double α)) (crtHit : CRTHit α) (driftDirection : ℤ) (t0 : α) :
    (DistOfClosestApproachIEEE sqrt alg detProp trackPos trackDir crtHit driftDirection
      t0).notNeg := by
  unfold DistOfClosestApproachIEEE
  simp only []
  split_ifs
  all_goals
    first
    | exact DistToCrtHitIEEE_notNeg sqrt hsqrt _ _ _
    | exact SimpleDCAIEEE_notNeg sqrt hsqrt _ _ _

end SpecialValuePathLemmas

section SpecialValueCandidates

variable {α : Type} [LinearOrderedField α] [FloorRing α]

/-- Every candidate appended for a hit carries that hit and its corrected time, and its
`dca` is one of the two end distances. -/
theorem mem_newCandidatesIEEE (sqrt : α → α) (alg : CRTT0MatchAlg α)
    (detProp : DetectorPropertiesData α) (tpcTrack : Track α) (driftDirection : ℤ)
    (crtHit : CRTHit α) (dirs : TVector3 (Double α) × TVector3 (Double α))
    (c : matchCandIEEE α)
    (hc : c ∈ newCandidatesIEEE sqrt alg detProp tpcTrack driftDirection crtHit
      (crtTime alg crtHit) dirs) :
    c.thishit = crtHit ∧ c.t0 = crtTime alg crtHit ∧
      (c.dca = DistOfClosestApproachIEEE sqrt alg detProp tpcTrack.Start dirs.1 crtHit
          driftDirection (crtTime alg crtHit) ∨
        c.dca = DistOfClosestApproachIEEE sqrt alg detProp tpcTrack.End dirs.2 crtHit
          driftDirection (crtTime alg crtHit)) := by
  unfold newCandidatesIEEE at hc
  simp only [] at hc
  split_ifs at hc <;> simp only [List.mem_singleton, List.not_mem_nil] at hc <;>
    first
    | exact hc.elim
    | (subst hc; exact ⟨rfl, rfl, Or.inl rfl⟩)
    | (subst hc; exact ⟨rfl, rfl, Or.inr rfl⟩)

/-- Every candidate of the hit loop comes from a hit of the list and carries that hit and
its corrected time; its `dca` is one of the end distances, hence not negative. -/
theorem mem_t0CandidatesIEEE (sqrt : α → α) (alg : CRTT0MatchAlg α)
    (detProp : DetectorPropertiesData α) (tpcTrack : Track α) (t0MinMax : Double α × Double α)
    (driftDirection : ℤ) :
    ∀ (crtHits : List (CRTHit α)) (cands : List (matchCandIEEE α)),
      t0CandidatesIEEE sqrt alg detProp tpcTrack t0MinMax driftDirection crtHits = some cands →
      ∀ c ∈ cands, c.thishit ∈ crtHits ∧ c.t0 = crtTime alg c.thishit ∧
        ((∀ x, 0 ≤ sqrt x) → c.dca.notNeg) := by
  intro crtHits
  induction crtHits with
  | nil =>
    intro cands h c hc
    rw [t0CandidatesIEEE] at h
    cases h
    cases hc
  | cons crtHit rest ih =>
    intro cands h c hc
    have hskip : t0CandidatesIEEE sqrt alg detProp tpcTrack t0MinMax driftDirection rest =
        some cands → c.thishit ∈ crtHit :: rest ∧ c.t0 = crtTime alg c.thishit ∧
          ((∀ x, 0 ≤ sqrt x) → c.dca.notNeg) := by
      intro h2
      obtain ⟨h3, h4⟩ := ih cands h2 c hc
      exact ⟨List.mem_cons_of_mem _ h3, h4⟩
    rw [t0CandidatesIEEE] at h
    split_ifs at h
    all_goals first | exact hskip h | skip
    cases hd : startEndDirIEEE sqrt alg detProp tpcTrack (crtTime alg crtHit)
        driftDirection with
    | none => rw [hd] at h; cases h
    | some dirs =>
      rw [hd] at h
      cases hr : t0CandidatesIEEE sqrt alg detProp tpcTrack t0MinMax driftDirection rest with
      | none => rw [hr] at h; cases h
      | some more =>
        rw [hr] at h
        simp only [Option.some.injEq] at h
        subst h
        rcases List.mem_append.mp hc with hnew | hold
        · have hmem := mem_newCandidatesIEEE sqrt alg detProp tpcTrack driftDirection crtHit
            dirs c hnew
          rw [hmem.1]
          refine ⟨List.mem_cons_self _ _, hmem.2.1, fun hsqrt => ?_⟩
          rcases hmem.2.2 with h1 | h1
          · rw [h1]; exact DistOfClosestApproachIEEE_notNeg sqrt hsqrt _ _ _ _ _ _ _
          · rw [h1]; exact DistOfClosestApproachIEEE_notNeg sqrt hsqrt _ _ _ _ _ _ _
        · obtain ⟨h1, h2⟩ := ih more hr c hold
          exact ⟨List.mem_cons_of_mem _ h1, h2⟩

omit [LinearOrderedField α] [FloorRing α] in
/-- A left fold whose step always answers one of its two arguments, started from a member of
the list, answers a member of the list. -/
theorem foldl_mem_of_mem {β : Type} (step : β → β → β)
    (hstep : ∀ b c, step b c = b ∨ step b c = c) (l : List β) (b : β) (hb : b ∈ l) :
    l.foldl step b ∈ l := by
  rcases foldl_choice step hstep l b with h | h
  · rw [h]; exact hb
  · exact h

omit [FloorRing α] in
/-- The selected candidate is one of the candidates. -/
theorem bestmatchIEEE_mem (fDCAoverLength : Bool) (cands : List (matchCandIEEE α))
    (h : cands ≠ []) : bestmatchIEEE fDCAoverLength cands ∈ cands := by
  cases cands with
  | nil => exact absurd rfl h
  | cons first rest =>
    unfold bestmatchIEEE
    simp only []
    split_ifs
    · apply foldl_mem_of_mem
      · intro b c
        dsimp only
        split_ifs <;> simp
      · exact List.mem_cons_self _ _
    · apply foldl_mem_of_mem
      · intro b c
        dsimp only
        split_ifs <;> simp
      · exact List.mem_cons_self _ _

end SpecialValueCandidates

section SpecialValueResults

variable {α : Type} [LinearOrderedField α] [FloorRing α]

/-- The result of `GetClosestCRTHitIEEE` is the selection applied to the candidate list. -/
theorem GetClosestCRTHitIEEE_of_candidates (sqrt : α → α) (alg : CRTT0MatchAlg α)
    (detProp : DetectorPropertiesData α) (tpcTrack : Track α) (t0MinMax : Double α × Double α)
    (crtHits : List (CRTHit α)) (driftDirection : ℤ) (cands : List (matchCandIEEE α))
    (h : t0CandidatesIEEE sqrt alg detProp tpcTrack t0MinMax driftDirection crtHits =
      some cands) :
    GetClosestCRTHitIEEE sqrt alg detProp tpcTrack t0MinMax crtHits driftDirection =
      some (bestmatchIEEE alg.fDCAoverLength cands) := by
  unfold GetClosestCRTHitIEEE
  rw [h]

/-- A result of `GetClosestCRTHitIEEE` is the null candidate or a candidate made from a hit
of the list: it carries that hit and its corrected time, and its `dca` is not negative. -/
theorem GetClosestCRTHitIEEE_cases (sqrt : α → α) (alg : CRTT0MatchAlg α)
    (detProp : DetectorPropertiesData α) (tpcTrack : Track α) (t0MinMax : Double α × Double α)
    (crtHits : List (CRTHit α)) (driftDirection : ℤ) (m : matchCandIEEE α)
    (h : GetClosestCRTHitIEEE sqrt alg detProp tpcTrack t0MinMax crtHits driftDirection =
      some m) :
    m = makeNULLmcIEEE ∨
      (m.thishit ∈ crtHits ∧ m.t0 = crtTime alg m.thishit ∧
        ((∀ x, 0 ≤ sqrt x) → m.dca.notNeg)) := by
  unfold GetClosestCRTHitIEEE at h
  cases hc : t0CandidatesIEEE sqrt alg detProp tpcTrack t0MinMax driftDirection crtHits with
  | none => rw [hc] at h; cases h
  | some cands =>
    rw [hc] at h
    simp only [Option.some.injEq] at h
    subst h
    cases cands with
    | nil => exact Or.inl rfl
    | cons first rest =>
      exact Or.inr (mem_t0CandidatesIEEE sqrt alg detProp tpcTrack t0MinMax driftDirection
        crtHits (first :: rest) hc _
        (bestmatchIEEE_mem alg.fDCAoverLength (first :: rest) (List.cons_ne_nil _ _)))

omit [FloorRing α]

/-- The selection under the DCA-over-length policy is the loop started from the first
candidate and run over the whole list, every ratio being compared with the ratio of the
first candidate. -/
theorem bestmatchIEEE_true_cons (first : matchCandIEEE α) (rest : List (matchCandIEEE α)) :
    bestmatchIEEE true (first :: rest) = (first :: rest).foldl (fun bestmatch thisCand =>
      if bestmatch.dca.lt (Double.fin 0) = true then thisCand
      else if (thisCand.dca.div (Double.fin thisCand.extrapLen)).lt
          (first.dca.div (Double.fin first.extrapLen)) = true ∧
          thisCand.dca.ge (Double.fin 0) = true then thisCand
      else bestmatch) first := by
  simp only [bestmatchIEEE, if_true]

/-- The loop of the DCA-over-length policy, run from a best candidate `b` with `dca ≥ 0`
over candidates with `dca ≥ 0`, compares every ratio with the fixed value `s` and ends on
the last candidate whose ratio is below `s`, or on `b` when there is none. -/
theorem foldl_ratio_lastIEEE (s : Double α) (l : List (matchCandIEEE α)) :
    ∀ b : matchCandIEEE α, b.dca.ge (Double.fin 0) = true →
      (∀ c ∈ l, c.dca.ge (Double.fin 0) = true) →
      ((∀ c ∈ l, (c.dca.div (Double.fin c.extrapLen)).lt s = false) ∧
        l.foldl (fun bestmatch thisCand =>
          if bestmatch.dca.lt (Double.fin 0) = true then thisCand
          else if (thisCand.dca.div (Double.fin thisCand.extrapLen)).lt s = true ∧
              thisCand.dca.ge (Double.fin 0) = true then thisCand
          else bestmatch) b = b) ∨
      ∃ pre m post, l = pre ++ m :: post ∧
        (m.dca.div (Double.fin m.extrapLen)).lt s = true ∧
        (∀ c ∈ post, (c.dca.div (Double.fin c.extrapLen)).lt s = false) ∧
        l.foldl (fun bestmatch thisCand =>
          if bestmatch.dca.lt (Double.fin 0) = true then thisCand
          else if (thisCand.dca.div (Double.fin thisCand.extrapLen)).lt s = true ∧
              thisCand.dca.ge (Double.fin 0) = true then thisCand
          else bestmatch) b = m := by
  induction l with
  | nil =>
    intro b _ _
    exact Or.inl ⟨(fun c hc => by cases hc), rfl⟩
  | cons c l ih =>
    intro b hb hl
    have hc : c.dca.ge (Double.fin 0) = true := hl c (List.mem_cons_self _ _)
    have hl2 : ∀ e ∈ l, e.dca.ge (Double.fin 0) = true :=
      fun e he => hl e (List.mem_cons_of_mem _ he)
    have hb0 : ¬ b.dca.lt (Double.fin 0) = true := by
      rw [Double.lt_zero_of_ge b.dca hb]
      exact Bool.false_ne_true
    rw [List.foldl_cons, if_neg hb0]
    by_cases hp : (c.dca.div (Double.fin c.extrapLen)).lt s = true
    · rw [if_pos ⟨hp, hc⟩]
      rcases ih c hc hl2 with ⟨hall, hres⟩ | ⟨pre, m, post, hsplit, hm, hpost, hres⟩
      · exact Or.inr ⟨[], c, l, rfl, hp, hall, hres⟩
      · exact Or.inr ⟨c :: pre, m, post, by rw [hsplit]; rfl, hm, hpost, hres⟩
    · rw [if_neg (fun h => hp h.1)]
      have hpf : (c.dca.div (Double.fin c.extrapLen)).lt s = false := by
        simpa using hp
      rcases ih b hb hl2 with ⟨hall, hres⟩ | ⟨pre, m, post, hsplit, hm, hpost, hres⟩
      · refine Or.inl ⟨fun e he => ?_, hres⟩
        rcases List.mem_cons.mp he with rfl | he2
        · exact hpf
        · exact hall e he2
      · exact Or.inr ⟨c :: pre, m, post, by rw [hsplit]; rfl, hm, hpost, hres⟩

end SpecialValueResults

section SpecialValueScope

variable {α : Type} [LinearOrderedField α] [FloorRing α]

/-- The answer of `GetClosestCRTHit` is the null candidate exactly when the hit loop leaves no
candidate, and the `dca` of every other answer is not negative (it can be not-a-number, for
a zero direction). -/
theorem GetClosestCRTHitIEEE_null_or_notNeg (sqrt : α → α) (hsqrt : ∀ x, 0 ≤ sqrt x)
    (alg : CRTT0MatchAlg α) (detProp : DetectorPropertiesData α) (tpcTrack : Track α)
    (t0MinMax : Double α × Double α) (crtHits : List (CRTHit α)) (driftDirection : ℤ)
    (cands : List (matchCandIEEE α))
    (hc : t0CandidatesIEEE sqrt alg detProp tpcTrack t0MinMax driftDirection crtHits =
      some cands) :
    ∃ m, GetClosestCRTHitIEEE sqrt alg detProp tpcTrack t0MinMax crtHits driftDirection =
        some m ∧
      (m = makeNULLmcIEEE ↔ cands = []) ∧ (m ≠ makeNULLmcIEEE → m.dca.notNeg) := by
  refine ⟨_, GetClosestCRTHitIEEE_of_candidates sqrt alg detProp tpcTrack t0MinMax crtHits
    driftDirection cands hc, ?_⟩
  cases cands with
  | nil => exact ⟨⟨fun _ => rfl, fun _ => rfl⟩, fun h => absurd rfl h⟩
  | cons first rest =>
    have hmem := bestmatchIEEE_mem alg.fDCAoverLength (first :: rest) (List.cons_ne_nil _ _)
    have hnn := (mem_t0CandidatesIEEE sqrt alg detProp tpcTrack t0MinMax driftDirection
      crtHits (first :: rest) hc _ hmem).2.2 hsqrt
    refine ⟨⟨fun h => ?_, fun h => absurd h (List.cons_ne_nil _ _)⟩, fun _ => hnn⟩
    rw [h] at hnn
    have h0 : (0 : α) ≤ -99999 := hnn
    norm_num at h0

omit [FloorRing α] in
/-- A loop step of the selection, for a running best `b` and candidates whose `dca` is a
number or an infinity: the loop ends on a candidate with `dca ≥ 0` as soon as `b` or one
candidate of the list has `dca ≥ 0`. -/
theorem foldl_keeps_valid (q : matchCandIEEE α → matchCandIEEE α → Bool)
    (l : List (matchCandIEEE α)) :
    ∀ b : matchCandIEEE α, (∀ c ∈ l, c.dca ≠ Double.nan) → b.dca ≠ Double.nan →
      (b.dca.ge (Double.fin 0) = true ∨ ∃ c ∈ l, c.dca.ge (Double.fin 0) = true) →
      (l.foldl (fun bestmatch thisCand =>
        if bestmatch.dca.lt (Double.fin 0) = true then thisCand
        else if q bestmatch thisCand = true ∧ thisCand.dca.ge (Double.fin 0) = true
          then thisCand
        else bestmatch) b).dca.ge (Double.fin 0) = true := by
  have hge : ∀ d : Double α, d ≠ Double.nan → d.lt (Double.fin 0) = false →
      d.ge (Double.fin 0) = true := by
    intro d hd hlt
    cases d with
    | fin x =>
      simp only [Double.lt, Double.gt, decide_eq_false_iff_not, not_lt] at hlt
      simpa [Double.ge] using hlt
    | posInf => rfl
    | negInf => simp [Double.lt, Double.gt] at hlt
    | nan => exact absurd rfl hd
  induction l with
  | nil =>
    intro b _ _ h
    rcases h with h | ⟨c, hc, _⟩
    · exact h
    · cases hc
  | cons c l ih =>
    intro b hl hb h
    have hc : c.dca ≠ Double.nan := hl c (List.mem_cons_self _ _)
    have hl2 : ∀ e ∈ l, e.dca ≠ Double.nan := fun e he => hl e (List.mem_cons_of_mem _ he)
    rw [List.foldl_cons]
    by_cases hb0 : b.dca.lt (Double.fin 0) = true
    · rw [if_pos hb0]
      apply ih c hl2 hc
      rcases h with h | ⟨e, he, hev⟩
      · rw [Double.lt_zero_of_ge b.dca h] at hb0
        exact Bool.noConfusion hb0
      · rcases List.mem_cons.mp he with rfl | he2
        · exact Or.inl hev
        · exact Or.inr ⟨e, he2, hev⟩
    · rw [if_neg hb0]
      have hbv : b.dca.ge (Double.fin 0) = true := hge b.dca hb (by simpa using hb0)
      by_cases hq : q b c = true ∧ c.dca.ge (Double.fin 0) = true
      · rw [if_pos hq]
        exact ih c hl2 hc (Or.inl hq.2)
      · rw [if_neg hq]
        exact ih b hl2 hb (Or.inl hbv)

omit [FloorRing α] in
/-- Outside the not-a-number case the selection keeps valid candidates: for a candidate list
without a not-a-number `dca`, under either policy, the selected candidate has `dca ≥ 0` as
soon as one candidate has. -/
theorem bestmatchIEEE_valid_of_numbers (fDCAoverLength : Bool)
    (cands : List (matchCandIEEE α)) (hnum : ∀ c ∈ cands, c.dca ≠ Double.nan)
    (hex : ∃ c ∈ cands, c.dca.ge (Double.fin 0) = true) :
    (bestmatchIEEE fDCAoverLength cands).dca.ge (Double.fin 0) = true := by
  cases cands with
  | nil =>
    obtain ⟨c, hc, _⟩ := hex
    cases hc
  | cons first rest =>
    have hfirst : first.dca ≠ Double.nan := hnum first (List.mem_cons_self _ _)
    unfold bestmatchIEEE
    simp only []
    split_ifs
    · exact foldl_keeps_valid
        (fun _ thisCand => (thisCand.dca.div (Double.fin thisCand.extrapLen)).lt
          (first.dca.div (Double.fin first.extrapLen)))
        (first :: rest) first hnum hfirst (Or.inr hex)
    · exact foldl_keeps_valid (fun bestmatch thisCand => thisCand.dca.lt bestmatch.dca)
        (first :: rest) first hnum hfirst (Or.inr hex)

omit [FloorRing α] in
/-- One step of either selection loop keeps a running best with `dca ≥ 0` when the next
candidate has `dca < 0`. -/
theorem selection_step_keeps_valid (q : matchCandIEEE α → matchCandIEEE α → Bool)
    (b c : matchCandIEEE α) (hb : b.dca.ge (Double.fin 0) = true)
    (hc : c.dca.lt (Double.fin 0) = true) :
    (if b.dca.lt (Double.fin 0) = true then c
      else if q b c = true ∧ c.dca.ge (Double.fin 0) = true then c
      else b) = b := by
  have hb0 : ¬ b.dca.lt (Double.fin 0) = true := by
    rw [Double.lt_zero_of_ge b.dca hb]
    exact Bool.false_ne_true
  have hc0 : ¬ (q b c = true ∧ c.dca.ge (Double.fin 0) = true) := by
    intro h
    rw [Double.lt_zero_of_ge c.dca h.2] at hc
    exact Bool.noConfusion hc
  rw [if_neg hb0, if_neg hc0]

end SpecialValueScope

/-! ## The matching contract -/

section Claims

variable {α : Type} [LinearOrderedField α] [FloorRing α]

/-- C1: for a track whose length is at least `fMinTrackLength`, `T0FromCRTHits` answers the
corrected time of the hit of the best match `m` of `GetClosestCRTHit` when
`0 ≤ m.dca < fDistanceLimit` and `m.dca / m.extrapLen < fDoverLLimit`, and `-99999` in
every other case (an exception of the matcher is passed on).  The tests are those of
IEEE-754: they fail for a `dca` that is not-a-number and for a quotient by
`extrapLen = 0`; for a `dca` that is a number `d` they say `0 ≤ d < fDistanceLimit`,
`extrapLen ≠ 0` and `d / extrapLen < fDoverLLimit`. -/
theorem T0FromCRTHitsIEEE_eq {H : Type} (sqrt : α → α) (alg : CRTT0MatchAlg α)
    (util : TPCGeoUtil α H) (detProp : DetectorPropertiesData α) (tpcTrack : Track α) (hits : H)
    (crtHits : List (CRTHit α)) (hlen : alg.fMinTrackLength ≤ tpcTrack.Length) :
    T0FromCRTHitsIEEE sqrt alg util detProp tpcTrack hits crtHits =
      ((GetClosestCRTHitOfHitsIEEE sqrt alg util detProp tpcTrack hits crtHits).map fun m =>
        if (Double.fin 0).le m.dca = true ∧ m.dca.lt (Double.fin alg.fDistanceLimit) = true ∧
            (m.dca.div (Double.fin m.extrapLen)).lt (Double.fin alg.fDoverLLimit) = true
        then crtTime alg m.thishit else -99999) ∧
    ∀ d e : α,
      ((Double.fin 0).le (Double.fin d) = true ∧
          (Double.fin d).lt (Double.fin alg.fDistanceLimit) = true ∧
          ((Double.fin d).div (Double.fin e)).lt (Double.fin alg.fDoverLLimit) = true) ↔
        (0 ≤ d ∧ d < alg.fDistanceLimit ∧ e ≠ 0 ∧ d / e < alg.fDoverLLimit) := by
  constructor
  · unfold T0FromCRTHitsIEEE
    rw [if_neg (not_lt.mpr hlen)]
    cases GetClosestCRTHitOfHitsIEEE sqrt alg util detProp tpcTrack hits crtHits with
    | none => rfl
    | some m =>
      simp only [Option.map_some']
      by_cases h0 : m.dca.lt (Double.fin 0) = true
      · rw [if_pos h0, if_neg]
        intro h
        have h2 := ((Double.range_test m.dca alg.fDistanceLimit).mpr ⟨h.1, h.2.1⟩).1
        rw [h0] at h2
        exact Bool.noConfusion h2
      · rw [if_neg h0]
        have h0f : m.dca.lt (Double.fin 0) = false := by simpa using h0
        by_cases h1 : m.dca.lt (Double.fin alg.fDistanceLimit) = true ∧
            (m.dca.div (Double.fin m.extrapLen)).lt (Double.fin alg.fDoverLLimit) = true
        · rw [if_pos h1, if_pos
            ⟨((Double.range_test m.dca alg.fDistanceLimit).mp ⟨h0f, h1.1⟩).1, h1⟩]
        · rw [if_neg h1, if_neg (fun h => h1 h.2)]
  · intro d e
    by_cases he : e = 0
    · constructor
      · rintro ⟨h1, _, h3⟩
        have h1' : (0 : α) ≤ d := by simpa [Double.le, Double.ge] using h1
        rw [((Double.ratio_lt d e alg.fDoverLLimit).2 he h1')] at h3
        exact Bool.noConfusion h3
      · rintro ⟨_, _, h3, _⟩
        exact absurd he h3
    · rw [(Double.ratio_lt d e alg.fDoverLLimit).1 he]
      simp [Double.le, Double.ge, Double.lt, Double.gt, he]

/-- Witness of C1: a track of length 11 (minimum 5) with one hit on the track line, whose
time 7 µs is returned; a hit on the start point of the track (`dca = 0`, `extrapLen = 0`)
is answered by `-99999`. -/
theorem T0FromCRTHitsIEEE_eq_witness :
    (sampleAlg false).fMinTrackLength ≤ (sampleTrack 5 11).Length ∧
    T0FromCRTHitsIEEE sqrtQ (sampleAlg false) sampleUtil sampleDetProp (sampleTrack 5 11) ()
      [sampleHit 100 7000 0 (-3)] = some 7 ∧
    GetClosestCRTHitOfHitsIEEE sqrtQ (sampleAlg false) sampleUtil sampleDetProp
      (sampleTrack 5 11) () [hitAt 0 0 0] = some ⟨hitAt 0 0 0, 2, Double.fin 0, 0⟩ ∧
    T0FromCRTHitsIEEE sqrtQ (sampleAlg false) sampleUtil sampleDetProp (sampleTrack 5 11) ()
      [hitAt 0 0 0] = some (-99999) :=
  ⟨by decide!,
    ((T0FromCRTHitsIEEE_eq sqrtQ (sampleAlg false) sampleUtil sampleDetProp (sampleTrack 5 11) ()
      [sampleHit 100 7000 0 (-3)] (by decide!)).1).trans (by decide!),
    by decide!,
    ((T0FromCRTHitsIEEE_eq sqrtQ (sampleAlg false) sampleUtil sampleDetProp (sampleTrack 5 11) ()
      [hitAt 0 0 0] (by decide!)).1).trans (by decide!)⟩

/-- C2: for a track shorter than `fMinTrackLength`, `T0FromCRTHits` answers `-99999` for
every hit list, hence independently of the hits. -/
theorem T0FromCRTHits_short_track {H : Type} (sqrt : α → α) (alg : CRTT0MatchAlg α)
    (util : TPCGeoUtil α H) (detProp : DetectorPropertiesData α) (tpcTrack : Track α) (hits : H)
    (hlen : tpcTrack.Length < alg.fMinTrackLength) :
    ∀ crtHits crtHits2 : List (CRTHit α),
      T0FromCRTHits sqrt alg util detProp tpcTrack hits crtHits = some (-99999) ∧
      T0FromCRTHits sqrt alg util detProp tpcTrack hits crtHits =
        T0FromCRTHits sqrt alg util detProp tpcTrack hits crtHits2 := by
  intro crtHits crtHits2
  unfold T0FromCRTHits
  rw [if_pos hlen, if_pos hlen]
  exact ⟨rfl, rfl⟩

/-- Witness of C2: a track of length 3 (minimum 5) and a hit lying on the track line. -/
theorem T0FromCRTHits_short_track_witness :
    (sampleTrack 1 3).Length < (sampleAlg false).fMinTrackLength ∧
      T0FromCRTHits sqrtQ (sampleAlg false) sampleUtil sampleDetProp (sampleTrack 1 3) ()
        [sampleHit 100 7000 0 (-3)] = some (-99999) :=
  ⟨by decide!,
    (T0FromCRTHits_short_track sqrtQ (sampleAlg false) sampleUtil sampleDetProp (sampleTrack 1 3)
      () (by decide!) [sampleHit 100 7000 0 (-3)] []).1⟩

/-- C3: `T0AndDCAFromCRTHits` answers `(m.t0, m.dca)` for the best match `m` of
`GetClosestCRTHit` exactly when the track is at least `fMinTrackLength` long,
`0 ≤ m.dca < fDistanceLimit` and `m.dca / m.extrapLen < fDoverLLimit` (tests of IEEE-754:
they fail for a `dca` that is not-a-number and for a quotient by `extrapLen = 0`); in every
other case it answers `(-9999, -9999)`, which differs from `(-99999, -99999)`. -/
theorem T0AndDCAFromCRTHitsIEEE_eq {H : Type} (sqrt : α → α) (hsqrt : ∀ x, 0 ≤ sqrt x)
    (alg : CRTT0MatchAlg α) (util : TPCGeoUtil α H) (detProp : DetectorPropertiesData α)
    (tpcTrack : Track α) (hits : H) (crtHits : List (CRTHit α)) :
    (tpcTrack.Length < alg.fMinTrackLength →
      T0AndDCAFromCRTHitsIEEE sqrt alg util detProp tpcTrack hits crtHits =
        some (-9999, Double.fin (-9999))) ∧
    (alg.fMinTrackLength ≤ tpcTrack.Length →
      T0AndDCAFromCRTHitsIEEE sqrt alg util detProp tpcTrack hits crtHits =
        (GetClosestCRTHitOfHitsIEEE sqrt alg util detProp tpcTrack hits crtHits).map fun m =>
          if (Double.fin 0).le m.dca = true ∧
              m.dca.lt (Double.fin alg.fDistanceLimit) = true ∧
              (m.dca.div (Double.fin m.extrapLen)).lt (Double.fin alg.fDoverLLimit) = true
          then (m.t0, m.dca) else (-9999, Double.fin (-9999))) ∧
    (∀ m, GetClosestCRTHitOfHitsIEEE sqrt alg util detProp tpcTrack hits crtHits = some m →
      (T0AndDCAFromCRTHitsIEEE sqrt alg util detProp tpcTrack hits crtHits =
          some (m.t0, m.dca) ↔
        alg.fMinTrackLength ≤ tpcTrack.Length ∧ (Double.fin 0).le m.dca = true ∧
          m.dca.lt (Double.fin alg.fDistanceLimit) = true ∧
          (m.dca.div (Double.fin m.extrapLen)).lt (Double.fin alg.fDoverLLimit) = true)) ∧
    ((-9999, Double.fin (-9999)) : α × Double α) ≠ (-99999, Double.fin (-99999)) := by
  have hfun : alg.fMinTrackLength ≤ tpcTrack.Length →
      T0AndDCAFromCRTHitsIEEE sqrt alg util detProp tpcTrack hits crtHits =
        (GetClosestCRTHitOfHitsIEEE sqrt alg util detProp tpcTrack hits crtHits).map fun m =>
          if (Double.fin 0).le m.dca = true ∧
              m.dca.lt (Double.fin alg.fDistanceLimit) = true ∧
              (m.dca.div (Double.fin m.extrapLen)).lt (Double.fin alg.fDoverLLimit) = true
          then (m.t0, m.dca) else (-9999, Double.fin (-9999)) := by
    intro hlen
    unfold T0AndDCAFromCRTHitsIEEE
    rw [if_neg (not_lt.mpr hlen)]
    cases GetClosestCRTHitOfHitsIEEE sqrt alg util detProp tpcTrack hits crtHits with
    | none => rfl
    | some m =>
      simp only [Option.map_some']
      by_cases h0 : m.dca.lt (Double.fin 0) = true
      · rw [if_pos h0, if_neg]
        intro h
        have h2 := ((Double.range_test m.dca alg.fDistanceLimit).mpr ⟨h.1, h.2.1⟩).1
        rw [h0] at h2
        exact Bool.noConfusion h2
      · rw [if_neg h0]
        have h0f : m.dca.lt (Double.fin 0) = false := by simpa using h0
        by_cases h1 : m.dca.lt (Double.fin alg.fDistanceLimit) = true ∧
            (m.dca.div (Double.fin m.extrapLen)).lt (Double.fin alg.fDoverLLimit) = true
        · rw [if_pos h1, if_pos
            ⟨((Double.range_test m.dca alg.fDistanceLimit).mp ⟨h0f, h1.1⟩).1, h1⟩]
        · rw [if_neg h1, if_neg (fun h => h1 h.2)]
  have hshort : tpcTrack.Length < alg.fMinTrackLength →
      T0AndDCAFromCRTHitsIEEE sqrt alg util detProp tpcTrack hits crtHits =
        some (-9999, Double.fin (-9999)) := by
    intro hlen
    unfold T0AndDCAFromCRTHitsIEEE
    rw [if_pos hlen]
  have hne : ∀ m, GetClosestCRTHitOfHitsIEEE sqrt alg util detProp tpcTrack hits crtHits =
      some m → m.dca ≠ Double.fin (-9999) := by
    intro m hm
    unfold GetClosestCRTHitOfHitsIEEE at hm
    rcases GetClosestCRTHitIEEE_cases sqrt alg detProp tpcTrack _ crtHits _ m hm with
      h | ⟨_, _, h⟩
    · rw [h]
      intro he
      have h2 : (-99999 : α) = -9999 := Double.fin.inj he
      norm_num at h2
    · exact Double.ne_fin_neg_of_notNeg _ (h hsqrt) _ (by norm_num)
  refine ⟨hshort, hfun, ?_, ?_⟩
  · intro m hm
    constructor
    · intro hres
      by_cases hlen : alg.fMinTrackLength ≤ tpcTrack.Length
      · refine ⟨hlen, ?_⟩
        rw [hfun hlen, hm] at hres
        simp only [Option.map_some', Option.some.injEq] at hres
        by_contra hcond
        rw [if_neg hcond] at hres
        exact hne m hm (congrArg Prod.snd hres).symm
      · rw [hshort (not_le.mp hlen)] at hres
        simp only [Option.some.injEq] at hres
        exact absurd (congrArg Prod.snd hres).symm (hne m hm)
    · rintro ⟨hlen, hcond⟩
      rw [hfun hlen, hm]
      simp only [Option.map_some']
      rw [if_pos hcond]
  · intro h
    have h2 : (-9999 : α) = -99999 := congrArg Prod.fst h
    norm_num at h2

/-- Witness of C3: with the rational square root, the sample track of length 11 and a hit
12 cm off the track line are matched with `t0 = 7` and `dca = 12`. -/
theorem T0AndDCAFromCRTHitsIEEE_eq_witness :
    (∀ x, 0 ≤ sqrtQ x) ∧ (sampleAlg false).fMinTrackLength ≤ (sampleTrack 5 11).Length ∧
    T0AndDCAFromCRTHitsIEEE sqrtQ (sampleAlg false) sampleUtil sampleDetProp (sampleTrack 5 11)
      () [sampleHit 100 7000 12 (-5)] = some (7, Double.fin 12) ∧
    T0AndDCAFromCRTHitsIEEE sqrtQ (sampleAlg false) sampleUtil sampleDetProp (sampleTrack 5 11)
      () [hitAt 0 0 0] = some (-9999, Double.fin (-9999)) :=
  ⟨sqrtQ_nonneg, by decide!,
    ((T0AndDCAFromCRTHitsIEEE_eq sqrtQ sqrtQ_nonneg (sampleAlg false) sampleUtil sampleDetProp
      (sampleTrack 5 11) () [sampleHit 100 7000 12 (-5)]).2.1 (by decide!)).trans (by decide!),
    ((T0AndDCAFromCRTHitsIEEE_eq sqrtQ sqrtQ_nonneg (sampleAlg false) sampleUtil sampleDetProp
      (sampleTrack 5 11) () [hitAt 0 0 0]).2.1 (by decide!)).trans (by decide!)⟩

/-- C4, evaluated at a failing input: the track with the two trajectory points `(0, 0, 0)`
and `(0, 0, 12)`, the fraction `1/2` and the hit at `(5, 0, 12)`.  The intermediate point of
`TrackDirection` is the end point, so the end direction is the zero vector and is not
normalised, and the distance of the hit from the end is `0/0`, not-a-number.  The distance
`5` from the start passes the proximity test and the hit is nearer to the end (`5` against
`13`), so the candidate stores the not-a-number `dca` and `GetClosestCRTHit` answers it: a
result that is not the null candidate and whose `dca` is not `≥ 0`. -/
theorem GetClosestCRTHitIEEE_nan_dca :
    TrackDirection sqrtQ (sampleAlg false) sampleDetProp twoPointTrack (1 / 2) 2 0 =
      (⟨0, 0, 1⟩, ⟨0, 0, 0⟩) ∧
    SimpleDCAIEEE sqrtQ (hitAt 5 0 12) (TVector3.toDouble ⟨0, 0, 0⟩)
        (TVector3.toDouble ⟨0, 0, 1⟩) = Double.fin 5 ∧
    SimpleDCAIEEE sqrtQ (hitAt 5 0 12) (TVector3.toDouble ⟨0, 0, 12⟩)
        (TVector3.toDouble ⟨0, 0, 0⟩) = Double.nan ∧
    GetClosestCRTHitIEEE sqrtQ (sampleAlg false) sampleDetProp twoPointTrack
        (Double.fin 0, Double.fin 5) [hitAt 5 0 12] 0 =
      some ⟨hitAt 5 0 12, 2, Double.nan, 5⟩ ∧
    (⟨hitAt 5 0 12, 2, Double.nan, 5⟩ : matchCandIEEE ℚ) ≠ makeNULLmcIEEE ∧
    (⟨hitAt 5 0 12, 2, Double.nan, 5⟩ : matchCandIEEE ℚ).dca.ge (Double.fin 0) = false := by
  refine ⟨by decide!, by decide!, by decide!, by decide!, by decide!, by decide!⟩

/-- C5, evaluated at a failing input: under the DCA-over-length policy three hits give the
kept candidates with `(dca, extrapLen)` equal to `(60, 60)`, `(60, 100)` and `(12, 13)`, all
with `dca ≥ 0` and `extrapLen > 0`, and `GetClosestCRTHit` answers the third one, whose
`dca / extrapLen` is not minimal: the second candidate has a smaller value. -/
theorem GetClosestCRTHit_ratio_not_minimal :
    t0Candidates sqrtQ (sampleAlg true) sampleDetProp (sampleTrack 5 11) (0, 0) 0
        [sampleHit 100 0 60 0, sampleHit 100 0 60 (-80), sampleHit 100 0 12 (-5)] =
      some [⟨sampleHit 100 0 60 0, 0, 60, 60⟩, ⟨sampleHit 100 0 60 (-80), 0, 60, 100⟩,
        ⟨sampleHit 100 0 12 (-5), 0, 12, 13⟩] ∧
    GetClosestCRTHit sqrtQ (sampleAlg true) sampleDetProp (sampleTrack 5 11) (0, 0)
        [sampleHit 100 0 60 0, sampleHit 100 0 60 (-80), sampleHit 100 0 12 (-5)] 0 =
      some ⟨sampleHit 100 0 12 (-5), 0, 12, 13⟩ ∧
    (∀ c ∈ ([⟨sampleHit 100 0 60 0, 0, 60, 60⟩, ⟨sampleHit 100 0 60 (-80), 0, 60, 100⟩,
        ⟨sampleHit 100 0 12 (-5), 0, 12, 13⟩] : List (matchCand ℚ)),
      0 ≤ c.dca ∧ 0 < c.extrapLen) ∧
    ¬ ∀ c ∈ ([⟨sampleHit 100 0 60 0, 0, 60, 60⟩, ⟨sampleHit 100 0 60 (-80), 0, 60, 100⟩,
        ⟨sampleHit 100 0 12 (-5), 0, 12, 13⟩] : List (matchCand ℚ)),
      (⟨sampleHit 100 0 12 (-5), 0, 12, 13⟩ : matchCand ℚ).dca /
          (⟨sampleHit 100 0 12 (-5), 0, 12, 13⟩ : matchCand ℚ).extrapLen ≤
        c.dca / c.extrapLen := by
  refine ⟨by decide!, by decide!, by decide!, by decide!⟩

/-- C7, evaluated at a failing input: for the track with the two trajectory points
`(0, 0, 0)` and `(0, 0, 12)` and the hits at `(5, 0, 12)` and `(5, 0, 0)`, the candidates
carry the `dca` values not-a-number and `5`.  Under either policy the selection starts from
the first candidate and never leaves it, every comparison with not-a-number being false: the
selected candidate has no `dca ≥ 0` although the second candidate has one.  `T0FromCRTHits`
then answers `-99999` for the two hits, and the time `2` for the second hit alone. -/
theorem bestmatchIEEE_keeps_nan :
    t0CandidatesIEEE sqrtQ (sampleAlg false) sampleDetProp twoPointTrack
        (Double.fin 0, Double.fin 5) 0 [hitAt 5 0 12, hitAt 5 0 0] =
      some [⟨hitAt 5 0 12, 2, Double.nan, 5⟩, ⟨hitAt 5 0 0, 2, Double.fin 5, 5⟩] ∧
    (∃ c ∈ ([⟨hitAt 5 0 12, 2, Double.nan, 5⟩, ⟨hitAt 5 0 0, 2, Double.fin 5, 5⟩] :
        List (matchCandIEEE ℚ)), c.dca.ge (Double.fin 0) = true) ∧
    bestmatchIEEE false [⟨hitAt 5 0 12, 2, Double.nan, 5⟩, ⟨hitAt 5 0 0, 2, Double.fin 5, 5⟩] =
      ⟨hitAt 5 0 12, 2, Double.nan, 5⟩ ∧
    bestmatchIEEE true [⟨hitAt 5 0 12, 2, Double.nan, 5⟩, ⟨hitAt 5 0 0, 2, Double.fin 5, 5⟩] =
      ⟨hitAt 5 0 12, 2, Double.nan, 5⟩ ∧
    (⟨hitAt 5 0 12, 2, Double.nan, 5⟩ : matchCandIEEE ℚ).dca.ge (Double.fin 0) = false ∧
    GetClosestCRTHitIEEE sqrtQ (sampleAlg false) sampleDetProp twoPointTrack
        (Double.fin 0, Double.fin 5) [hitAt 5 0 12, hitAt 5 0 0] 0 =
      some ⟨hitAt 5 0 12, 2, Double.nan, 5⟩ ∧
    GetClosestCRTHitIEEE sqrtQ (sampleAlg true) sampleDetProp twoPointTrack
        (Double.fin 0, Double.fin 5) [hitAt 5 0 12, hitAt 5 0 0] 0 =
      some ⟨hitAt 5 0 12, 2, Double.nan, 5⟩ ∧
    T0FromCRTHitsIEEE sqrtQ (sampleAlg false) sampleUtil sampleDetProp twoPointTrack ()
        [hitAt 5 0 12, hitAt 5 0 0] = some (-99999) ∧
    T0FromCRTHitsIEEE sqrtQ (sampleAlg false) sampleUtil sampleDetProp twoPointTrack ()
        [hitAt 5 0 0] = some 2 := by
  refine ⟨by decide!, by decide!, by decide!, by decide!, by decide!, by decide!, by decide!,
    by decide!, by decide!⟩

/-- C9: the hit of every non-null result of `GetClosestCRTHit` has `peshit ≥ fPEcut` and
`x_err`, `y_err`, `z_err` all `≤ fMaxUncert`; and for a hit list made of a single hit with
`peshit < fPEcut`, `GetClosestCRTHit` answers the null candidate and `T0FromCRTHits`
answers `-99999`, whatever the position and time of the hit. -/
theorem GetClosestCRTHit_quality_gate {H : Type} (sqrt : α → α) (alg : CRTT0MatchAlg α)
    (util : TPCGeoUtil α H) (detProp : DetectorPropertiesData α) (tpcTrack : Track α) :
    (∀ t0MinMax crtHits driftDirection m,
      GetClosestCRTHit sqrt alg detProp tpcTrack t0MinMax crtHits driftDirection = some m →
      m ≠ makeNULLmc →
      alg.fPEcut ≤ m.thishit.peshit ∧ m.thishit.x_err ≤ alg.fMaxUncert ∧
        m.thishit.y_err ≤ alg.fMaxUncert ∧ m.thishit.z_err ≤ alg.fMaxUncert) ∧
    (∀ crtHit : CRTHit α, crtHit.peshit < alg.fPEcut →
      (∀ t0MinMax driftDirection,
        GetClosestCRTHit sqrt alg detProp tpcTrack t0MinMax [crtHit] driftDirection =
          some makeNULLmc) ∧
      ∀ hits, T0FromCRTHits sqrt alg util detProp tpcTrack hits [crtHit] = some (-99999)) := by
  constructor
  · intro t0MinMax crtHits driftDirection m hm hne
    rcases GetClosestCRTHit_cases sqrt alg detProp tpcTrack t0MinMax crtHits driftDirection m hm
      with ⟨h1, _⟩ | ⟨_, h2, _⟩
    · exact absurd h1 hne
    · obtain ⟨hpe, hx, hy, hz⟩ := h2.2.1
      exact ⟨not_lt.mp hpe, not_lt.mp hx, not_lt.mp hy, not_lt.mp hz⟩
  · intro crtHit hpe
    have hnull : ∀ t0MinMax driftDirection,
        GetClosestCRTHit sqrt alg detProp tpcTrack t0MinMax [crtHit] driftDirection =
          some makeNULLmc := by
      intro t0MinMax driftDirection
      have hc : t0Candidates sqrt alg detProp tpcTrack t0MinMax driftDirection [crtHit] =
          some [] := by
        rw [t0Candidates_cons_skip sqrt alg detProp tpcTrack t0MinMax driftDirection crtHit []
          (fun h => h.2.1 hpe), t0Candidates]
      exact GetClosestCRTHit_of_candidates sqrt alg detProp tpcTrack t0MinMax [crtHit]
        driftDirection [] hc
    refine ⟨hnull, ?_⟩
    intro hits
    unfold T0FromCRTHits
    split_ifs with hlen
    · rfl
    · unfold GetClosestCRTHitOfHits
      simp only []
      rw [hnull]
      simp only []
      rw [if_pos makeNULLmc_dca_neg]

/-- Witness of C9: a hit on the sample track line with light yield 10 (cut 50). -/
theorem GetClosestCRTHit_quality_gate_witness :
    (sampleHit 10 7000 0 (-3)).peshit < (sampleAlg false).fPEcut ∧
      T0FromCRTHits sqrtQ (sampleAlg false) sampleUtil sampleDetProp (sampleTrack 5 11) ()
        [sampleHit 10 7000 0 (-3)] = some (-99999) :=
  ⟨by decide!,
    ((GetClosestCRTHit_quality_gate sqrtQ (sampleAlg false) sampleUtil sampleDetProp
      (sampleTrack 5 11)).2 (sampleHit 10 7000 0 (-3)) (by decide!)).2 ()⟩

/-- C13 as stated fails: for a hit with `ts0_ns = 2147483648` (`2^31`) in clock mode 0 the
integer truncation of the timestamp is `2147483648`, but the cast through a 32-bit `int`
gives `-2147483648`, and the match stores `t0 = -2147483.648` and not `2147483.648`. -/
theorem GetClosestCRTHitIEEE_t0_wraps :
    (sampleAlg false).fTSMode ≠ 1 ∧
    GetClosestCRTHitIEEE sqrtQ (sampleAlg false) sampleDetProp (sampleTrack 5 11)
        (Double.fin 0, Double.fin 0) [sampleHit 100 2147483648 12 (-5)] 0 =
      some ⟨sampleHit 100 2147483648 12 (-5), -2147483648 / 1000, Double.fin 12, 13⟩ ∧
    (⟨sampleHit 100 2147483648 12 (-5), -2147483648 / 1000, Double.fin 12, 13⟩ :
      matchCandIEEE ℚ) ≠ makeNULLmcIEEE ∧
    integerTruncated (sampleHit 100 2147483648 12 (-5)).ts0_ns = 2147483648 ∧
    truncToInt (sampleHit 100 2147483648 12 (-5)).ts0_ns = -2147483648 ∧
    (⟨sampleHit 100 2147483648 12 (-5), -2147483648 / 1000, Double.fin 12, 13⟩ :
      matchCandIEEE ℚ).t0 ≠
      ((integerTruncated (sampleHit 100 2147483648 12 (-5)).ts0_ns : ℤ) : ℚ) * 1e-3 +
        (sampleAlg false).fTimeCorrection := by
  refine ⟨by decide!, by decide!, by decide!, by decide!, by decide!, by decide!⟩

/-- C13, amended: every non-null result `m` of `GetClosestCRTHit` carries a hit of the list
and has `m.t0` equal to the corrected time of that hit; when the integer truncation of the
timestamp fits a 32-bit `int`, this is the integer-truncated `ts1_ns` times `1e-3` plus
`fTimeCorrection` when `fTSMode = 1`, and the same with `ts0_ns` for every other
`fTSMode`. -/
theorem GetClosestCRTHitIEEE_t0 (sqrt : α → α) (alg : CRTT0MatchAlg α)
    (detProp : DetectorPropertiesData α) (tpcTrack : Track α) (t0MinMax : Double α × Double α)
    (crtHits : List (CRTHit α)) (driftDirection : ℤ) (m : matchCandIEEE α)
    (h : GetClosestCRTHitIEEE sqrt alg detProp tpcTrack t0MinMax crtHits driftDirection =
      some m)
    (hne : m ≠ makeNULLmcIEEE) :
    m.thishit ∈ crtHits ∧ m.t0 = crtTime alg m.thishit ∧
    (alg.fTSMode = 1 → -2147483648 ≤ integerTruncated m.thishit.ts1_ns →
      integerTruncated m.thishit.ts1_ns < 2147483648 →
      m.t0 = ((integerTruncated m.thishit.ts1_ns : ℤ) : α) * 1e-3 + alg.fTimeCorrection) ∧
    (alg.fTSMode ≠ 1 → -2147483648 ≤ integerTruncated m.thishit.ts0_ns →
      integerTruncated m.thishit.ts0_ns < 2147483648 →
      m.t0 = ((integerTruncated m.thishit.ts0_ns : ℤ) : α) * 1e-3 + alg.fTimeCorrection) := by
  rcases GetClosestCRTHitIEEE_cases sqrt alg detProp tpcTrack t0MinMax crtHits driftDirection
    m h with h1 | ⟨h1, h3, _⟩
  · exact absurd h1 hne
  · refine ⟨h1, h3, fun hmode hlo hhi => ?_, fun hmode hlo hhi => ?_⟩
    · rw [h3, crtTime, if_pos hmode, truncToInt_of_range _ hlo hhi]
    · rw [h3, crtTime, if_neg hmode, truncToInt_of_range _ hlo hhi]

/-- Witness of C13 amended: a hit with `ts0_ns = 2000.7` is matched with `t0 = 2` in clock
mode 0. -/
theorem GetClosestCRTHitIEEE_t0_witness :
    GetClosestCRTHitIEEE sqrtQ (sampleAlg false) sampleDetProp (sampleTrack 5 11)
        (Double.fin 0, Double.fin 5) [sampleHit 100 (20007 / 10) 12 (-5)] 0 =
      some ⟨sampleHit 100 (20007 / 10) 12 (-5), 2, Double.fin 12, 13⟩ ∧
    (⟨sampleHit 100 (20007 / 10) 12 (-5), 2, Double.fin 12, 13⟩ : matchCandIEEE ℚ) ≠
      makeNULLmcIEEE ∧
    (sampleAlg false).fTSMode ≠ 1 ∧
    integerTruncated (sampleHit 100 (20007 / 10) 12 (-5)).ts0_ns = 2000 ∧
    (⟨sampleHit 100 (20007 / 10) 12 (-5), 2, Double.fin 12, 13⟩ : matchCandIEEE ℚ).t0 =
      ((integerTruncated (⟨sampleHit 100 (20007 / 10) 12 (-5), 2, Double.fin 12, 13⟩ :
        matchCandIEEE ℚ).thishit.ts0_ns : ℤ) : ℚ) * 1e-3 + (sampleAlg false).fTimeCorrection :=
  ⟨by decide!, by decide!, by decide!, by decide!,
    (GetClosestCRTHitIEEE_t0 sqrtQ (sampleAlg false) sampleDetProp (sampleTrack 5 11)
      (Double.fin 0, Double.fin 5) [sampleHit 100 (20007 / 10) 12 (-5)] 0 _ (by decide!)
      (by decide!)).2.2.2 (by decide!) (by decide!) (by decide!)⟩

omit [FloorRing α] in
/-- C15: with `driftDirection = 0`, `TrackT0Range` answers exactly `(0, 0)` for every track
extent, pair of x limits and drift velocity. -/
theorem TrackT0Range_stitched (detProp : DetectorPropertiesData α) (startX endX : α)
    (xLimits : α × α) : TrackT0Range detProp startX endX 0 xLimits = (0, 0) := by
  unfold TrackT0Range
  rw [if_pos rfl]

omit [FloorRing α] in
/-- C16: for a non-zero signed velocity `v = driftDirection * DriftVelocity` and a track
whose x extent fits between the limits, the window answered by `TrackT0Range` is exactly
the set of times `t` for which the track shifted by `v * t` stays within the limits. -/
theorem TrackT0Range_window (detProp : DetectorPropertiesData α) (startX endX : α)
    (driftDirection : ℤ) (xLimits : α × α)
    (hv : (driftDirection : α) * detProp.DriftVelocity ≠ 0)
    (hfit : max startX endX - min startX endX ≤
      max xLimits.1 xLimits.2 - min xLimits.1 xLimits.2) (t : α) :
    ((TrackT0Range detProp startX endX driftDirection xLimits).1 ≤ t ∧
        t ≤ (TrackT0Range detProp startX endX driftDirection xLimits).2) ↔
      (min xLimits.1 xLimits.2 ≤
          min startX endX + (driftDirection : α) * detProp.DriftVelocity * t ∧
        max startX endX + (driftDirection : α) * detProp.DriftVelocity * t ≤
          max xLimits.1 xLimits.2) := by
  have hdd : driftDirection ≠ 0 := by
    intro h
    rw [h] at hv
    simp at hv
  unfold TrackT0Range
  rw [if_neg hdd]
  simp only []
  generalize (driftDirection : α) * detProp.DriftVelocity = v at hv ⊢
  generalize max startX endX = maxX at hfit ⊢
  generalize min startX endX = minX at hfit ⊢
  generalize max xLimits.1 xLimits.2 = maxLimit at hfit ⊢
  generalize min xLimits.1 xLimits.2 = minLimit at hfit ⊢
  have hshift : minLimit - minX ≤ maxLimit - maxX := by linarith
  rcases lt_or_gt_of_ne hv with hneg | hpos
  · have hle : (maxLimit - maxX) / v ≤ (minLimit - minX) / v :=
      div_le_div_of_nonpos_of_le (le_of_lt hneg) hshift
    rw [min_eq_right hle, max_eq_left hle, div_le_iff_of_neg hneg, le_div_iff_of_neg hneg]
    constructor
    · rintro ⟨h1, h2⟩
      constructor <;> nlinarith
    · rintro ⟨h1, h2⟩
      constructor <;> nlinarith
  · have hle : (minLimit - minX) / v ≤ (maxLimit - maxX) / v :=
      div_le_div_of_nonneg_right hshift (le_of_lt hpos)
    rw [min_eq_left hle, max_eq_right hle, div_le_iff₀ hpos, le_div_iff₀ hpos]
    constructor
    · rintro ⟨h1, h2⟩
      constructor <;> nlinarith
    · rintro ⟨h1, h2⟩
      constructor <;> nlinarith

/-- Witness of C16: a track from `x = 2` to `x = 5` between the limits `0` and `10`, drifting
with velocity `1`; the window is `[-2, 5]` and `t = 1` lies in it. -/
theorem TrackT0Range_window_witness :
    ((1 : ℤ) : ℚ) * sampleDetProp.DriftVelocity ≠ 0 ∧
    max (2 : ℚ) 5 - min 2 5 ≤ max ((0 : ℚ), (10 : ℚ)).1 ((0 : ℚ), (10 : ℚ)).2 -
      min ((0 : ℚ), (10 : ℚ)).1 ((0 : ℚ), (10 : ℚ)).2 ∧
    (((TrackT0Range sampleDetProp 2 5 1 (0, 10)).1 ≤ 1 ∧
        1 ≤ (TrackT0Range sampleDetProp 2 5 1 (0, 10)).2) ↔
      (min ((0 : ℚ), (10 : ℚ)).1 ((0 : ℚ), (10 : ℚ)).2 ≤
          min (2 : ℚ) 5 + ((1 : ℤ) : ℚ) * sampleDetProp.DriftVelocity * 1 ∧
        max (2 : ℚ) 5 + ((1 : ℤ) : ℚ) * sampleDetProp.DriftVelocity * 1 ≤
          max ((0 : ℚ), (10 : ℚ)).1 ((0 : ℚ), (10 : ℚ)).2)) :=
  ⟨by decide!, by decide!,
    TrackT0Range_window sampleDetProp 2 5 1 (0, 10) (by decide!) (by decide!) 1⟩

omit [FloorRing α] in
/-- C17: for a non-zero drift direction and a non-zero drift velocity, when the most positive
track end lies on the most positive x limit and the most negative end on the most negative
limit, `TrackT0Range` answers `(0, 0)`. -/
theorem TrackT0Range_on_limits (detProp : DetectorPropertiesData α) (startX endX : α)
    (driftDirection : ℤ) (xLimits : α × α) (hdd : driftDirection ≠ 0)
    (hvel : detProp.DriftVelocity ≠ 0)
    (hmax : max startX endX = max xLimits.1 xLimits.2)
    (hmin : min startX endX = min xLimits.1 xLimits.2) :
    TrackT0Range detProp startX endX driftDirection xLimits = (0, 0) := by
  have hv : (driftDirection : α) * detProp.DriftVelocity ≠ 0 :=
    mul_ne_zero (Int.cast_ne_zero.mpr hdd) hvel
  unfold TrackT0Range
  rw [if_neg hdd]
  simp only []
  have h0 : (0 : α) / ((driftDirection : α) * detProp.DriftVelocity) = 0 :=
    (div_eq_iff hv).mpr (zero_mul _).symm
  rw [hmax, hmin, sub_self, sub_self, h0, min_self, max_self]

/-- Witness of C17: `startX = 0`, `endX = 10`, `driftDirection = 1`, limits `(0, 10)`. -/
theorem TrackT0Range_on_limits_witness :
    (1 : ℤ) ≠ 0 ∧ sampleDetProp.DriftVelocity ≠ 0 ∧
    max (0 : ℚ) 10 = max ((0 : ℚ), (10 : ℚ)).1 ((0 : ℚ), (10 : ℚ)).2 ∧
    min (0 : ℚ) 10 = min ((0 : ℚ), (10 : ℚ)).1 ((0 : ℚ), (10 : ℚ)).2 ∧
    TrackT0Range sampleDetProp 0 10 1 (0, 10) = (0, 0) :=
  ⟨by decide, by decide!, by decide!, by decide!,
    TrackT0Range_on_limits sampleDetProp 0 10 1 (0, 10) (by decide) (by decide!) (by decide!)
      (by decide!)⟩

/-- C18: for a non-zero direction `d`, `SimpleDCA(hit, s, d)` is
`|(p - s) × (p - (s + d))| / |d|`, and this is the distance from the hit position `p` to
the infinite line `{s + t d}`: it is attained at some `t` and is at most the distance from
`p` to every point of the line. -/
theorem SimpleDCA_perpendicular (hit : CRTHit ℝ) (start direction : TVector3 ℝ)
    (hd : direction ≠ ⟨0, 0, 0⟩) :
    SimpleDCA Real.sqrt hit start direction =
      (((⟨hit.x_pos, hit.y_pos, hit.z_pos⟩ : TVector3 ℝ) - start).Cross
        ((⟨hit.x_pos, hit.y_pos, hit.z_pos⟩ : TVector3 ℝ) - (start + direction))).Mag
          Real.sqrt / direction.Mag Real.sqrt ∧
    (∃ t : ℝ, SimpleDCA Real.sqrt hit start direction =
      ((⟨hit.x_pos, hit.y_pos, hit.z_pos⟩ : TVector3 ℝ) -
        (start + TVector3.smul t direction)).Mag Real.sqrt) ∧
    (∀ t : ℝ, SimpleDCA Real.sqrt hit start direction ≤
      ((⟨hit.x_pos, hit.y_pos, hit.z_pos⟩ : TVector3 ℝ) -
        (start + TVector3.smul t direction)).Mag Real.sqrt) := by
  have hM : 0 < direction.Mag2 := TVector3.Mag2_pos direction hd
  have hval : ∀ t : ℝ, SimpleDCA Real.sqrt hit start direction =
      Real.sqrt (((⟨hit.x_pos, hit.y_pos, hit.z_pos⟩ : TVector3 ℝ) -
          (start + TVector3.smul t direction)).Mag2 -
        (t * direction.Mag2 - ((⟨hit.x_pos, hit.y_pos, hit.z_pos⟩ : TVector3 ℝ) - start).Dot
          direction) ^ 2 / direction.Mag2) := by
    intro t
    have hid := SimpleDCA_identity ⟨hit.x_pos, hit.y_pos, hit.z_pos⟩ start direction t
    unfold SimpleDCA TVector3.Mag
    simp only []
    rw [← Real.sqrt_div (TVector3.Mag2_nonneg _)]
    congr 1
    field_simp
    linarith
  refine ⟨rfl, ⟨((⟨hit.x_pos, hit.y_pos, hit.z_pos⟩ : TVector3 ℝ) - start).Dot direction /
    direction.Mag2, ?_⟩, fun t => ?_⟩
  · rw [hval (((⟨hit.x_pos, hit.y_pos, hit.z_pos⟩ : TVector3 ℝ) - start).Dot direction /
      direction.Mag2)]
    unfold TVector3.Mag
    congr 1
    rw [div_mul_cancel₀ _ (ne_of_gt hM)]
    simp
  · rw [hval t]
    unfold TVector3.Mag
    apply Real.sqrt_le_sqrt
    have : 0 ≤ (t * direction.Mag2 - ((⟨hit.x_pos, hit.y_pos, hit.z_pos⟩ : TVector3 ℝ) -
        start).Dot direction) ^ 2 / direction.Mag2 := div_nonneg (sq_nonneg _) (le_of_lt hM)
    linarith

/-- Witness of C18: the hit at `(12, 0, -5)` and the line through the origin along z. -/
theorem SimpleDCA_perpendicular_witness :
    (⟨0, 0, 1⟩ : TVector3 ℝ) ≠ ⟨0, 0, 0⟩ ∧
    ∀ t : ℝ, SimpleDCA Real.sqrt ⟨100, 0, 0, 12, 1, 0, 1, -5, 1⟩ ⟨0, 0, 0⟩ ⟨0, 0, 1⟩ ≤
      ((⟨(⟨100, 0, 0, 12, 1, 0, 1, -5, 1⟩ : CRTHit ℝ).x_pos,
          (⟨100, 0, 0, 12, 1, 0, 1, -5, 1⟩ : CRTHit ℝ).y_pos,
          (⟨100, 0, 0, 12, 1, 0, 1, -5, 1⟩ : CRTHit ℝ).z_pos⟩ : TVector3 ℝ) -
        (⟨0, 0, 0⟩ + TVector3.smul t ⟨0, 0, 1⟩)).Mag Real.sqrt :=
  ⟨by simp,
    (SimpleDCA_perpendicular ⟨100, 0, 0, 12, 1, 0, 1, -5, 1⟩ ⟨0, 0, 0⟩ ⟨0, 0, 1⟩ (by simp)).2.2⟩

/-- C19: for a non-zero direction `d`, `SimpleDCA(hit, s, d)` is zero if and only if the hit
position lies on the infinite line through `s` with direction `d`. -/
theorem SimpleDCA_eq_zero_iff (hit : CRTHit ℝ) (start direction : TVector3 ℝ)
    (hd : direction ≠ ⟨0, 0, 0⟩) :
    SimpleDCA Real.sqrt hit start direction = 0 ↔
      ∃ t : ℝ, (⟨hit.x_pos, hit.y_pos, hit.z_pos⟩ : TVector3 ℝ) =
        start + TVector3.smul t direction := by
  have hM : 0 < direction.Mag2 := TVector3.Mag2_pos direction hd
  have hsM : 0 < Real.sqrt direction.Mag2 := Real.sqrt_pos.mpr hM
  have hzero : SimpleDCA Real.sqrt hit start direction = 0 ↔
      (((⟨hit.x_pos, hit.y_pos, hit.z_pos⟩ : TVector3 ℝ) - start).Cross
        ((⟨hit.x_pos, hit.y_pos, hit.z_pos⟩ : TVector3 ℝ) - (start + direction))).Mag2 = 0 := by
    unfold SimpleDCA TVector3.Mag
    simp only []
    rw [div_eq_zero_iff, Real.sqrt_eq_zero (TVector3.Mag2_nonneg _)]
    exact ⟨fun h => h.resolve_right (ne_of_gt hsM), Or.inl⟩
  rw [hzero]
  constructor
  · intro hN
    refine ⟨((⟨hit.x_pos, hit.y_pos, hit.z_pos⟩ : TVector3 ℝ) - start).Dot direction /
      direction.Mag2, ?_⟩
    have hid := SimpleDCA_identity ⟨hit.x_pos, hit.y_pos, hit.z_pos⟩ start direction
      (((⟨hit.x_pos, hit.y_pos, hit.z_pos⟩ : TVector3 ℝ) - start).Dot direction /
        direction.Mag2)
    rw [hN, div_mul_cancel₀ _ (ne_of_gt hM), sub_self] at hid
    have h0 : ((⟨hit.x_pos, hit.y_pos, hit.z_pos⟩ : TVector3 ℝ) - (start + TVector3.smul
        (((⟨hit.x_pos, hit.y_pos, hit.z_pos⟩ : TVector3 ℝ) - start).Dot direction /
          direction.Mag2) direction)).Mag2 = 0 := by
      rcases mul_eq_zero.mp (hid.trans (by norm_num)) with h | h
      · exact absurd h (ne_of_gt hM)
      · exact h
    have hv := TVector3.eq_zero_of_Mag2 _ h0
    have hx := congrArg TVector3.X hv
    have hy := congrArg TVector3.Y hv
    have hz := congrArg TVector3.Z hv
    simp only [TVector3.sub_X, TVector3.sub_Y, TVector3.sub_Z] at hx hy hz
    generalize start + TVector3.smul (((⟨hit.x_pos, hit.y_pos, hit.z_pos⟩ : TVector3 ℝ) -
      start).Dot direction / direction.Mag2) direction = q at hx hy hz ⊢
    obtain ⟨qx, qy, qz⟩ := q
    simp only [TVector3.mk.injEq]
    simp only [] at hx hy hz
    exact ⟨by linarith, by linarith, by linarith⟩
  · rintro ⟨t, ht⟩
    rw [ht]
    simp only [TVector3.Mag2, TVector3.Cross, TVector3.add_X, TVector3.add_Y,
      TVector3.add_Z, TVector3.sub_X, TVector3.sub_Y, TVector3.sub_Z, TVector3.smul_X,
      TVector3.smul_Y, TVector3.smul_Z]
    ring

/-- Witness of C19: the hit at `(0, 0, -3)` lies on the line through the origin along z, and
its `SimpleDCA` is zero. -/
theorem SimpleDCA_eq_zero_iff_witness :
    (⟨0, 0, 1⟩ : TVector3 ℝ) ≠ ⟨0, 0, 0⟩ ∧
    SimpleDCA Real.sqrt ⟨100, 0, 0, 0, 1, 0, 1, -3, 1⟩ ⟨0, 0, 0⟩ ⟨0, 0, 1⟩ = 0 :=
  ⟨by simp,
    (SimpleDCA_eq_zero_iff ⟨100, 0, 0, 0, 1, 0, 1, -3, 1⟩ ⟨0, 0, 0⟩ ⟨0, 0, 1⟩ (by simp)).mpr
      ⟨-3, by rw [TVector3.eq_iff]; simp⟩⟩

/-- C20, evaluated at a failing input: for the segment from `(0, 0, 0)` to `(2, 0, 0)` and
the line through `(1, 0, 1)` and `(1, 1, 1)`, `LineSegmentDistance` answers `5/4` (with the
exact rational square root and with the real one), although the segment point `(1, 0, 0)`
(parameter `1/2`) and the line point `(1, 0, 1)` (parameter `0`) are at distance `1`. -/
theorem LineSegmentDistance_not_minimal :
    LineSegmentDistance sqrtQ ⟨0, 0, 0⟩ ⟨2, 0, 0⟩ ⟨1, 0, 1⟩ ⟨1, 1, 1⟩ = 5 / 4 ∧
    LineSegmentDistance Real.sqrt ⟨0, 0, 0⟩ ⟨2, 0, 0⟩ ⟨1, 0, 1⟩ ⟨1, 1, 1⟩ = 5 / 4 ∧
    (0 : ℝ) ≤ 1 / 2 ∧ (1 / 2 : ℝ) ≤ 1 ∧
    (((⟨0, 0, 0⟩ : TVector3 ℝ) +
        TVector3.smul (1 / 2) ((⟨2, 0, 0⟩ : TVector3 ℝ) - (⟨0, 0, 0⟩ : TVector3 ℝ))) -
      ((⟨1, 0, 1⟩ : TVector3 ℝ) +
        TVector3.smul 0 ((⟨1, 1, 1⟩ : TVector3 ℝ) - (⟨1, 0, 1⟩ : TVector3 ℝ)))).Mag
          Real.sqrt = 1 ∧
    (1 : ℝ) < 5 / 4 := by
  have h : Real.sqrt (25 / 16) = 5 / 4 := by
    rw [show (25 / 16 : ℝ) = (5 / 4) ^ 2 by norm_num]
    exact Real.sqrt_sq (by norm_num)
  have habs : |(1 / 2 : ℝ)| = 1 / 2 := abs_of_pos (by norm_num)
  refine ⟨by decide!, ?_, by norm_num, by norm_num, ?_, by norm_num⟩
  · simp only [LineSegmentDistance, TVector3.Dot, TVector3.Mag, TVector3.Mag2, TVector3.sub_X,
      TVector3.sub_Y, TVector3.sub_Z, TVector3.add_X, TVector3.add_Y, TVector3.add_Z,
      TVector3.smul_X, TVector3.smul_Y, TVector3.smul_Z]
    norm_num [habs]
    rw [← Real.sqrt_div (by norm_num)]
    exact h
  · simp only [TVector3.Mag, TVector3.Mag2, TVector3.sub_X, TVector3.sub_Y, TVector3.sub_Z,
      TVector3.add_X, TVector3.add_Y, TVector3.add_Z, TVector3.smul_X, TVector3.smul_Y,
      TVector3.smul_Z]
    norm_num

end Claims

/-! ## The geometric primitives -/

section SegmentLineClaims

variable {α : Type} [LinearOrderedField α]

/-- C21 as stated fails: the segment from `(0, 0, 0)` to `(1, 0, 0)` and the line through
`(1/1000000, 0, 0)` and `(1/1000000, 1, 0)` have the point `(1/1000000, 0, 0)` in common,
but `LineSegmentDistance` answers `1/1000000`, not `0` (the segment parameter `1/1000000`
is below the tolerance `0.00001` and is replaced by `0`). -/
theorem LineSegmentDistance_common_point_nonzero :
    LineSegmentDistance sqrtQ ⟨0, 0, 0⟩ ⟨1, 0, 0⟩ ⟨1 / 1000000, 0, 0⟩ ⟨1 / 1000000, 1, 0⟩ =
      1 / 1000000 ∧
    LineSegmentDistance Real.sqrt ⟨0, 0, 0⟩ ⟨1, 0, 0⟩ ⟨1 / 1000000, 0, 0⟩ ⟨1 / 1000000, 1, 0⟩ =
      1 / 1000000 ∧
    (1 / 1000000 : ℝ) ≠ 0 ∧ (0 : ℝ) ≤ 1 / 1000000 ∧ (1 / 1000000 : ℝ) ≤ 1 ∧
    (⟨0, 0, 0⟩ : TVector3 ℝ) + TVector3.smul (1 / 1000000)
        ((⟨1, 0, 0⟩ : TVector3 ℝ) - (⟨0, 0, 0⟩ : TVector3 ℝ)) =
      (⟨1 / 1000000, 0, 0⟩ : TVector3 ℝ) + TVector3.smul 0
        ((⟨1 / 1000000, 1, 0⟩ : TVector3 ℝ) - (⟨1 / 1000000, 0, 0⟩ : TVector3 ℝ)) ∧
    (⟨1 / 1000000, 0, 0⟩ : TVector3 ℝ) ≠ ⟨1 / 1000000, 1, 0⟩ := by
  have h : Real.sqrt (1 / 1000000000000) = 1 / 1000000 := by
    rw [show (1 / 1000000000000 : ℝ) = (1 / 1000000) ^ 2 by norm_num]
    exact Real.sqrt_sq (by norm_num)
  have habs : |(1 / 1000000 : ℝ)| = 1 / 1000000 := abs_of_pos (by norm_num)
  refine ⟨by decide!, ?_, by norm_num, by norm_num, by norm_num, ?_, ?_⟩
  · simp only [LineSegmentDistance, TVector3.Dot, TVector3.Mag, TVector3.Mag2, TVector3.sub_X,
      TVector3.sub_Y, TVector3.sub_Z, TVector3.add_X, TVector3.add_Y, TVector3.add_Z,
      TVector3.smul_X, TVector3.smul_Y, TVector3.smul_Z]
    norm_num [habs]
    rw [← h]
    norm_num
  · rw [TVector3.eq_iff]
    simp
  · intro hne
    have := congrArg TVector3.Y hne
    norm_num at this

/-- C21, amended: for every segment and every line through two distinct points, if
`LineSegmentDistance` answers `0` then the segment and the line have a common point. -/
theorem LineSegmentDistance_zero_imp_common_point (start1 end1 start2 end2 : TVector3 ℝ)
    (hline : start2 ≠ end2)
    (h : LineSegmentDistance Real.sqrt start1 end1 start2 end2 = 0) :
    ∃ s t : ℝ, 0 ≤ s ∧ s ≤ 1 ∧
      start1 + TVector3.smul s (end1 - start1) = start2 + TVector3.smul t (end2 - start2) := by
  have _hline := hline
  exact LineSegmentDistance_eq_zero start1 end1 start2 end2 h

/-- Witness of C21 amended: the segment from the origin to `(1, 0, 0)` and the y axis. -/
theorem LineSegmentDistance_zero_imp_common_point_witness :
    (⟨0, 0, 0⟩ : TVector3 ℝ) ≠ ⟨0, 1, 0⟩ ∧
    LineSegmentDistance Real.sqrt ⟨0, 0, 0⟩ ⟨1, 0, 0⟩ ⟨0, 0, 0⟩ ⟨0, 1, 0⟩ = 0 ∧
    ∃ s t : ℝ, 0 ≤ s ∧ s ≤ 1 ∧
      (⟨0, 0, 0⟩ : TVector3 ℝ) + TVector3.smul s
          ((⟨1, 0, 0⟩ : TVector3 ℝ) - (⟨0, 0, 0⟩ : TVector3 ℝ)) =
        (⟨0, 0, 0⟩ : TVector3 ℝ) + TVector3.smul t
          ((⟨0, 1, 0⟩ : TVector3 ℝ) - (⟨0, 0, 0⟩ : TVector3 ℝ)) :=
  have hne : (⟨0, 0, 0⟩ : TVector3 ℝ) ≠ ⟨0, 1, 0⟩ := by
    intro h
    have := congrArg TVector3.Y h
    norm_num at this
  have hval : LineSegmentDistance Real.sqrt ⟨0, 0, 0⟩ ⟨1, 0, 0⟩ ⟨0, 0, 0⟩ ⟨0, 1, 0⟩ = 0 := by
    simp only [LineSegmentDistance, TVector3.Dot, TVector3.Mag, TVector3.Mag2, TVector3.sub_X,
      TVector3.sub_Y, TVector3.sub_Z, TVector3.add_X, TVector3.add_Y, TVector3.add_Z,
      TVector3.smul_X, TVector3.smul_Y, TVector3.smul_Z]
    norm_num
  ⟨hne, hval, LineSegmentDistance_zero_imp_common_point _ _ _ _ hne hval⟩

/-- C22: for a non-zero line direction, the value of `LineSegmentDistance` is the distance
between the segment point `P(sc)` for some `sc` in `[0, 1]` and a line point `Q(tc)`; so it
is not negative and not below any lower bound of the segment-to-line distances. -/
theorem LineSegmentDistance_realised (sqrt : α → α) (hsqrt : ∀ x, 0 ≤ sqrt x)
    (start1 end1 start2 end2 : TVector3 α) (hdir : end2 - start2 ≠ ⟨0, 0, 0⟩) :
    (∃ sc tc : α, 0 ≤ sc ∧ sc ≤ 1 ∧
      LineSegmentDistance sqrt start1 end1 start2 end2 =
        ((start1 + TVector3.smul sc (end1 - start1)) -
          (start2 + TVector3.smul tc (end2 - start2))).Mag sqrt) ∧
    0 ≤ LineSegmentDistance sqrt start1 end1 start2 end2 ∧
    ∀ m : α, (∀ s t : α, 0 ≤ s → s ≤ 1 →
        m ≤ ((start1 + TVector3.smul s (end1 - start1)) -
          (start2 + TVector3.smul t (end2 - start2))).Mag sqrt) →
      m ≤ LineSegmentDistance sqrt start1 end1 start2 end2 := by
  have _hdir := hdir
  have hp := LineSegmentDistance_params sqrt start1 end1 start2 end2
  refine ⟨hp, LineSegmentDistance_nonneg sqrt hsqrt _ _ _ _, ?_⟩
  intro m hm
  obtain ⟨sc, tc, h0, h1, hval⟩ := hp
  rw [hval]
  exact hm sc tc h0 h1

/-- Witness of C22: the segment from the origin to `(2, 0, 0)` and the line through
`(1, 0, 1)` and `(1, 1, 1)`, with the rational square root. -/
theorem LineSegmentDistance_realised_witness :
    (∀ x, 0 ≤ sqrtQ x) ∧
    (⟨1, 1, 1⟩ : TVector3 ℚ) - ⟨1, 0, 1⟩ ≠ ⟨0, 0, 0⟩ ∧
    0 ≤ LineSegmentDistance sqrtQ ⟨0, 0, 0⟩ ⟨2, 0, 0⟩ ⟨1, 0, 1⟩ ⟨1, 1, 1⟩ :=
  ⟨sqrtQ_nonneg, by decide!,
    (LineSegmentDistance_realised sqrtQ sqrtQ_nonneg ⟨0, 0, 0⟩ ⟨2, 0, 0⟩ ⟨1, 0, 1⟩ ⟨1, 1, 1⟩
      (by decide!)).2.1⟩

end SegmentLineClaims

section BoxClaims

variable {α : Type} [LinearOrderedField α]

/-- C23 as stated fails: for the box reduced to the point `(-99999, -99999, -99999)` and the
line through that point with direction `(1, 1, 1)`, `CubeIntersection` answers the sentinel
pair although the line has a point (parameter `0`) in the box. -/
theorem CubeIntersection_sentinel_collision :
    CubeIntersection (⟨-99999, -99999, -99999⟩ : TVector3 ℚ) ⟨-99999, -99999, -99999⟩
        ⟨-99999, -99999, -99999⟩ ⟨-99998, -99998, -99998⟩ =
      (⟨-99999, -99999, -99999⟩, ⟨-99999, -99999, -99999⟩) ∧
    inBox (⟨-99999, -99999, -99999⟩ : TVector3 ℚ) ⟨-99999, -99999, -99999⟩
      (⟨-99999, -99999, -99999⟩ + TVector3.smul 0
        ((⟨-99998, -99998, -99998⟩ : TVector3 ℚ) - ⟨-99999, -99999, -99999⟩)) ∧
    ((⟨-99998, -99998, -99998⟩ : TVector3 ℚ) - ⟨-99999, -99999, -99999⟩).X ≠ 0 ∧
    ((⟨-99998, -99998, -99998⟩ : TVector3 ℚ) - ⟨-99999, -99999, -99999⟩).Y ≠ 0 ∧
    ((⟨-99998, -99998, -99998⟩ : TVector3 ℚ) - ⟨-99999, -99999, -99999⟩).Z ≠ 0 := by
  refine ⟨by decide!, by decide!, by decide!, by decide!, by decide!⟩

/-- C23, amended: for a box with `min ≤ max` on each axis and a line whose direction has no
zero component, `CubeIntersection` answers the sentinel pair if and only if the line has no
point in the closed box other than the point `(-99999, -99999, -99999)` itself. -/
theorem CubeIntersection_sentinel_iff (min max start end_ : TVector3 α)
    (hdX : (end_ - start).X ≠ 0) (hdY : (end_ - start).Y ≠ 0) (hdZ : (end_ - start).Z ≠ 0)
    (hbX : min.X ≤ max.X) (hbY : min.Y ≤ max.Y) (hbZ : min.Z ≤ max.Z) :
    CubeIntersection min max start end_ =
        (⟨-99999, -99999, -99999⟩, ⟨-99999, -99999, -99999⟩) ↔
      ∀ t : α, inBox min max (start + TVector3.smul t (end_ - start)) →
        start + TVector3.smul t (end_ - start) = ⟨-99999, -99999, -99999⟩ := by
  obtain ⟨tmin, tmax, hbox, hcube, _, _⟩ :=
    CubeIntersection_slab min max start end_ hdX hdY hdZ hbX hbY hbZ
  rw [hcube]
  by_cases hle : tmin ≤ tmax
  · rw [if_pos hle]
    constructor
    · intro h t ht
      have h1 := congrArg Prod.fst h
      have h2 := congrArg Prod.snd h
      simp only [] at h1 h2
      have hx1 := congrArg TVector3.X h1
      have hx2 := congrArg TVector3.X h2
      simp only [TVector3.add_X, TVector3.smul_X] at hx1 hx2
      have heq : tmin = tmax := by
        have : (tmin - tmax) * (end_ - start).X = 0 := by linarith
        rcases mul_eq_zero.mp this with h3 | h3
        · linarith
        · exact absurd h3 hdX
      have htt := (hbox t).mpr ht
      have : t = tmin := le_antisymm (by rw [heq]; exact htt.2) htt.1
      rw [this]
      exact h1
    · intro h
      have h1 := h tmin ((hbox tmin).mp ⟨le_refl _, hle⟩)
      have h2 := h tmax ((hbox tmax).mp ⟨hle, le_refl _⟩)
      rw [h1, h2]
  · rw [if_neg hle]
    refine ⟨fun _ t ht => ?_, fun _ => rfl⟩
    have htt := (hbox t).mpr ht
    exact absurd (le_trans htt.1 htt.2) hle

/-- Witness of C23 amended: the unit box and a line that passes beside it. -/
theorem CubeIntersection_sentinel_iff_witness :
    ((⟨6, 1, 1⟩ : TVector3 ℚ) - ⟨5, 0, 0⟩).X ≠ 0 ∧
    ((⟨6, 1, 1⟩ : TVector3 ℚ) - ⟨5, 0, 0⟩).Y ≠ 0 ∧
    ((⟨6, 1, 1⟩ : TVector3 ℚ) - ⟨5, 0, 0⟩).Z ≠ 0 ∧
    (⟨0, 0, 0⟩ : TVector3 ℚ).X ≤ (⟨1, 1, 1⟩ : TVector3 ℚ).X ∧
    (⟨0, 0, 0⟩ : TVector3 ℚ).Y ≤ (⟨1, 1, 1⟩ : TVector3 ℚ).Y ∧
    (⟨0, 0, 0⟩ : TVector3 ℚ).Z ≤ (⟨1, 1, 1⟩ : TVector3 ℚ).Z ∧
    CubeIntersection (⟨0, 0, 0⟩ : TVector3 ℚ) ⟨1, 1, 1⟩ ⟨5, 0, 0⟩ ⟨6, 1, 1⟩ =
      (⟨-99999, -99999, -99999⟩, ⟨-99999, -99999, -99999⟩) ∧
    ∀ t : ℚ, inBox (⟨0, 0, 0⟩ : TVector3 ℚ) ⟨1, 1, 1⟩
        (⟨5, 0, 0⟩ + TVector3.smul t ((⟨6, 1, 1⟩ : TVector3 ℚ) - ⟨5, 0, 0⟩)) →
      ⟨5, 0, 0⟩ + TVector3.smul t ((⟨6, 1, 1⟩ : TVector3 ℚ) - ⟨5, 0, 0⟩) =
        (⟨-99999, -99999, -99999⟩ : TVector3 ℚ) :=
  ⟨by decide!, by decide!, by decide!, by decide!, by decide!, by decide!, by decide!,
    (CubeIntersection_sentinel_iff (⟨0, 0, 0⟩ : TVector3 ℚ) ⟨1, 1, 1⟩ ⟨5, 0, 0⟩ ⟨6, 1, 1⟩
      (by decide!) (by decide!) (by decide!) (by decide!) (by decide!) (by decide!)).mp
      (by decide!)⟩

/-- C24: for a box with `min ≤ max` and a line without zero direction component that meets
the box, `CubeIntersection` answers `start + tmin * dir` and `start + tmax * dir` with
`tmin ≤ tmax`, where `[tmin, tmax]` is exactly the set of line parameters of the points in
the closed box; both points lie in the box on one of its bounding planes. -/
theorem CubeIntersection_meets (min max start end_ : TVector3 α)
    (hdX : (end_ - start).X ≠ 0) (hdY : (end_ - start).Y ≠ 0) (hdZ : (end_ - start).Z ≠ 0)
    (hbX : min.X ≤ max.X) (hbY : min.Y ≤ max.Y) (hbZ : min.Z ≤ max.Z)
    (hmeet : ∃ t : α, inBox min max (start + TVector3.smul t (end_ - start))) :
    ∃ tmin tmax : α, tmin ≤ tmax ∧
      CubeIntersection min max start end_ =
        (start + TVector3.smul tmin (end_ - start), start + TVector3.smul tmax (end_ - start)) ∧
      (∀ t : α, (tmin ≤ t ∧ t ≤ tmax) ↔
        inBox min max (start + TVector3.smul t (end_ - start))) ∧
      inBox min max (start + TVector3.smul tmin (end_ - start)) ∧
      onFacePlane min max (start + TVector3.smul tmin (end_ - start)) ∧
      inBox min max (start + TVector3.smul tmax (end_ - start)) ∧
      onFacePlane min max (start + TVector3.smul tmax (end_ - start)) := by
  obtain ⟨tmin, tmax, hbox, hcube, hf1, hf2⟩ :=
    CubeIntersection_slab min max start end_ hdX hdY hdZ hbX hbY hbZ
  obtain ⟨t, ht⟩ := hmeet
  have htt := (hbox t).mpr ht
  have hle : tmin ≤ tmax := le_trans htt.1 htt.2
  rw [if_pos hle] at hcube
  exact ⟨tmin, tmax, hle, hcube, hbox, (hbox tmin).mp ⟨le_refl _, hle⟩, hf1,
    (hbox tmax).mp ⟨hle, le_refl _⟩, hf2⟩

/-- Witness of C24: the unit box and its diagonal line from `(-1, -1, -1)` to `(2, 2, 2)`;
the answer is the pair of corners `(0, 0, 0)`, `(1, 1, 1)`. -/
theorem CubeIntersection_meets_witness :
    ((⟨2, 2, 2⟩ : TVector3 ℚ) - ⟨-1, -1, -1⟩).X ≠ 0 ∧
    ((⟨2, 2, 2⟩ : TVector3 ℚ) - ⟨-1, -1, -1⟩).Y ≠ 0 ∧
    ((⟨2, 2, 2⟩ : TVector3 ℚ) - ⟨-1, -1, -1⟩).Z ≠ 0 ∧
    (⟨0, 0, 0⟩ : TVector3 ℚ).X ≤ (⟨1, 1, 1⟩ : TVector3 ℚ).X ∧
    (⟨0, 0, 0⟩ : TVector3 ℚ).Y ≤ (⟨1, 1, 1⟩ : TVector3 ℚ).Y ∧
    (⟨0, 0, 0⟩ : TVector3 ℚ).Z ≤ (⟨1, 1, 1⟩ : TVector3 ℚ).Z ∧
    inBox (⟨0, 0, 0⟩ : TVector3 ℚ) ⟨1, 1, 1⟩
      (⟨-1, -1, -1⟩ + TVector3.smul (1 / 2) ((⟨2, 2, 2⟩ : TVector3 ℚ) - ⟨-1, -1, -1⟩)) ∧
    CubeIntersection (⟨0, 0, 0⟩ : TVector3 ℚ) ⟨1, 1, 1⟩ ⟨-1, -1, -1⟩ ⟨2, 2, 2⟩ =
      (⟨0, 0, 0⟩, ⟨1, 1, 1⟩) ∧
    ∃ tmin tmax : ℚ, tmin ≤ tmax ∧
      CubeIntersection (⟨0, 0, 0⟩ : TVector3 ℚ) ⟨1, 1, 1⟩ ⟨-1, -1, -1⟩ ⟨2, 2, 2⟩ =
        (⟨-1, -1, -1⟩ + TVector3.smul tmin ((⟨2, 2, 2⟩ : TVector3 ℚ) - ⟨-1, -1, -1⟩),
          ⟨-1, -1, -1⟩ + TVector3.smul tmax ((⟨2, 2, 2⟩ : TVector3 ℚ) - ⟨-1, -1, -1⟩)) :=
  ⟨by decide!, by decide!, by decide!, by decide!, by decide!, by decide!, by decide!,
    by decide!,
    (CubeIntersection_meets (⟨0, 0, 0⟩ : TVector3 ℚ) ⟨1, 1, 1⟩ ⟨-1, -1, -1⟩ ⟨2, 2, 2⟩
      (by decide!) (by decide!) (by decide!) (by decide!) (by decide!) (by decide!)
      ⟨1 / 2, by decide!⟩).imp fun _ h => h.imp fun _ h2 => ⟨h2.1, h2.2.1⟩⟩

end BoxClaims

section BoxDistanceClaims

variable {α : Type} [LinearOrderedField α]

/-- C25, evaluated at a failing input: the box of the hit at `(-99998, 0, 0)` with
uncertainties `1` is met by the line from `(-99999, 0, 0)` to `(-99997, 1, 1)` (for instance
at parameter `1/2`), and `CubeIntersection` answers the real pair of these two points, also
when evaluated with the special values of IEEE-754 (no direction component is zero); but the
entry point has x coordinate `-99999`, so that the test of `DistToCrtHit` takes the line for
a miss, goes on to the edge distances, and the answer is not `0`, in either evaluation. -/
theorem DistToCrtHit_entry_on_sentinel_plane :
    CubeIntersection (⟨-99998 - 1, 0 - 1, 0 - 1⟩ : TVector3 ℝ) ⟨-99998 + 1, 0 + 1, 0 + 1⟩
        ⟨-99999, 0, 0⟩ ⟨-99997, 1, 1⟩ = (⟨-99999, 0, 0⟩, ⟨-99997, 1, 1⟩) ∧
    CubeIntersectionIEEE (⟨-99998 - 1, 0 - 1, 0 - 1⟩ : TVector3 ℝ) ⟨-99998 + 1, 0 + 1, 0 + 1⟩
        ⟨-99999, 0, 0⟩ ⟨-99997, 1, 1⟩ =
      (TVector3.toDouble ⟨-99999, 0, 0⟩, TVector3.toDouble ⟨-99997, 1, 1⟩) ∧
    ((⟨-99999, 0, 0⟩, ⟨-99997, 1, 1⟩) : TVector3 ℝ × TVector3 ℝ) ≠
      (⟨-99999, -99999, -99999⟩, ⟨-99999, -99999, -99999⟩) ∧
    inBox (⟨-99998 - 1, 0 - 1, 0 - 1⟩ : TVector3 ℝ) ⟨-99998 + 1, 0 + 1, 0 + 1⟩
      (⟨-99999, 0, 0⟩ + TVector3.smul (1 / 2)
        ((⟨-99997, 1, 1⟩ : TVector3 ℝ) - ⟨-99999, 0, 0⟩)) ∧
    DistToCrtHit Real.sqrt ⟨100, 0, 0, -99998, 1, 0, 1, 0, 1⟩ ⟨-99999, 0, 0⟩ ⟨-99997, 1, 1⟩ ≠
      0 ∧
    DistToCrtHitIEEE Real.sqrt ⟨100, 0, 0, -99998, 1, 0, 1, 0, 1⟩
        (TVector3.toDouble ⟨-99999, 0, 0⟩) (TVector3.toDouble ⟨-99997, 1, 1⟩) ≠
      Double.fin 0 := by
  have hcube : CubeIntersection (⟨-99998 - 1, 0 - 1, 0 - 1⟩ : TVector3 ℝ)
      ⟨-99998 + 1, 0 + 1, 0 + 1⟩ ⟨-99999, 0, 0⟩ ⟨-99997, 1, 1⟩ =
        (⟨-99999, 0, 0⟩, ⟨-99997, 1, 1⟩) := by
    simp only [CubeIntersection, TVector3.sub_X, TVector3.sub_Y, TVector3.sub_Z]
    norm_num
  have hne : DistToCrtHit Real.sqrt ⟨100, 0, 0, -99998, 1, 0, 1, 0, 1⟩ ⟨-99999, 0, 0⟩
      ⟨-99997, 1, 1⟩ ≠ 0 := by
    intro h0
    rw [DistToCrtHit_x_face Real.sqrt _ _ _ (by rw [hcube]) (by norm_num) (by norm_num)] at h0
    rcases min4_eq_zero _ _ _ _ h0 with h | h | h | h
    all_goals
      obtain ⟨s, t, hs0, hs1, hpt⟩ := LineSegmentDistance_eq_zero _ _ _ _ h
      rw [TVector3.eq_iff] at hpt
      simp only [TVector3.add_X, TVector3.add_Y, TVector3.add_Z, TVector3.sub_X,
        TVector3.sub_Y, TVector3.sub_Z, TVector3.smul_X, TVector3.smul_Y, TVector3.smul_Z]
        at hpt
      obtain ⟨hx, hy, hz⟩ := hpt
      norm_num at hx hy hz
      linarith
  refine ⟨hcube, ?_, ?_, ?_, hne, ?_⟩
  · rw [CubeIntersectionIEEE_eq _ _ _ _ (by rw [TVector3.sub_X]; norm_num)
      (by rw [TVector3.sub_Y]; norm_num) (by rw [TVector3.sub_Z]; norm_num), hcube]
  · intro h
    have := congrArg (fun p => p.1.Y) h
    norm_num at this
  · unfold inBox
    simp only [TVector3.add_X, TVector3.add_Y, TVector3.add_Z, TVector3.sub_X, TVector3.sub_Y,
      TVector3.sub_Z, TVector3.smul_X, TVector3.smul_Y, TVector3.smul_Z]
    norm_num
  · rw [DistToCrtHitIEEE_eq Real.sqrt _ _ _ (by rw [TVector3.sub_X]; norm_num)
      (by rw [TVector3.sub_Y]; norm_num) (by rw [TVector3.sub_Z]; norm_num)]
    exact fun h => hne (Double.fin.inj h)

/-- C26, evaluated at a failing input: for the hit at the origin with `x_err = 2` and
`y_err = z_err = 1` and the line from `(-2, -3, -1)` to `(-3, -2, 0)`, which misses the box,
`DistToCrtHit` answers `√8`, the smallest distance to the edges of the rectangle with x held
fixed, although `x_err` is the largest uncertainty; an edge of the rectangle with y fixed is
at `√6` and an edge of the rectangle with z fixed is at `√2`, both smaller. -/
theorem DistToCrtHit_tie_takes_x_face :
    (⟨100, 0, 0, 0, 2, 0, 1, 0, 1⟩ : CRTHit ℝ).y_err =
      (⟨100, 0, 0, 0, 2, 0, 1, 0, 1⟩ : CRTHit ℝ).z_err ∧
    (⟨100, 0, 0, 0, 2, 0, 1, 0, 1⟩ : CRTHit ℝ).y_err <
      (⟨100, 0, 0, 0, 2, 0, 1, 0, 1⟩ : CRTHit ℝ).x_err ∧
    CubeIntersection (⟨0 - 2, 0 - 1, 0 - 1⟩ : TVector3 ℝ) ⟨0 + 2, 0 + 1, 0 + 1⟩
        ⟨-2, -3, -1⟩ ⟨-3, -2, 0⟩ =
      (⟨-99999, -99999, -99999⟩, ⟨-99999, -99999, -99999⟩) ∧
    DistToCrtHit Real.sqrt ⟨100, 0, 0, 0, 2, 0, 1, 0, 1⟩ ⟨-2, -3, -1⟩ ⟨-3, -2, 0⟩ =
      Real.sqrt 8 ∧
    LineSegmentDistance Real.sqrt ⟨0 - 2, 0, 0 - 1⟩ ⟨0 + 2, 0, 0 - 1⟩ ⟨-2, -3, -1⟩ ⟨-3, -2, 0⟩ =
      Real.sqrt 6 ∧
    LineSegmentDistance Real.sqrt ⟨0 - 2, 0 - 1, 0⟩ ⟨0 + 2, 0 - 1, 0⟩ ⟨-2, -3, -1⟩ ⟨-3, -2, 0⟩ =
      Real.sqrt 2 ∧
    Real.sqrt 6 < Real.sqrt 8 ∧ Real.sqrt 2 < Real.sqrt 8 := by
  have hcube : CubeIntersection (⟨0 - 2, 0 - 1, 0 - 1⟩ : TVector3 ℝ) ⟨0 + 2, 0 + 1, 0 + 1⟩
      ⟨-2, -3, -1⟩ ⟨-3, -2, 0⟩ =
        (⟨-99999, -99999, -99999⟩, ⟨-99999, -99999, -99999⟩) := by
    simp only [CubeIntersection, TVector3.sub_X, TVector3.sub_Y, TVector3.sub_Z]
    norm_num
  have e1 : LineSegmentDistance Real.sqrt (⟨0, 0 - 1, 0 - 1⟩ : TVector3 ℝ) ⟨0, 0 + 1, 0 - 1⟩
      ⟨-2, -3, -1⟩ ⟨-3, -2, 0⟩ = Real.sqrt 8 := by
    simp only [LineSegmentDistance, TVector3.Dot, TVector3.Mag, TVector3.Mag2, TVector3.sub_X,
      TVector3.sub_Y, TVector3.sub_Z, TVector3.add_X, TVector3.add_Y, TVector3.add_Z,
      TVector3.smul_X, TVector3.smul_Y, TVector3.smul_Z]
    congr 1
    norm_num [abs_lt]
  have e2 : LineSegmentDistance Real.sqrt (⟨0, 0 - 1, 0 - 1⟩ : TVector3 ℝ) ⟨0, 0 - 1, 0 + 1⟩
      ⟨-2, -3, -1⟩ ⟨-3, -2, 0⟩ = Real.sqrt 8 := by
    simp only [LineSegmentDistance, TVector3.Dot, TVector3.Mag, TVector3.Mag2, TVector3.sub_X,
      TVector3.sub_Y, TVector3.sub_Z, TVector3.add_X, TVector3.add_Y, TVector3.add_Z,
      TVector3.smul_X, TVector3.smul_Y, TVector3.smul_Z]
    congr 1
    norm_num [abs_lt]
  have e3 : LineSegmentDistance Real.sqrt (⟨0, 0 + 1, 0 + 1⟩ : TVector3 ℝ) ⟨0, 0 + 1, 0 - 1⟩
      ⟨-2, -3, -1⟩ ⟨-3, -2, 0⟩ = Real.sqrt (723 / 32) := by
    simp only [LineSegmentDistance, TVector3.Dot, TVector3.Mag, TVector3.Mag2, TVector3.sub_X,
      TVector3.sub_Y, TVector3.sub_Z, TVector3.add_X, TVector3.add_Y, TVector3.add_Z,
      TVector3.smul_X, TVector3.smul_Y, TVector3.smul_Z]
    congr 1
    norm_num [abs_lt]
  have e4 : LineSegmentDistance Real.sqrt (⟨0, 0 + 1, 0 + 1⟩ : TVector3 ℝ) ⟨0, 0 - 1, 0 + 1⟩
      ⟨-2, -3, -1⟩ ⟨-3, -2, 0⟩ = Real.sqrt (81 / 4) := by
    simp only [LineSegmentDistance, TVector3.Dot, TVector3.Mag, TVector3.Mag2, TVector3.sub_X,
      TVector3.sub_Y, TVector3.sub_Z, TVector3.add_X, TVector3.add_Y, TVector3.add_Z,
      TVector3.smul_X, TVector3.smul_Y, TVector3.smul_Z]
    congr 1
    norm_num [abs_lt]
  have h83 : Real.sqrt 8 ≤ Real.sqrt (723 / 32) := Real.sqrt_le_sqrt (by norm_num)
  have h84 : Real.sqrt 8 ≤ Real.sqrt (81 / 4) := Real.sqrt_le_sqrt (by norm_num)
  refine ⟨rfl, by norm_num, hcube, ?_, ?_, ?_, Real.sqrt_lt_sqrt (by norm_num) (by norm_num),
    Real.sqrt_lt_sqrt (by norm_num) (by norm_num)⟩
  · rw [DistToCrtHit_x_face Real.sqrt _ _ _ (by rw [hcube]) (by norm_num) (by norm_num),
      e1, e2, e3, e4, min_self, min_eq_left (le_min h83 h84)]
  · simp only [LineSegmentDistance, TVector3.Dot, TVector3.Mag, TVector3.Mag2, TVector3.sub_X,
      TVector3.sub_Y, TVector3.sub_Z, TVector3.add_X, TVector3.add_Y, TVector3.add_Z,
      TVector3.smul_X, TVector3.smul_Y, TVector3.smul_Z]
    congr 1
    norm_num [abs_lt]
  · simp only [LineSegmentDistance, TVector3.Dot, TVector3.Mag, TVector3.Mag2, TVector3.sub_X,
      TVector3.sub_Y, TVector3.sub_Z, TVector3.add_X, TVector3.add_Y, TVector3.add_Z,
      TVector3.smul_X, TVector3.smul_Y, TVector3.smul_Z]
    congr 1
    norm_num [abs_lt]

end BoxDistanceClaims

/-! ## The direction estimates -/

section AverageNormClaims

variable {α : Type} [LinearOrderedField α] [FloorRing α]

/-- C27, counterexample: on the track with a right-angle corner and fraction 1,
`TrackDirectionAverage` answers `(-1/2, -1/2, 0)` and `(1/2, 1/2, 0)`, whose norm is
`√(1/2)`, not 1. -/
theorem TrackDirectionAverage_not_unit :
    ⌊((validDirections (cornerTrack ℝ)).length : ℝ) * 1⌋ = 2 ∧
    TrackDirectionAverage (cornerTrack ℝ) 1 =
      some (⟨-(1 / 2), -(1 / 2), 0⟩, ⟨1 / 2, 1 / 2, 0⟩) ∧
    (⟨-(1 / 2), -(1 / 2), 0⟩ : TVector3 ℝ).Mag Real.sqrt ≠ 1 ∧
    (⟨1 / 2, 1 / 2, 0⟩ : TVector3 ℝ).Mag Real.sqrt ≠ 1 ∧
    TrackDirectionAverage (cornerTrack ℚ) 1 =
      some (⟨-(1 / 2), -(1 / 2), 0⟩, ⟨1 / 2, 1 / 2, 0⟩) := by
  have hvd : validDirections (cornerTrack ℝ) = [⟨1, 0, 0⟩, ⟨0, 1, 0⟩] := rfl
  have hfl : ⌊((validDirections (cornerTrack ℝ)).length : ℝ) * 1⌋ = ((2 : ℕ) : ℤ) := by
    rw [hvd]
    simp
  refine ⟨hfl, ?_, ?_, ?_, by decide!⟩
  · rw [TrackDirectionAverage_of_floor (cornerTrack ℝ) 1 2 hfl (by rw [hvd]; simp), hvd]
    simp only [List.take, List.length, List.drop, vecSum, List.map, List.sum_cons,
      List.sum_nil, TVector3.smul]
    norm_num
  · simp only [TVector3.Mag, TVector3.Mag2, ne_eq, Real.sqrt_eq_one]
    norm_num
  · simp only [TVector3.Mag, TVector3.Mag2, ne_eq, Real.sqrt_eq_one]
    norm_num

/-- C27, amended: when the local directions at the valid points are unit vectors and the
number `k = floor(n * frac)` of averaged points satisfies `1 ≤ k ≤ n`,
`TrackDirectionAverage` returns a start direction and an end direction that both have norm
at most 1; the norm is exactly 1 when the valid local directions all coincide. -/
theorem TrackDirectionAverage_norm_le_one (track : Track ℝ) (frac : ℝ)
    (h1 : 1 ≤ ⌊((validDirections track).length : ℝ) * frac⌋)
    (hn : ⌊((validDirections track).length : ℝ) * frac⌋ ≤ ((validDirections track).length : ℤ))
    (hunit : ∀ d ∈ validDirections track, d.Mag Real.sqrt = 1) :
    ∃ startDir endDir, TrackDirectionAverage track frac = some (startDir, endDir) ∧
      startDir.Mag Real.sqrt ≤ 1 ∧ endDir.Mag Real.sqrt ≤ 1 ∧
      ∀ u, (∀ d ∈ validDirections track, d = u) →
        startDir = TVector3.smul (-1) u ∧ endDir = u ∧
        startDir.Mag Real.sqrt = 1 ∧ endDir.Mag Real.sqrt = 1 := by
  obtain ⟨k, hk⟩ : ∃ k : ℕ, ⌊((validDirections track).length : ℝ) * frac⌋ = (k : ℤ) :=
    ⟨_, (Int.toNat_of_nonneg (by omega)).symm⟩
  rw [hk] at h1 hn
  have hk1 : 1 ≤ k := by exact_mod_cast h1
  have hkn : k ≤ (validDirections track).length := by exact_mod_cast hn
  have hkpos : (0 : ℝ) < (k : ℝ) := Nat.cast_pos.mpr hk1
  have hunit2 : ∀ d ∈ validDirections track, d.Mag2 = 1 := fun d hd =>
    Real.sqrt_eq_one.mp (hunit d hd)
  have hlt : ((validDirections track).take k).length = k := by
    rw [List.length_take, min_eq_left hkn]
  have hld : ((validDirections track).drop ((validDirections track).length - k)).length = k := by
    rw [List.length_drop]
    omega
  have hs : (TVector3.smul (-(1 / (k : ℝ))) (vecSum ((validDirections track).take k))).Mag2
      ≤ 1 :=
    average_Mag2_le _ _ (fun d hd => hunit2 d (List.mem_of_mem_take hd)) (by omega)
      (by rw [hlt]; ring)
  have he : (TVector3.smul (1 / (k : ℝ))
      (vecSum ((validDirections track).drop ((validDirections track).length - k)))).Mag2
      ≤ 1 :=
    average_Mag2_le _ _ (fun d hd => hunit2 d (List.mem_of_mem_drop hd)) (by omega)
      (by rw [hld])
  refine ⟨_, _, TrackDirectionAverage_of_floor track frac k hk hkn, Real.sqrt_le_one.mpr hs,
    Real.sqrt_le_one.mpr he, ?_⟩
  intro u hu
  have hu1 : u.Mag2 = 1 := by
    obtain ⟨d, hd⟩ := List.exists_mem_of_length_pos (show 0 < (validDirections track).length
      by omega)
    rw [← hu d hd]
    exact hunit2 d hd
  have hstart : TVector3.smul (-(1 / (k : ℝ))) (vecSum ((validDirections track).take k)) =
      TVector3.smul (-1) u := by
    rw [vecSum_const u _ (fun d hd => hu d (List.mem_of_mem_take hd)), hlt, TVector3.eq_iff]
    simp only [TVector3.smul_X, TVector3.smul_Y, TVector3.smul_Z]
    refine ⟨by field_simp; ring, by field_simp; ring, by field_simp; ring⟩
  have hend : TVector3.smul (1 / (k : ℝ))
      (vecSum ((validDirections track).drop ((validDirections track).length - k))) = u := by
    rw [vecSum_const u _ (fun d hd => hu d (List.mem_of_mem_drop hd)), hld, TVector3.eq_iff]
    simp only [TVector3.smul_X, TVector3.smul_Y, TVector3.smul_Z]
    refine ⟨by field_simp, by field_simp, by field_simp⟩
  refine ⟨hstart, hend, ?_, ?_⟩
  · rw [hstart]
    show Real.sqrt (TVector3.smul (-1) u).Mag2 = 1
    rw [Mag2_smul, hu1]
    norm_num
  · rw [hend]
    show Real.sqrt u.Mag2 = 1
    rw [hu1, Real.sqrt_one]

/-- Witness of C27 amended: the track with a right-angle corner and fraction 1; both
averaged directions have norm at most 1. -/
theorem TrackDirectionAverage_norm_le_one_witness :
    1 ≤ ⌊((validDirections (cornerTrack ℝ)).length : ℝ) * 1⌋ ∧
    ⌊((validDirections (cornerTrack ℝ)).length : ℝ) * 1⌋ ≤
      ((validDirections (cornerTrack ℝ)).length : ℤ) ∧
    (∀ d ∈ validDirections (cornerTrack ℝ), d.Mag Real.sqrt = 1) ∧
    ∃ startDir endDir, TrackDirectionAverage (cornerTrack ℝ) 1 = some (startDir, endDir) ∧
      startDir.Mag Real.sqrt ≤ 1 ∧ endDir.Mag Real.sqrt ≤ 1 := by
  have hvd : validDirections (cornerTrack ℝ) = [⟨1, 0, 0⟩, ⟨0, 1, 0⟩] := rfl
  have hfl : ⌊((validDirections (cornerTrack ℝ)).length : ℝ) * 1⌋ = 2 := by
    rw [hvd]
    simp
  have h1 : 1 ≤ ⌊((validDirections (cornerTrack ℝ)).length : ℝ) * 1⌋ := by
    rw [hfl]
    decide
  have hn : ⌊((validDirections (cornerTrack ℝ)).length : ℝ) * 1⌋ ≤
      ((validDirections (cornerTrack ℝ)).length : ℤ) := by
    rw [hfl, hvd]
    decide
  have hunit : ∀ d ∈ validDirections (cornerTrack ℝ), d.Mag Real.sqrt = 1 := by
    intro d hd
    rw [hvd] at hd
    simp only [List.mem_cons, List.mem_singleton, List.not_mem_nil, or_false] at hd
    rcases hd with rfl | rfl <;> simp [TVector3.Mag, TVector3.Mag2]
  obtain ⟨s, e, hres, hs, he, _⟩ :=
    TrackDirectionAverage_norm_le_one (cornerTrack ℝ) 1 h1 hn hunit
  exact ⟨h1, hn, hunit, s, e, hres, hs, he⟩

end AverageNormClaims

section DirectionClaims

variable {α : Type} [LinearOrderedField α] [FloorRing α]

/-- C28: with the distortion correction disabled, `TrackDirection` answers, for every
fraction (in particular when `floor(N * frac) < N`), hit time and drift direction,
`startDir = (mid - start) / |mid - start|` with norm 1 when `mid`, the trajectory point at
index `floor(N * frac)`, is not the start point, and the zero vector when it is; and
likewise `endDir = (mid - end) / |mid - end|` with norm 1, or the zero vector when `mid`
is the end point. -/
theorem TrackDirection_unit (alg : CRTT0MatchAlg ℝ) (detProp : DetectorPropertiesData ℝ)
    (track : Track ℝ) (frac CRTtime : ℝ) (driftDirection : ℤ)
    (hsce : ¬ (alg.fSCE.EnableCalSpatialSCE = true ∧ alg.fSCEposCorr = true)) :
    ((track.LocationAtPoint ⌊(track.NPoints : ℝ) * frac⌋ ≠ track.Start →
        (TrackDirection Real.sqrt alg detProp track frac CRTtime driftDirection).1 =
          TVector3.smul
            (1 / (track.LocationAtPoint ⌊(track.NPoints : ℝ) * frac⌋ - track.Start).Mag
              Real.sqrt)
            (track.LocationAtPoint ⌊(track.NPoints : ℝ) * frac⌋ - track.Start) ∧
        (TrackDirection Real.sqrt alg detProp track frac CRTtime driftDirection).1.Mag
          Real.sqrt = 1) ∧
      (track.LocationAtPoint ⌊(track.NPoints : ℝ) * frac⌋ = track.Start →
        (TrackDirection Real.sqrt alg detProp track frac CRTtime driftDirection).1 =
          ⟨0, 0, 0⟩)) ∧
    ((track.LocationAtPoint ⌊(track.NPoints : ℝ) * frac⌋ ≠ track.End →
        (TrackDirection Real.sqrt alg detProp track frac CRTtime driftDirection).2 =
          TVector3.smul
            (1 / (track.LocationAtPoint ⌊(track.NPoints : ℝ) * frac⌋ - track.End).Mag
              Real.sqrt)
            (track.LocationAtPoint ⌊(track.NPoints : ℝ) * frac⌋ - track.End) ∧
        (TrackDirection Real.sqrt alg detProp track frac CRTtime driftDirection).2.Mag
          Real.sqrt = 1) ∧
      (track.LocationAtPoint ⌊(track.NPoints : ℝ) * frac⌋ = track.End →
        (TrackDirection Real.sqrt alg detProp track frac CRTtime driftDirection).2 =
          ⟨0, 0, 0⟩)) := by
  have hzero : ∀ p q : TVector3 ℝ, p - q = ⟨0, 0, 0⟩ ↔ p = q := by
    intro p q
    rw [TVector3.eq_iff, TVector3.eq_iff]
    simp only [TVector3.sub_X, TVector3.sub_Y, TVector3.sub_Z, sub_eq_zero]
  have hshift : ∀ (p q : TVector3 ℝ) (x : ℝ),
      (⟨p.X + x - (q.X + x), p.Y - q.Y, p.Z - q.Z⟩ : TVector3 ℝ) = p - q := by
    intro p q x
    rw [TVector3.eq_iff]
    simp only [TVector3.sub_X, TVector3.sub_Y, TVector3.sub_Z]
    exact ⟨by ring, trivial, trivial⟩
  have hs : (TrackDirection Real.sqrt alg detProp track frac CRTtime driftDirection).1 =
      (if (track.LocationAtPoint ⌊(track.NPoints : ℝ) * frac⌋ - track.Start).Mag Real.sqrt > 0
        then TVector3.smul
          (1 / (track.LocationAtPoint ⌊(track.NPoints : ℝ) * frac⌋ - track.Start).Mag
            Real.sqrt)
          (track.LocationAtPoint ⌊(track.NPoints : ℝ) * frac⌋ - track.Start)
        else track.LocationAtPoint ⌊(track.NPoints : ℝ) * frac⌋ - track.Start) := by
    simp only [TrackDirection, if_neg hsce, hshift]
  have he : (TrackDirection Real.sqrt alg detProp track frac CRTtime driftDirection).2 =
      (if (track.LocationAtPoint ⌊(track.NPoints : ℝ) * frac⌋ - track.End).Mag Real.sqrt > 0
        then TVector3.smul
          (1 / (track.LocationAtPoint ⌊(track.NPoints : ℝ) * frac⌋ - track.End).Mag
            Real.sqrt)
          (track.LocationAtPoint ⌊(track.NPoints : ℝ) * frac⌋ - track.End)
        else track.LocationAtPoint ⌊(track.NPoints : ℝ) * frac⌋ - track.End) := by
    simp only [TrackDirection, if_neg hsce, hshift]
  rw [hs, he]
  refine ⟨⟨fun h => ?_, fun h => ?_⟩, ⟨fun h => ?_, fun h => ?_⟩⟩
  · exact (unit_or_zero _).1 (fun h0 => h ((hzero _ _).mp h0))
  · exact (unit_or_zero _).2 ((hzero _ _).mpr h)
  · exact (unit_or_zero _).1 (fun h0 => h ((hzero _ _).mp h0))
  · exact (unit_or_zero _).2 ((hzero _ _).mpr h)

/-- Witness of C28: on the track with a right-angle corner and fraction `1/2` the
intermediate point is the end point, so the end direction is the zero vector, while the
start direction has norm 1. -/
theorem TrackDirection_unit_witness :
    ¬ ((plainAlg ℝ 1).fSCE.EnableCalSpatialSCE = true ∧ (plainAlg ℝ 1).fSCEposCorr = true) ∧
    (cornerTrack ℝ).LocationAtPoint ⌊((cornerTrack ℝ).NPoints : ℝ) * (1 / 2)⌋ ≠
      (cornerTrack ℝ).Start ∧
    (cornerTrack ℝ).LocationAtPoint ⌊((cornerTrack ℝ).NPoints : ℝ) * (1 / 2)⌋ =
      (cornerTrack ℝ).End ∧
    (TrackDirection Real.sqrt (plainAlg ℝ 1) ⟨1⟩ (cornerTrack ℝ) (1 / 2) 7 1).1.Mag
      Real.sqrt = 1 ∧
    (TrackDirection Real.sqrt (plainAlg ℝ 1) ⟨1⟩ (cornerTrack ℝ) (1 / 2) 7 1).2 =
      ⟨0, 0, 0⟩ := by
  have hfl : ⌊((cornerTrack ℝ).NPoints : ℝ) * (1 / 2)⌋ = 1 := by
    have h2 : (((cornerTrack ℝ).NPoints : ℕ) : ℝ) * (1 / 2) = ((1 : ℤ) : ℝ) := by
      simp [cornerTrack]
    rw [h2, Int.floor_intCast]
  have hsce : ¬ ((plainAlg ℝ 1).fSCE.EnableCalSpatialSCE = true ∧
      (plainAlg ℝ 1).fSCEposCorr = true) := by
    simp [plainAlg]
  have hstart : (cornerTrack ℝ).LocationAtPoint ⌊((cornerTrack ℝ).NPoints : ℝ) * (1 / 2)⌋ ≠
      (cornerTrack ℝ).Start := by
    rw [hfl]
    simp [cornerTrack]
  have hend : (cornerTrack ℝ).LocationAtPoint ⌊((cornerTrack ℝ).NPoints : ℝ) * (1 / 2)⌋ =
      (cornerTrack ℝ).End := by
    rw [hfl]
    simp [cornerTrack]
  exact ⟨hsce, hstart, hend,
    ((TrackDirection_unit (plainAlg ℝ 1) ⟨1⟩ (cornerTrack ℝ) (1 / 2) 7 1 hsce).1.1 hstart).2,
    (TrackDirection_unit (plainAlg ℝ 1) ⟨1⟩ (cornerTrack ℝ) (1 / 2) 7 1 hsce).2.2 hend⟩

/-- C29, counterexample: on the track with two valid points and fraction `3/2` the number
of averaged points is `k = 3 ≥ 1`, and `TrackDirectionAverage` answers no pair: the checked
access `validDirections.at(2)` throws. -/
theorem TrackDirectionAverage_throws :
    (validDirections (cornerTrack ℚ)).length = 2 ∧
    ⌊((validDirections (cornerTrack ℚ)).length : ℚ) * (3 / 2)⌋ = 3 ∧
    (validDirections (cornerTrack ℚ))[2]? = none ∧
    TrackDirectionAverage (cornerTrack ℚ) (3 / 2) = none := by
  refine ⟨by decide!, by decide!, by decide!, by decide!⟩

/-- C29, amended: with `n` valid trajectory points and `k = floor(n * frac)` such that
`1 ≤ k ≤ n`, `TrackDirectionAverage` returns `startDir = -(1/k) * (sum of the local
directions at the first k valid points)` and `endDir = (1/k) * (sum of the local directions
at the last k valid points)`; the valid points are those whose flags compare equal to
`InvalidHitIndex`, the others contribute to neither sum; and the direction used for a hit
under `fDirMethod = 2` is this pair whatever the hit time and the drift direction. -/
theorem TrackDirectionAverage_eq (track : Track α) (frac : α)
    (h1 : 1 ≤ ⌊((validDirections track).length : α) * frac⌋)
    (hn : ⌊((validDirections track).length : α) * frac⌋ ≤ ((validDirections track).length : ℤ)) :
    TrackDirectionAverage track frac =
      some (TVector3.smul (-(1 / ((⌊((validDirections track).length : α) * frac⌋ : ℤ) : α)))
          (vecSum ((validDirections track).take
            (⌊((validDirections track).length : α) * frac⌋).toNat)),
        TVector3.smul (1 / ((⌊((validDirections track).length : α) * frac⌋ : ℤ) : α))
          (vecSum ((validDirections track).drop ((validDirections track).length -
            (⌊((validDirections track).length : α) * frac⌋).toNat)))) ∧
    validDirections track =
      ((List.range track.NPoints).filter fun i => track.FlagsAtPointIsInvalidHitIndex i).map
        track.DirectionAtPoint ∧
    ∀ (sqrt : α → α) (alg : CRTT0MatchAlg α) (detProp : DetectorPropertiesData α)
      (crtTime : α) (driftDirection : ℤ), alg.fDirMethod = 2 →
      startEndDir sqrt alg detProp track crtTime driftDirection =
        TrackDirectionAverage track alg.fTrackDirectionFrac := by
  have hk : ⌊((validDirections track).length : α) * frac⌋ =
      (((⌊((validDirections track).length : α) * frac⌋).toNat : ℕ) : ℤ) :=
    (Int.toNat_of_nonneg (by omega)).symm
  have hkn : (⌊((validDirections track).length : α) * frac⌋).toNat ≤
      (validDirections track).length := Int.toNat_le.mpr hn
  refine ⟨?_, ?_, ?_⟩
  · rw [TrackDirectionAverage_of_floor track frac _ hk hkn]
    have hc : (((⌊((validDirections track).length : α) * frac⌋).toNat : ℕ) : α) =
        ((⌊((validDirections track).length : α) * frac⌋ : ℤ) : α) := by
      conv_rhs => rw [hk]
      rw [Int.cast_natCast]
    rw [hc]
  · unfold validDirections
    generalize List.range track.NPoints = l
    induction l with
    | nil => rfl
    | cons i l ih =>
      cases hf : track.FlagsAtPointIsInvalidHitIndex i <;>
        simp [List.filterMap_cons, List.filter_cons, hf, ih]
  · intro sqrt alg detProp crtTime driftDirection hdir
    rw [startEndDir, if_pos hdir]

/-- Witness of C29 amended: the bent track (three valid points) with fraction `2/3`, where
`k = 2`: the start direction is minus the mean of `(0, 0, 1)` and `(1, 0, 0)`, the end
direction is the mean of `(1, 0, 0)` and `(1, 0, 0)`. -/
theorem TrackDirectionAverage_eq_witness :
    1 ≤ ⌊((validDirections bentTrack).length : ℚ) * (2 / 3)⌋ ∧
    ⌊((validDirections bentTrack).length : ℚ) * (2 / 3)⌋ ≤
      ((validDirections bentTrack).length : ℤ) ∧
    TrackDirectionAverage bentTrack (2 / 3) =
      some (TVector3.smul (-(1 / ((⌊((validDirections bentTrack).length : ℚ) * (2 / 3)⌋ : ℤ) : ℚ)))
          (vecSum ((validDirections bentTrack).take
            (⌊((validDirections bentTrack).length : ℚ) * (2 / 3)⌋).toNat)),
        TVector3.smul (1 / ((⌊((validDirections bentTrack).length : ℚ) * (2 / 3)⌋ : ℤ) : ℚ))
          (vecSum ((validDirections bentTrack).drop ((validDirections bentTrack).length -
            (⌊((validDirections bentTrack).length : ℚ) * (2 / 3)⌋).toNat)))) ∧
    TrackDirectionAverage bentTrack (2 / 3) = some (⟨-(1 / 2), 0, -(1 / 2)⟩, ⟨1, 0, 0⟩) :=
  ⟨by decide!, by decide!,
    (TrackDirectionAverage_eq bentTrack (2 / 3) (by decide!) (by decide!)).1, by decide!⟩

/-- C30: for every track with `n` valid points and every fraction `frac ≤ 1` (in
particular every fraction in `[0, 1]`), each index `i < floor(n * frac)` of the summation
loop of `TrackDirectionAverage` has `i < n` and `n - (i + 1) < n` with `i + 1 ≤ n`, so that
both checked accesses are in range; `TrackDirectionAverage` returns a pair, and
`GetClosestCRTHit` configured with such a fraction returns a result for every list of
hits. -/
theorem TrackDirectionAverage_in_range (track : Track α) (frac : α) (h1 : frac ≤ 1) :
    (∀ i : ℕ, (i : ℤ) < ⌊((validDirections track).length : α) * frac⌋ →
      i < (validDirections track).length ∧ i + 1 ≤ (validDirections track).length ∧
      (validDirections track).length - (i + 1) < (validDirections track).length ∧
      (validDirections track)[i]?.isSome = true ∧
      (validDirections track)[(validDirections track).length - (i + 1)]?.isSome = true) ∧
    (TrackDirectionAverage track frac).isSome = true ∧
    ∀ (sqrt : α → α) (alg : CRTT0MatchAlg α) (detProp : DetectorPropertiesData α)
      (t0MinMax : α × α) (crtHits : List (CRTHit α)) (driftDirection : ℤ),
      alg.fTrackDirectionFrac = frac →
      (GetClosestCRTHit sqrt alg detProp track t0MinMax crtHits driftDirection).isSome =
        true := by
  have hle := endPoint_le (validDirections track).length frac h1
  have hsome : (TrackDirectionAverage track frac).isSome = true := by
    unfold TrackDirectionAverage
    simp only [directionTotals_eq _ _ hle]
    rfl
  refine ⟨?_, hsome, ?_⟩
  · intro i hi
    have hi2 : i < (validDirections track).length := by
      have := Int.toNat_le.mp hle
      omega
    have hi3 : (validDirections track).length - (i + 1) < (validDirections track).length := by
      omega
    refine ⟨hi2, hi2, hi3, ?_, ?_⟩
    · rw [List.getElem?_eq_getElem hi2]
      rfl
    · rw [List.getElem?_eq_getElem hi3]
      rfl
  · intro sqrt alg detProp t0MinMax crtHits driftDirection hfrac
    have hc := t0Candidates_isSome sqrt alg detProp track t0MinMax driftDirection
      (fun _ => by rw [hfrac]; exact hsome) crtHits
    obtain ⟨cands, hcands⟩ := Option.isSome_iff_exists.mp hc
    rw [GetClosestCRTHit_of_candidates sqrt alg detProp track t0MinMax crtHits driftDirection
      cands hcands]
    rfl

/-- Witness of C30: the bent track with fraction `2/3` under the averaged direction
method. -/
theorem TrackDirectionAverage_in_range_witness :
    (2 / 3 : ℚ) ≤ 1 ∧ (plainAlg ℚ 2).fTrackDirectionFrac = 1 / 2 ∧
    (TrackDirectionAverage bentTrack (2 / 3)).isSome = true ∧
    (GetClosestCRTHit sqrtQ (plainAlg ℚ 2) sampleDetProp bentTrack (0, 5)
      [sampleHit 100 2000 12 (-5)] 0).isSome = true :=
  ⟨by decide!, by decide!,
    (TrackDirectionAverage_in_range bentTrack (2 / 3) (by decide!)).2.1,
    (TrackDirectionAverage_in_range bentTrack (1 / 2) (by decide!)).2.2 sqrtQ (plainAlg ℚ 2)
      sampleDetProp (0, 5) [sampleHit 100 2000 12 (-5)] 0 (by decide!)⟩

end DirectionClaims

/-! ## Edge cases of the primitives and of the selection -/

section SpecialValueClaims

variable {α : Type} [LinearOrderedField α]

/-- C31, evaluated at a failing input: for the box `[0, 2]³` and the line from `(0, 1, 5)`
to `(0, 2, 6)`, whose direction `(0, 1, 1)` has a zero x component and whose start point
lies on the slab plane `x = 0`, the line has no point in the box (its y coordinate is in
`[0, 2]` for parameters in `[-1, 1]`, its z coordinate for parameters in `[-5, -3]`), but
`CubeIntersection` under IEEE-754 answers a pair other than the sentinel pair: the entry
parameter is `0 * ∞`, not-a-number, every comparison with it is false, and the answer is
`(NaN, NaN, NaN)` with the exit point `(0, -2, 2)`. -/
theorem CubeIntersectionIEEE_start_on_slab_plane :
    ((⟨0, 2, 6⟩ : TVector3 ℚ) - ⟨0, 1, 5⟩).X = 0 ∧
    ((⟨0, 2, 6⟩ : TVector3 ℚ) - ⟨0, 1, 5⟩).Y ≠ 0 ∧
    ((⟨0, 2, 6⟩ : TVector3 ℚ) - ⟨0, 1, 5⟩).Z ≠ 0 ∧
    (⟨0, 1, 5⟩ : TVector3 ℚ).X = (⟨0, 0, 0⟩ : TVector3 ℚ).X ∧
    (∀ t : ℚ, ¬ inBox (⟨0, 0, 0⟩ : TVector3 ℚ) ⟨2, 2, 2⟩
      (⟨0, 1, 5⟩ + TVector3.smul t ((⟨0, 2, 6⟩ : TVector3 ℚ) - ⟨0, 1, 5⟩))) ∧
    CubeIntersectionIEEE (⟨0, 0, 0⟩ : TVector3 ℚ) ⟨2, 2, 2⟩ ⟨0, 1, 5⟩ ⟨0, 2, 6⟩ =
      (⟨Double.nan, Double.nan, Double.nan⟩,
        ⟨Double.fin 0, Double.fin (-2), Double.fin 2⟩) ∧
    CubeIntersectionIEEE (⟨0, 0, 0⟩ : TVector3 ℚ) ⟨2, 2, 2⟩ ⟨0, 1, 5⟩ ⟨0, 2, 6⟩ ≠
      (⟨Double.fin (-99999), Double.fin (-99999), Double.fin (-99999)⟩,
        ⟨Double.fin (-99999), Double.fin (-99999), Double.fin (-99999)⟩) := by
  refine ⟨by decide!, by decide!, by decide!, by decide!, ?_, by decide!, by decide!⟩
  intro t hin
  obtain ⟨_, _, h3, h4, h5, h6⟩ := hin
  simp only [TVector3.add_Y, TVector3.add_Z, TVector3.smul_Y, TVector3.smul_Z,
    TVector3.sub_Y, TVector3.sub_Z] at h3 h4 h5 h6
  linarith

end SpecialValueClaims

section DegenerateClaims

variable {α : Type} [LinearOrderedField α]

/-- C32 as stated fails: for the segment from `(3/1000000, 4/1000000, 0)` along `(1, 0, 0)`
and the x axis, `D = 0` and `v.w = 3/1000000` is below the tolerance, so the line parameter
is `0`, not `(v.w)/(v.v)`, and `LineSegmentDistance` answers `|w| = 5/1000000`, while the
perpendicular from the start point of the segment to the line has length `4/1000000`. -/
theorem LineSegmentDistance_degenerate_not_perpendicular :
    ((⟨1 + 3 / 1000000, 4 / 1000000, 0⟩ : TVector3 ℚ) - ⟨3 / 1000000, 4 / 1000000, 0⟩).Dot
          ((⟨1 + 3 / 1000000, 4 / 1000000, 0⟩ : TVector3 ℚ) - ⟨3 / 1000000, 4 / 1000000, 0⟩) *
        ((⟨1, 0, 0⟩ : TVector3 ℚ) - ⟨0, 0, 0⟩).Dot ((⟨1, 0, 0⟩ : TVector3 ℚ) - ⟨0, 0, 0⟩) -
      ((⟨1 + 3 / 1000000, 4 / 1000000, 0⟩ : TVector3 ℚ) - ⟨3 / 1000000, 4 / 1000000, 0⟩).Dot
          ((⟨1, 0, 0⟩ : TVector3 ℚ) - ⟨0, 0, 0⟩) *
        ((⟨1 + 3 / 1000000, 4 / 1000000, 0⟩ : TVector3 ℚ) - ⟨3 / 1000000, 4 / 1000000, 0⟩).Dot
          ((⟨1, 0, 0⟩ : TVector3 ℚ) - ⟨0, 0, 0⟩) < 0.00001 ∧
    ((⟨1, 0, 0⟩ : TVector3 ℚ) - ⟨0, 0, 0⟩).Dot
        ((⟨3 / 1000000, 4 / 1000000, 0⟩ : TVector3 ℚ) - ⟨0, 0, 0⟩) /
      ((⟨1, 0, 0⟩ : TVector3 ℚ) - ⟨0, 0, 0⟩).Dot ((⟨1, 0, 0⟩ : TVector3 ℚ) - ⟨0, 0, 0⟩) =
      3 / 1000000 ∧
    LineSegmentDistance sqrtQ ⟨3 / 1000000, 4 / 1000000, 0⟩ ⟨1 + 3 / 1000000, 4 / 1000000, 0⟩
        ⟨0, 0, 0⟩ ⟨1, 0, 0⟩ = 5 / 1000000 ∧
    LineSegmentDistance Real.sqrt ⟨3 / 1000000, 4 / 1000000, 0⟩
        ⟨1 + 3 / 1000000, 4 / 1000000, 0⟩ ⟨0, 0, 0⟩ ⟨1, 0, 0⟩ = 5 / 1000000 ∧
    ((⟨3 / 1000000, 4 / 1000000, 0⟩ : TVector3 ℚ) - ((⟨0, 0, 0⟩ : TVector3 ℚ) +
        TVector3.smul (3 / 1000000 : ℚ) ((⟨1, 0, 0⟩ : TVector3 ℚ) - (⟨0, 0, 0⟩ : TVector3 ℚ)))).Dot
      ((⟨1, 0, 0⟩ : TVector3 ℚ) - ⟨0, 0, 0⟩) = 0 ∧
    ((⟨3 / 1000000, 4 / 1000000, 0⟩ : TVector3 ℚ) - ((⟨0, 0, 0⟩ : TVector3 ℚ) +
        TVector3.smul (3 / 1000000 : ℚ) ((⟨1, 0, 0⟩ : TVector3 ℚ) - (⟨0, 0, 0⟩ : TVector3 ℚ)))).Mag
      sqrtQ = 4 / 1000000 ∧
    ((⟨3 / 1000000, 4 / 1000000, 0⟩ : TVector3 ℝ) - ((⟨0, 0, 0⟩ : TVector3 ℝ) +
        TVector3.smul (3 / 1000000 : ℝ) ((⟨1, 0, 0⟩ : TVector3 ℝ) - (⟨0, 0, 0⟩ : TVector3 ℝ)))).Mag
      Real.sqrt = 4 / 1000000 := by
  have h5 : Real.sqrt (25 / 1000000000000) = 5 / 1000000 := by
    rw [show (25 / 1000000000000 : ℝ) = (5 / 1000000) ^ 2 by norm_num]
    exact Real.sqrt_sq (by norm_num)
  have h4 : Real.sqrt (16 / 1000000000000) = 4 / 1000000 := by
    rw [show (16 / 1000000000000 : ℝ) = (4 / 1000000) ^ 2 by norm_num]
    exact Real.sqrt_sq (by norm_num)
  have habs : |(3 / 1000000 : ℝ)| = 3 / 1000000 := abs_of_pos (by norm_num)
  refine ⟨by decide!, by decide!, by decide!, ?_, by decide!, by decide!, ?_⟩
  · simp only [LineSegmentDistance, TVector3.Dot, TVector3.Mag, TVector3.Mag2, TVector3.sub_X,
      TVector3.sub_Y, TVector3.sub_Z, TVector3.add_X, TVector3.add_Y, TVector3.add_Z,
      TVector3.smul_X, TVector3.smul_Y, TVector3.smul_Z]
    rw [← h5]
    congr 1
    norm_num [habs]
  · simp only [TVector3.Mag, TVector3.Mag2, TVector3.sub_X,
      TVector3.sub_Y, TVector3.sub_Z, TVector3.add_X, TVector3.add_Y, TVector3.add_Z,
      TVector3.smul_X, TVector3.smul_Y, TVector3.smul_Z]
    conv_rhs => rw [← h4]
    congr 1
    norm_num

/-- C32, amended: in the degenerate branch of `LineSegmentDistance` (`D < 0.00001`, line
direction `v ≠ 0`) the segment parameter is `0` and the line parameter is `(v.w)/(v.v)` when
`|v.w| ≥ 0.00001` and `0` otherwise; so, when `|v.w| ≥ 0.00001` or `v.w = 0`, the result is
the length of the perpendicular from `start1` to the line (the vector from the line point
of parameter `(v.w)/(v.v)` to `start1`, which is orthogonal to `v`). -/
theorem LineSegmentDistance_degenerate (sqrt : α → α) (start1 end1 start2 end2 : TVector3 α)
    (hv : end2 - start2 ≠ ⟨0, 0, 0⟩)
    (hD : (end1 - start1).Dot (end1 - start1) * (end2 - start2).Dot (end2 - start2) -
      (end1 - start1).Dot (end2 - start2) * (end1 - start1).Dot (end2 - start2) < 0.00001) :
    LineSegmentDistance sqrt start1 end1 start2 end2 =
      ((start1 + TVector3.smul 0 (end1 - start1)) - (start2 + TVector3.smul
        (if |(end2 - start2).Dot (start1 - start2)| < 0.00001 then 0
          else (end2 - start2).Dot (start1 - start2) / (end2 - start2).Dot (end2 - start2))
        (end2 - start2))).Mag sqrt ∧
    ((¬ |(end2 - start2).Dot (start1 - start2)| < 0.00001 ∨
        (end2 - start2).Dot (start1 - start2) = 0) →
      LineSegmentDistance sqrt start1 end1 start2 end2 =
        (start1 - (start2 + TVector3.smul
          ((end2 - start2).Dot (start1 - start2) / (end2 - start2).Dot (end2 - start2))
          (end2 - start2))).Mag sqrt) ∧
    (start1 - (start2 + TVector3.smul
        ((end2 - start2).Dot (start1 - start2) / (end2 - start2).Dot (end2 - start2))
        (end2 - start2))).Dot (end2 - start2) = 0 := by
  have hsmall : (0 : α) < 0.00001 := by norm_num
  have hval : ∀ tc : α,
      (start1 - start2 + TVector3.smul 0 (end1 - start1) -
          TVector3.smul tc (end2 - start2)).Mag sqrt =
        (start1 - (start2 + TVector3.smul tc (end2 - start2))).Mag sqrt := by
    intro tc
    unfold TVector3.Mag
    congr 1
    simp only [TVector3.Mag2, TVector3.add_X, TVector3.add_Y, TVector3.add_Z, TVector3.sub_X,
      TVector3.sub_Y, TVector3.sub_Z, TVector3.smul_X, TVector3.smul_Y, TVector3.smul_Z]
    ring
  have hval2 : ∀ tc : α,
      (start1 + TVector3.smul 0 (end1 - start1) -
          (start2 + TVector3.smul tc (end2 - start2))).Mag sqrt =
        (start1 - (start2 + TVector3.smul tc (end2 - start2))).Mag sqrt := by
    intro tc
    unfold TVector3.Mag
    congr 1
    simp only [TVector3.Mag2, TVector3.add_X, TVector3.add_Y, TVector3.add_Z, TVector3.sub_X,
      TVector3.sub_Y, TVector3.sub_Z, TVector3.smul_X, TVector3.smul_Y, TVector3.smul_Z]
    ring
  have hmain : LineSegmentDistance sqrt start1 end1 start2 end2 =
      (start1 - (start2 + TVector3.smul
        (if |(end2 - start2).Dot (start1 - start2)| < 0.00001 then 0
          else (end2 - start2).Dot (start1 - start2) / (end2 - start2).Dot (end2 - start2))
        (end2 - start2))).Mag sqrt := by
    rw [← hval]
    simp only [LineSegmentDistance, if_pos hD, abs_zero, if_pos hsmall]
  have hc : (end2 - start2).Dot (end2 - start2) ≠ 0 := by
    have := TVector3.Mag2_pos _ hv
    exact ne_of_gt this
  refine ⟨by rw [hval2]; exact hmain, ?_, ?_⟩
  · rintro (h | h)
    · rw [hmain, if_neg h]
    · rw [hmain, h]
      simp
  · simp only [TVector3.Dot, TVector3.add_X, TVector3.add_Y, TVector3.add_Z, TVector3.sub_X,
      TVector3.sub_Y, TVector3.sub_Z, TVector3.smul_X, TVector3.smul_Y, TVector3.smul_Z] at hc ⊢
    field_simp
    ring

/-- Witness of C32 amended: the segment from `(3, 4, 0)` along `(1, 0, 0)` and the x axis;
the answer is `4`, the length of the perpendicular from `(3, 4, 0)` to the axis. -/
theorem LineSegmentDistance_degenerate_witness :
    ((⟨1, 0, 0⟩ : TVector3 ℚ) - ⟨0, 0, 0⟩ ≠ ⟨0, 0, 0⟩) ∧
    ((⟨4, 4, 0⟩ : TVector3 ℚ) - ⟨3, 4, 0⟩).Dot ((⟨4, 4, 0⟩ : TVector3 ℚ) - ⟨3, 4, 0⟩) *
        ((⟨1, 0, 0⟩ : TVector3 ℚ) - ⟨0, 0, 0⟩).Dot ((⟨1, 0, 0⟩ : TVector3 ℚ) - ⟨0, 0, 0⟩) -
      ((⟨4, 4, 0⟩ : TVector3 ℚ) - ⟨3, 4, 0⟩).Dot ((⟨1, 0, 0⟩ : TVector3 ℚ) - ⟨0, 0, 0⟩) *
        ((⟨4, 4, 0⟩ : TVector3 ℚ) - ⟨3, 4, 0⟩).Dot ((⟨1, 0, 0⟩ : TVector3 ℚ) - ⟨0, 0, 0⟩) <
      0.00001 ∧
    ¬ |((⟨1, 0, 0⟩ : TVector3 ℚ) - ⟨0, 0, 0⟩).Dot ((⟨3, 4, 0⟩ : TVector3 ℚ) - ⟨0, 0, 0⟩)| <
      0.00001 ∧
    LineSegmentDistance sqrtQ ⟨3, 4, 0⟩ ⟨4, 4, 0⟩ ⟨0, 0, 0⟩ ⟨1, 0, 0⟩ =
      ((⟨3, 4, 0⟩ : TVector3 ℚ) - ((⟨0, 0, 0⟩ : TVector3 ℚ) + TVector3.smul
        (((⟨1, 0, 0⟩ : TVector3 ℚ) - ⟨0, 0, 0⟩).Dot ((⟨3, 4, 0⟩ : TVector3 ℚ) - ⟨0, 0, 0⟩) /
          ((⟨1, 0, 0⟩ : TVector3 ℚ) - ⟨0, 0, 0⟩).Dot ((⟨1, 0, 0⟩ : TVector3 ℚ) - ⟨0, 0, 0⟩))
        ((⟨1, 0, 0⟩ : TVector3 ℚ) - (⟨0, 0, 0⟩ : TVector3 ℚ)))).Mag sqrtQ ∧
    LineSegmentDistance sqrtQ ⟨3, 4, 0⟩ ⟨4, 4, 0⟩ ⟨0, 0, 0⟩ ⟨1, 0, 0⟩ = 4 :=
  ⟨by decide!, by decide!, by decide!,
    (LineSegmentDistance_degenerate sqrtQ ⟨3, 4, 0⟩ ⟨4, 4, 0⟩ ⟨0, 0, 0⟩ ⟨1, 0, 0⟩ (by decide!)
      (by decide!)).2.1 (Or.inl (by decide!)),
    by decide!⟩

end DegenerateClaims

section CubicClaims

variable {α : Type} [LinearOrderedField α]

end CubicClaims

section PolicyClaims

variable {α : Type} [LinearOrderedField α] [FloorRing α]

/-- C34: under the DCA-over-length policy `GetClosestCRTHit` answers the selection from its
candidate list, and for every candidate list `first :: rest` with all `dca ≥ 0` the
selection is the last candidate whose `dca / extrapLen` is strictly below that of `first`
(no later candidate has a ratio below that of `first`), and `first` when no candidate has:
each candidate is compared with the ratio of the first candidate.  Quotient and comparison
are those of IEEE-754: a ratio `0/0` is not below any ratio, and no ratio is below it. -/
theorem bestmatchIEEE_ratio_last (first : matchCandIEEE α) (rest : List (matchCandIEEE α))
    (hdca : ∀ c ∈ first :: rest, c.dca.ge (Double.fin 0) = true) :
    (∀ (sqrt : α → α) (alg : CRTT0MatchAlg α) (detProp : DetectorPropertiesData α)
        (tpcTrack : Track α) (t0MinMax : Double α × Double α) (crtHits : List (CRTHit α))
        (driftDirection : ℤ), alg.fDCAoverLength = true →
      t0CandidatesIEEE sqrt alg detProp tpcTrack t0MinMax driftDirection crtHits =
        some (first :: rest) →
      GetClosestCRTHitIEEE sqrt alg detProp tpcTrack t0MinMax crtHits driftDirection =
        some (bestmatchIEEE true (first :: rest))) ∧
    (((∀ c ∈ first :: rest, (c.dca.div (Double.fin c.extrapLen)).lt
          (first.dca.div (Double.fin first.extrapLen)) = false) ∧
        bestmatchIEEE true (first :: rest) = first) ∨
      ∃ pre m post, first :: rest = pre ++ m :: post ∧
        (m.dca.div (Double.fin m.extrapLen)).lt
          (first.dca.div (Double.fin first.extrapLen)) = true ∧
        (∀ c ∈ post, (c.dca.div (Double.fin c.extrapLen)).lt
          (first.dca.div (Double.fin first.extrapLen)) = false) ∧
        bestmatchIEEE true (first :: rest) = m) := by
  constructor
  · intro sqrt alg detProp tpcTrack t0MinMax crtHits driftDirection hpolicy hc
    rw [GetClosestCRTHitIEEE_of_candidates sqrt alg detProp tpcTrack t0MinMax crtHits
      driftDirection _ hc, hpolicy]
  · rw [bestmatchIEEE_true_cons]
    exact foldl_ratio_lastIEEE (first.dca.div (Double.fin first.extrapLen)) (first :: rest)
      first (hdca first (List.mem_cons_self _ _)) hdca

/-- Witness of C34: the candidates with `(dca, extrapLen)` equal to `(12, 13)` and `(0, 0)`,
made from the hits at `(12, 0, -5)` and at the start point of the sample track; the ratio
`0/0` of the second is not below `12/13`, and the answer is the first.  For the lengths
`(60, 60)`, `(60, 100)` and `(12, 13)` the answer is the third candidate. -/
theorem bestmatchIEEE_ratio_last_witness :
    (∀ c ∈ ([⟨hitAt 12 0 (-5), 2, Double.fin 12, 13⟩, ⟨hitAt 0 0 0, 2, Double.fin 0, 0⟩] :
        List (matchCandIEEE ℚ)), c.dca.ge (Double.fin 0) = true) ∧
    (sampleAlg true).fDCAoverLength = true ∧
    t0CandidatesIEEE sqrtQ (sampleAlg true) sampleDetProp (sampleTrack 5 11)
        (Double.fin 0, Double.fin 5) 0 [hitAt 12 0 (-5), hitAt 0 0 0] =
      some [⟨hitAt 12 0 (-5), 2, Double.fin 12, 13⟩, ⟨hitAt 0 0 0, 2, Double.fin 0, 0⟩] ∧
    GetClosestCRTHitIEEE sqrtQ (sampleAlg true) sampleDetProp (sampleTrack 5 11)
        (Double.fin 0, Double.fin 5) [hitAt 12 0 (-5), hitAt 0 0 0] 0 =
      some ⟨hitAt 12 0 (-5), 2, Double.fin 12, 13⟩ ∧
    bestmatchIEEE true ([⟨sampleHit 100 0 60 0, 0, Double.fin 60, 60⟩,
        ⟨sampleHit 100 0 60 (-80), 0, Double.fin 60, 100⟩,
        ⟨sampleHit 100 0 12 (-5), 0, Double.fin 12, 13⟩] : List (matchCandIEEE ℚ)) =
      ⟨sampleHit 100 0 12 (-5), 0, Double.fin 12, 13⟩ :=
  ⟨by decide!, by decide!, by decide!,
    ((bestmatchIEEE_ratio_last ⟨hitAt 12 0 (-5), 2, Double.fin 12, 13⟩
      [⟨hitAt 0 0 0, 2, Double.fin 0, 0⟩] (by decide!)).1 sqrtQ (sampleAlg true) sampleDetProp
      (sampleTrack 5 11) (Double.fin 0, Double.fin 5) [hitAt 12 0 (-5), hitAt 0 0 0] 0
      (by decide!) (by decide!)).trans (by decide!),
    by decide!⟩

/-- C35: a match can carry a `dca` at or above `fDistanceLimit`.  For the bent track and the
hit at `(81, 0, 108)` the start line is at distance `81` (below the limit `100`) and the
end line at `104`; the hit is nearer to the end (`130` against `135`), so the candidate
carries the `dca` of the end, `104`, and `GetClosestCRTHit` and `ClosestCRTHit` answer it. -/
theorem GetClosestCRTHit_dca_above_limit :
    DistOfClosestApproach sqrtQ (sampleAlg false) sampleDetProp bentTrack.Start
        (TrackDirection sqrtQ (sampleAlg false) sampleDetProp bentTrack (1 / 2) 2 0).1
        (sampleHit 100 2000 81 108) 0 2 = 81 ∧
    DistOfClosestApproach sqrtQ (sampleAlg false) sampleDetProp bentTrack.End
        (TrackDirection sqrtQ (sampleAlg false) sampleDetProp bentTrack (1 / 2) 2 0).2
        (sampleHit 100 2000 81 108) 0 2 = 104 ∧
    (81 : ℚ) < (sampleAlg false).fDistanceLimit ∧
    (104 : ℚ) ≥ (sampleAlg false).fDistanceLimit ∧
    GetClosestCRTHit sqrtQ (sampleAlg false) sampleDetProp bentTrack (0, 5)
        [sampleHit 100 2000 81 108] 0 =
      some ⟨sampleHit 100 2000 81 108, 2, 104, 130⟩ ∧
    (⟨sampleHit 100 2000 81 108, 2, 104, 130⟩ : matchCand ℚ) ≠ makeNULLmc ∧
    (⟨sampleHit 100 2000 81 108, 2, 104, 130⟩ : matchCand ℚ).dca ≥
      (sampleAlg false).fDistanceLimit ∧
    ClosestCRTHit sqrtQ (sampleAlg false) sampleDetProp bentTrack (0, 5)
        [sampleHit 100 2000 81 108] 0 =
      some (sampleHit 100 2000 81 108, 104) := by
  refine ⟨by decide!, by decide!, by decide!, by decide!, by decide!, by decide!, by decide!,
    by decide!⟩

end PolicyClaims

section InvarianceClaims

variable {α : Type} [LinearOrderedField α] [FloorRing α]

/-- C36: over the reals, for every hit, point `s`, direction `d ≠ 0`, `k ≠ 0` and `t`,
`SimpleDCA(hit, s, k d) = SimpleDCA(hit, s, d) = SimpleDCA(hit, s + t d, d)`; in
particular the value for `d` is the value for the unit vector `d / |d|`. -/
theorem SimpleDCA_reparametrised (hit : CRTHit ℝ) (s d : TVector3 ℝ) (k t : ℝ)
    (hd : d ≠ ⟨0, 0, 0⟩) (hk : k ≠ 0) :
    SimpleDCA Real.sqrt hit s (TVector3.smul k d) = SimpleDCA Real.sqrt hit s d ∧
    SimpleDCA Real.sqrt hit (s + TVector3.smul t d) d = SimpleDCA Real.sqrt hit s d ∧
    (TVector3.smul (1 / d.Mag Real.sqrt) d).Mag Real.sqrt = 1 ∧
    SimpleDCA Real.sqrt hit s (TVector3.smul (1 / d.Mag Real.sqrt) d) =
      SimpleDCA Real.sqrt hit s d := by
  have hscale : ∀ c : ℝ, c ≠ 0 →
      SimpleDCA Real.sqrt hit s (TVector3.smul c d) = SimpleDCA Real.sqrt hit s d := by
    intro c hc
    have hnum : ((⟨hit.x_pos, hit.y_pos, hit.z_pos⟩ - s : TVector3 ℝ).Cross
        (⟨hit.x_pos, hit.y_pos, hit.z_pos⟩ - (s + TVector3.smul c d))).Mag2 =
        c ^ 2 * ((⟨hit.x_pos, hit.y_pos, hit.z_pos⟩ - s : TVector3 ℝ).Cross
          (⟨hit.x_pos, hit.y_pos, hit.z_pos⟩ - (s + d))).Mag2 := by
      simp only [TVector3.Mag2, TVector3.Cross, TVector3.add_X, TVector3.add_Y,
        TVector3.add_Z, TVector3.sub_X, TVector3.sub_Y, TVector3.sub_Z, TVector3.smul_X,
        TVector3.smul_Y, TVector3.smul_Z]
      ring
    have hden : (TVector3.smul c d).Mag2 = c ^ 2 * d.Mag2 := by
      rw [Mag2_smul]
      ring
    have habs : |c| ≠ 0 := abs_ne_zero.mpr hc
    simp only [SimpleDCA, TVector3.Mag]
    rw [hnum, hden, Real.sqrt_mul (sq_nonneg c), Real.sqrt_mul (sq_nonneg c),
      Real.sqrt_sq_eq_abs, mul_div_mul_left _ _ habs]
  have hunit := (unit_or_zero d).1 hd
  have hpos : 0 < d.Mag Real.sqrt := Real.sqrt_pos.mpr (TVector3.Mag2_pos d hd)
  rw [if_pos hpos] at hunit
  refine ⟨hscale k hk, ?_, hunit.2, hscale _ (one_div_ne_zero hpos.ne.symm)⟩
  have hnum : ((⟨hit.x_pos, hit.y_pos, hit.z_pos⟩ - (s + TVector3.smul t d) : TVector3 ℝ).Cross
      (⟨hit.x_pos, hit.y_pos, hit.z_pos⟩ - (s + TVector3.smul t d + d))).Mag2 =
      ((⟨hit.x_pos, hit.y_pos, hit.z_pos⟩ - s : TVector3 ℝ).Cross
        (⟨hit.x_pos, hit.y_pos, hit.z_pos⟩ - (s + d))).Mag2 := by
    simp only [TVector3.Mag2, TVector3.Cross, TVector3.add_X, TVector3.add_Y,
      TVector3.add_Z, TVector3.sub_X, TVector3.sub_Y, TVector3.sub_Z, TVector3.smul_X,
      TVector3.smul_Y, TVector3.smul_Z]
    ring
  simp only [SimpleDCA, TVector3.Mag]
  rw [hnum]

/-- Witness of C36: the hit at `(3, 0, 7)` and the z axis, given by the direction
`(0, 0, 2)` from the origin, by `-3` times it, and from the point of parameter `5`. -/
theorem SimpleDCA_reparametrised_witness :
    (⟨0, 0, 2⟩ : TVector3 ℝ) ≠ ⟨0, 0, 0⟩ ∧ (-3 : ℝ) ≠ 0 ∧
    SimpleDCA Real.sqrt ⟨100, 0, 0, 3, 1, 0, 1, 7, 1⟩ ⟨0, 0, 0⟩
        (TVector3.smul (-3) ⟨0, 0, 2⟩) =
      SimpleDCA Real.sqrt ⟨100, 0, 0, 3, 1, 0, 1, 7, 1⟩ ⟨0, 0, 0⟩ ⟨0, 0, 2⟩ ∧
    SimpleDCA Real.sqrt ⟨100, 0, 0, 3, 1, 0, 1, 7, 1⟩
        (⟨0, 0, 0⟩ + TVector3.smul 5 ⟨0, 0, 2⟩) ⟨0, 0, 2⟩ =
      SimpleDCA Real.sqrt ⟨100, 0, 0, 3, 1, 0, 1, 7, 1⟩ ⟨0, 0, 0⟩ ⟨0, 0, 2⟩ := by
  have hd : (⟨0, 0, 2⟩ : TVector3 ℝ) ≠ ⟨0, 0, 0⟩ := by
    intro h
    have := congrArg TVector3.Z h
    norm_num at this
  have hk : (-3 : ℝ) ≠ 0 := by norm_num
  have h := SimpleDCA_reparametrised ⟨100, 0, 0, 3, 1, 0, 1, 7, 1⟩ ⟨0, 0, 0⟩ ⟨0, 0, 2⟩ (-3) 5
    hd hk
  exact ⟨hd, hk, h.1, h.2.1⟩

/-- C37: with the distortion correction disabled, the pair answered by `TrackDirection`
is the same for every hit time, drift direction and drift velocity: it is the pair
answered for hit time `0` and drift direction `0`. -/
theorem TrackDirection_shift_invariant (sqrt : α → α) (alg : CRTT0MatchAlg α)
    (detProp detProp2 : DetectorPropertiesData α) (track : Track α) (frac CRTtime : α)
    (driftDirection : ℤ)
    (hsce : ¬ (alg.fSCE.EnableCalSpatialSCE = true ∧ alg.fSCEposCorr = true)) :
    TrackDirection sqrt alg detProp track frac CRTtime driftDirection =
      TrackDirection sqrt alg detProp2 track frac 0 0 := by
  simp only [TrackDirection, if_neg hsce, add_sub_add_right_eq_sub, Int.cast_zero, zero_mul,
    add_zero]

/-- Witness of C37: the bent track at hit time `7` with drift direction `-1` and drift
velocity `1`, against hit time `0`, drift direction `0` and drift velocity `3`. -/
theorem TrackDirection_shift_invariant_witness :
    ¬ ((sampleAlg false).fSCE.EnableCalSpatialSCE = true ∧
      (sampleAlg false).fSCEposCorr = true) ∧
    TrackDirection sqrtQ (sampleAlg false) sampleDetProp bentTrack (1 / 2) 7 (-1) =
      TrackDirection sqrtQ (sampleAlg false) ⟨3⟩ bentTrack (1 / 2) 0 0 ∧
    TrackDirection sqrtQ (sampleAlg false) sampleDetProp bentTrack (1 / 2) 7 (-1) =
      (⟨0, 0, 1⟩, ⟨-1, 0, 0⟩) :=
  ⟨by decide!,
    TrackDirection_shift_invariant sqrtQ (sampleAlg false) sampleDetProp ⟨3⟩ bentTrack (1 / 2)
      7 (-1) (by decide!),
    by decide!⟩

end InvarianceClaims

end icarus
